import Mathlib

/-!
Schema auto-migration (`spider/auto_migrate.go`).

A shallow embedding of `getColumnTag`, `getTableOptions`, `createTable`,
`autoIndex` and `autoMigrate`, followed by the properties proved about them.

Conventions of the embedding:

* Go strings are Lean `String`s (valid UTF-8 text).
* `map[string]*OutputConstraint` is an optional association list whose values
  are optional: the outer `none` is the nil map, an inner `none` is a nil
  pointer stored in the map.  Reading a field through a nil pointer panics;
  a panic is the result `none` of the embedded function.
* Everything the code obtains from `gorm` (table name, quoting, catalog
  queries, key names, the outcome of index creation) and the Unicode case
  table behind `strings.ToLower` is a field of `Env`.  The catalog is live:
  `HasColumn` is asked anew before each column, and its answer may depend on
  the calls already issued on the handle (the statements executed so far).
* A Go map is kept as an association list in insertion order; the order in
  which `range` visits it is the field `rangeOrder` of `Env`, which may be any
  rearrangement of the entries.
-/

namespace Spider

/-! ## Data model -/

/-- The struct `OutputConstraint` (auto_migrate.go, lines 10-14). -/
structure OutputConstraint where
  Sql : String
  Index : String
  UniqueIndex : String
  deriving DecidableEq, Repr

/-- The type `map[string]*OutputConstraint`: `none` is the nil map, and a
key bound to `none` holds a nil pointer. -/
abbrev Constraints := Option (List (String × Option OutputConstraint))

/-- The fields of `TaskRule` that the migration code reads (the field name
`OutputConstaints` is spelled as in the source). -/
structure TaskRule where
  Namespace : String
  OutputFields : List String
  OutputConstaints : Constraints
  OutputTableOpts : String
  deriving DecidableEq, Repr

/-- One call made on the database handle: `Raw(sql).Exec()`, `AddIndex` or
`AddUniqueIndex` (with the table it is issued on, the index name and the
columns). -/
inductive Op where
  | exec (sql : String)
  | addIndex (table name : String) (columns : List String)
  | addUniqueIndex (table name : String) (columns : List String)
  deriving DecidableEq, Repr

/-- What a run leaves on the `gorm.Scope`: the calls issued, in order, and the
errors passed to `AddError`, in order. -/
structure Scope where
  ops : List Op
  errors : List String
  deriving DecidableEq, Repr

/-- The collaborators of the migration code.
`unicodeLower` is the lower-case mapping of the Unicode tables for runes
above ASCII; `tableName` and `quotedTableName` are `scope.TableName()` and
`scope.QuotedTableName()` after `scope.Search.Table(namespace)`; `quote` is
`scope.Quote`; `hasTable`, `hasColumn` and `buildKeyName` are the dialect
methods, where `hasColumn` also receives the calls issued on the handle before
the question is asked, so that the answer can reflect the statements already
executed; `addIndex` and `addUniqueIndex` give the `Error` of the handle
returned by the call (`none` when it is nil); `rangeOrder` is the order in
which a `range` over a map visits its entries, some rearrangement of them. -/
structure Env where
  unicodeLower : Char → Char
  tableName : String → String
  quotedTableName : String → String
  quote : String → String
  hasTable : String → Bool
  hasColumn : List Op → String → String → Bool
  buildKeyName : String → String → String → String
  addIndex : String → String → List String → Option String
  addUniqueIndex : String → String → List String → Option String
  rangeOrder : List (String × List String) → List (String × List String)
  rangeOrder_perm : ∀ groups, (rangeOrder groups).Perm groups

/-! ## Go string primitives -/

/-- The function `unicode.ToLower`: ASCII upper-case letters move down by 32, other
ASCII runes are unchanged, and runes above ASCII go through the case table. -/
def toLowerRune (table : Char → Char) (c : Char) : Char :=
  if c.val < 128 then c.toLower else table c

/-- The function `strings.ToLower`. -/
def toLower (table : Char → Char) (s : String) : String :=
  ⟨s.data.map (toLowerRune table)⟩

/-- Whether `sub` occurs in the rune list as a contiguous block. -/
def containsChars (sub : List Char) : List Char → Bool
  | [] => sub.isEmpty
  | c :: cs => sub.isPrefixOf (c :: cs) || containsChars sub cs

/-- The function `strings.Contains`. -/
def contains (s sub : String) : Bool :=
  containsChars sub.data s.data

/-- Replace the first occurrence of `old` by `new`, scanning from the left. -/
def replaceFirstChars (old new : List Char) : List Char → List Char
  | [] => if old.isEmpty then new else []
  | c :: cs =>
    if old.isPrefixOf (c :: cs) then new ++ (c :: cs).drop old.length
    else c :: replaceFirstChars old new cs

/-- The call `strings.Replace(s, old, new, 1)`. -/
def replaceFirst (s old new : String) : String :=
  ⟨replaceFirstChars old.data new.data s.data⟩

/-- The function `strings.Join`. -/
def join (parts : List String) (sep : String) : String :=
  sep.intercalate parts

/-- Split a rune list at every comma; the pieces are never an empty list. -/
def splitCommaChars : List Char → List (List Char)
  | [] => [[]]
  | c :: cs =>
    if c = ',' then [] :: splitCommaChars cs
    else
      match splitCommaChars cs with
      | [] => [[c]]
      | p :: ps => (c :: p) :: ps

/-- The call `strings.Split(s, ",")`. -/
def splitComma (s : String) : List String :=
  (splitCommaChars s.data).map String.mk

/-! ## `getColumnTag` and `getTableOptions` -/

/-- The default column clause of `getColumnTag`. -/
def defaultSqlTag : String := "varchar(255) NOT NULL DEFAULT ''"

/-- The function `getColumnTag` (lines 175-189).  `none` is the panic of `c.Sql` on a
nil pointer found in the map. -/
def getColumnTag (column : String) (constraints : Constraints) : Option String :=
  match constraints with
  | none => some defaultSqlTag
  | some m =>
    match m.lookup column with
    | none => some defaultSqlTag
    | some none => none
    | some (some c) => if c.Sql ≠ "" then some c.Sql else some defaultSqlTag

/-- The function `getTableOptions` (lines 167-173). -/
def getTableOptions (rule : TaskRule) : String :=
  if rule.OutputTableOpts = "" then " CHARSET=utf8mb4" else " " ++ rule.OutputTableOpts

/-! ## `createTable` -/

/-- The locals that the loop of `createTable` updates. -/
structure Columns where
  tags : List String
  primaryKeys : List String
  foundId : Bool
  foundCreatedAt : Bool
  deriving DecidableEq, Repr

/-- The synthetic column appended when no field is named `id` (line 92). -/
def syntheticIdTag : String := "`id` bigint(64) unsigned NOT NULL AUTO_INCREMENT"

/-- The synthetic column appended when no field is named `created_at` (line 96). -/
def syntheticCreatedAtTag : String := "`created_at` datetime NOT NULL DEFAULT CURRENT_TIMESTAMP"

/-- One iteration of the loop of `createTable` (lines 65-89); `none` when
`getColumnTag` panics. -/
def createTableStep (env : Env) (constraints : Constraints) (st : Columns) (field : String) :
    Option Columns :=
  let lowerField := toLower env.unicodeLower field
  match getColumnTag field constraints with
  | none => none
  | some sqlTag =>
    let foundId := if lowerField = "id" then true else st.foundId
    let foundCreatedAt := if lowerField = "created_at" then true else st.foundCreatedAt
    let lowerSqlTag := toLower env.unicodeLower sqlTag
    if contains lowerSqlTag "primary key" then
      some { tags := st.tags ++ [env.quote field ++ " " ++ replaceFirst lowerSqlTag "primary key" ""]
             primaryKeys := st.primaryKeys ++ [env.quote field]
             foundId := foundId
             foundCreatedAt := foundCreatedAt }
    else
      some { tags := st.tags ++ [env.quote field ++ " " ++ sqlTag]
             primaryKeys := st.primaryKeys
             foundId := foundId
             foundCreatedAt := foundCreatedAt }

/-- The loop of `createTable` over `columns`. -/
def createTableLoop (env : Env) (constraints : Constraints) : List String → Columns → Option Columns
  | [], st => some st
  | field :: rest, st =>
    match createTableStep env constraints st field with
    | none => none
    | some st1 => createTableLoop env constraints rest st1

/-- Lines 91-97 of `createTable`: the synthetic `id` and `created_at` columns. -/
def addSynthetic (st : Columns) : Columns :=
  let st1 : Columns :=
    if !st.foundId then
      { st with tags := st.tags ++ [syntheticIdTag], primaryKeys := st.primaryKeys ++ ["id"] }
    else st
  if !st1.foundCreatedAt then { st1 with tags := st1.tags ++ [syntheticCreatedAtTag] } else st1

/-- The values of `tags` and `primaryKeys` when `createTable` reaches line 99. -/
def createTableColumns (env : Env) (rule : TaskRule) : Option Columns :=
  match createTableLoop env rule.OutputConstaints rule.OutputFields ⟨[], [], false, false⟩ with
  | none => none
  | some st => some (addSynthetic st)

/-- Lines 99-102 of `createTable`. -/
def primaryKeyStr (primaryKeys : List String) : String :=
  if primaryKeys.length > 0 then ", PRIMARY KEY (" ++ join primaryKeys "," ++ ")" else ""

/-- The statement formatted on line 104 of `createTable`. -/
def createTableSql (env : Env) (rule : TaskRule) (st : Columns) : String :=
  "CREATE TABLE " ++ env.quotedTableName rule.Namespace ++ " (" ++ join st.tags "," ++ " "
    ++ primaryKeyStr st.primaryKeys ++ ")" ++ getTableOptions rule

/-! ## `autoIndex` -/

/-- The assignment `groups[name] = append(groups[name], field)` on a map kept in insertion
order. -/
def appendGroup (groups : List (String × List String)) (name field : String) :
    List (String × List String) :=
  match groups with
  | [] => [(name, [field])]
  | (n, cols) :: rest =>
    if n = name then (n, cols ++ [field]) :: rest else (n, cols) :: appendGroup rest name field

/-- The inner loop of `autoIndex` over the requested names of one field (lines 131-136 with
`kind = "idx"` and `sentinel = "INDEX"`, lines 143-148 with `"uix"` and `"UNIQUE_INDEX"`). -/
def groupNames (env : Env) (kind sentinel table field : String) :
    List String → List (String × List String) → List (String × List String)
  | [], groups => groups
  | name :: rest, groups =>
    let name1 := if name = sentinel ∨ name = "" then env.buildKeyName kind table field else name
    groupNames env kind sentinel table field rest (appendGroup groups name1 field)

/-- The two maps `indexes` and `uniqueIndexes` of `autoIndex`. -/
structure IndexGroups where
  indexes : List (String × List String)
  uniqueIndexes : List (String × List String)
  deriving DecidableEq, Repr

/-- One iteration of the grouping loop of `autoIndex` (lines 121-150); `none` when the
entry of the field is a nil pointer. -/
def autoIndexStep (env : Env) (table : String) (m : List (String × Option OutputConstraint))
    (g : IndexGroups) (field : String) : Option IndexGroups :=
  match m.lookup field with
  | none => some g
  | some none => none
  | some (some entry) =>
    let indexes :=
      if entry.Index ≠ "" then
        groupNames env "idx" "INDEX" table field (splitComma entry.Index) g.indexes
      else g.indexes
    let uniqueIndexes :=
      if entry.UniqueIndex ≠ "" then
        groupNames env "uix" "UNIQUE_INDEX" table field (splitComma entry.UniqueIndex)
          g.uniqueIndexes
      else g.uniqueIndexes
    some ⟨indexes, uniqueIndexes⟩

/-- The grouping loop of `autoIndex` over `cols`. -/
def autoIndexLoop (env : Env) (table : String) (m : List (String × Option OutputConstraint)) :
    List String → IndexGroups → Option IndexGroups
  | [], g => some g
  | field :: rest, g =>
    match autoIndexStep env table m g field with
    | none => none
    | some g1 => autoIndexLoop env table m rest g1

/-- Lines 152-156 of `autoIndex`, over the groups in the order `range` visits them. -/
def addIndexes (env : Env) (table : String) : List (String × List String) → Scope → Scope
  | [], scope => scope
  | (name, columns) :: rest, scope =>
    let issued : Scope := { scope with ops := scope.ops ++ [Op.addIndex table name columns] }
    match env.addIndex table name columns with
    | some err => addIndexes env table rest { issued with errors := issued.errors ++ [err] }
    | none => addIndexes env table rest issued

/-- Lines 158-162 of `autoIndex`, over the groups in the order `range` visits them. -/
def addUniqueIndexes (env : Env) (table : String) : List (String × List String) → Scope → Scope
  | [], scope => scope
  | (name, columns) :: rest, scope =>
    let issued : Scope := { scope with ops := scope.ops ++ [Op.addUniqueIndex table name columns] }
    match env.addUniqueIndex table name columns with
    | some err => addUniqueIndexes env table rest { issued with errors := issued.errors ++ [err] }
    | none => addUniqueIndexes env table rest issued

/-- The function `autoIndex` (lines 110-165). -/
def autoIndex (env : Env) (rule : TaskRule) (scope : Scope) : Option Scope :=
  match rule.OutputConstaints with
  | none => some scope
  | some m =>
    let table := env.tableName rule.Namespace
    match autoIndexLoop env table m rule.OutputFields ⟨[], []⟩ with
    | none => none
    | some g =>
      some (addUniqueIndexes env table (env.rangeOrder g.uniqueIndexes)
        (addIndexes env table (env.rangeOrder g.indexes) scope))

/-- The function `createTable` (lines 55-108). -/
def createTable (env : Env) (rule : TaskRule) (scope : Scope) : Option Scope :=
  match createTableColumns env rule with
  | none => none
  | some st =>
    autoIndex env rule { scope with ops := scope.ops ++ [Op.exec (createTableSql env rule st)] }

/-! ## `autoMigrate` -/

/-- The statement formatted on line 47 of `autoMigrate`. -/
def addColumnSql (env : Env) (rule : TaskRule) (field sqlTag : String) : String :=
  "ALTER TABLE " ++ env.quotedTableName rule.Namespace ++ " ADD " ++ env.quote field ++ " "
    ++ sqlTag ++ ";"

/-- The loop of `autoMigrate` over `columns` (lines 44-49): `HasColumn` is asked for each
field in turn, on the handle as the statements executed so far have left it. -/
def addColumns (env : Env) (rule : TaskRule) : List String → Scope → Option Scope
  | [], scope => some scope
  | field :: rest, scope =>
    if !env.hasColumn scope.ops (env.tableName rule.Namespace) field then
      match getColumnTag field rule.OutputConstaints with
      | none => none
      | some sqlTag =>
        addColumns env rule rest
          { scope with ops := scope.ops ++ [Op.exec (addColumnSql env rule field sqlTag)] }
    else addColumns env rule rest scope

/-- The function `autoMigrate` (lines 33-53). -/
def autoMigrate (env : Env) (rule : TaskRule) (scope : Scope) : Option Scope :=
  if !env.hasTable (env.tableName rule.Namespace) then createTable env rule scope
  else
    match addColumns env rule rule.OutputFields scope with
    | none => none
    | some scope1 => autoIndex env rule scope1

/-- The function `AutoMigrateHack` (lines 25-31), on a handle that has issued nothing yet. -/
def AutoMigrateHack (env : Env) (rule : TaskRule) : Option Scope :=
  autoMigrate env rule ⟨[], []⟩

/-! ## Reading the calls and the statements -/

/-- The statements among the calls issued on the handle. -/
def execs : List Op → List String
  | [] => []
  | Op.exec sql :: rest => sql :: execs rest
  | _ :: rest => execs rest

/-- The statement begins with the given keyword phrase. -/
def beginsWith (phrase sql : String) : Bool :=
  phrase.data.isPrefixOf sql.data

/-! ## A concrete environment for evaluation -/

/-- An environment in the manner of the MySQL dialect: identifiers are quoted with
backticks, key names are `kind_table_column`, the catalog holds the tables and columns
listed together with the columns of the `ALTER TABLE ... ADD` statements executed so far,
every index operation succeeds and maps are visited in insertion order. -/
def listEnv (tables : List String) (columns : List (String × String)) : Env where
  unicodeLower := fun c => c
  tableName := fun ns => ns
  quotedTableName := fun ns => "`" ++ ns ++ "`"
  quote := fun s => "`" ++ s ++ "`"
  hasTable := fun t => decide (t ∈ tables)
  hasColumn := fun ops t c =>
    decide ((t, c) ∈ columns) ||
      (execs ops).any (fun sql => beginsWith ("ALTER TABLE `" ++ t ++ "` ADD `" ++ c ++ "` ") sql)
  buildKeyName := fun kind table column => kind ++ "_" ++ table ++ "_" ++ column
  addIndex := fun _ _ _ => none
  addUniqueIndex := fun _ _ _ => none
  rangeOrder := fun groups => groups
  rangeOrder_perm := fun groups => List.Perm.refl groups

/-! ## Vocabulary of the statements -/

/-- The phrase that `createTable` looks for in a column clause. -/
def primaryKeyPhrase : String := "primary key"

/-- A field is named `name` up to letter case: the test `lowerField == name`. -/
def isNamed (env : Env) (name field : String) : Bool :=
  decide (toLower env.unicodeLower field = name)

/-- A resolved clause contains the phrase "primary key" in some letter casing. -/
def marksPrimaryKey (env : Env) (sqlTag : String) : Bool :=
  contains (toLower env.unicodeLower sqlTag) primaryKeyPhrase

/-- The constraints map binds the field to a nil pointer. -/
def HasNilEntry (constraints : Constraints) (field : String) : Prop :=
  ∃ m, constraints = some m ∧ m.lookup field = some none

/-- The list `sqlTags` holds, field by field, the clause `getColumnTag` resolves. -/
def Resolved (constraints : Constraints) (fields sqlTags : List String) : Prop :=
  List.Forall₂ (fun field sqlTag => getColumnTag field constraints = some sqlTag) fields sqlTags

/-- The column clause `createTable` appends to `tags` for a field whose resolved clause
is `sqlTag`, as the two branches of lines 79-84 build it. -/
def emittedTag (env : Env) (field sqlTag : String) : String :=
  if marksPrimaryKey env sqlTag then
    env.quote field ++ " " ++ replaceFirst (toLower env.unicodeLower sqlTag) primaryKeyPhrase ""
  else env.quote field ++ " " ++ sqlTag

/-- The quoted names of the fields whose resolved clause marks a primary key, in the
order of the fields. -/
def declaredKeys (env : Env) (fields sqlTags : List String) : List String :=
  ((fields.zip sqlTags).filter (fun p => marksPrimaryKey env p.2)).map (fun p => env.quote p.1)

/-- The groups `autoIndex` has built when it reaches line 152 (both maps are empty when
the rule has no constraints map). -/
def autoIndexGroups (env : Env) (rule : TaskRule) : Option IndexGroups :=
  match rule.OutputConstaints with
  | none => some ⟨[], []⟩
  | some m => autoIndexLoop env (env.tableName rule.Namespace) m rule.OutputFields ⟨[], []⟩

/-- The index operations among the calls issued on the handle. -/
def indexOps : List Op → List Op
  | [] => []
  | Op.exec _ :: rest => indexOps rest
  | op :: rest => op :: indexOps rest

/-- The calls `autoIndex` adds once the groups are built: one per plain group, then one
per unique group, each in the order `range` visits the map. -/
def indexCalls (env : Env) (rule : TaskRule) (g : IndexGroups) : List Op :=
  (env.rangeOrder g.indexes).map (fun p => Op.addIndex (env.tableName rule.Namespace) p.1 p.2)
    ++ (env.rangeOrder g.uniqueIndexes).map
        (fun p => Op.addUniqueIndex (env.tableName rule.Namespace) p.1 p.2)

/-- The name under which `autoIndex` files a requested piece (lines 132-134 with
`kind = "idx"` and `sentinel = "INDEX"`, lines 144-146 with `"uix"` and `"UNIQUE_INDEX"`). -/
def resolveName (env : Env) (kind sentinel table field name : String) : String :=
  if name = sentinel ∨ name = "" then env.buildKeyName kind table field else name

/-- The `Index` or `UniqueIndex` spec that `autoIndex` reads for a field: the selected
field of its entry, and the empty string when the map has no entry for it. -/
def specOf (m : List (String × Option OutputConstraint)) (sel : OutputConstraint → String)
    (field : String) : String :=
  match m.lookup field with
  | some (some entry) => sel entry
  | _ => ""

/-- The requested names of a spec: its comma-separated pieces, and none when the spec is
empty (the tests of lines 128 and 140). -/
def piecesOf (spec : String) : List String :=
  if spec ≠ "" then splitComma spec else []

/-- The columns of the group called `name`; the empty list when there is no such group. -/
def colsOf (name : String) (groups : List (String × List String)) : List String :=
  (groups.lookup name).getD []

/-- The number of times `field` is listed across all the groups. -/
def listed (field : String) (groups : List (String × List String)) : Nat :=
  (groups.map (fun p => p.2.count field)).sum

/-- The columns that one pass of `autoIndex` files under `name`: each field of `fields`, in
order, once for every piece of its spec that resolves to `name`. -/
def filedUnder (env : Env) (kind sentinel table : String)
    (m : List (String × Option OutputConstraint)) (sel : OutputConstraint → String)
    (name : String) : List String → List String
  | [] => []
  | field :: rest =>
    List.replicate
        (((piecesOf (specOf m sel field)).map (resolveName env kind sentinel table field)).count
          name) field
      ++ filedUnder env kind sentinel table m sel name rest

/-- The invariant of the maps of `autoIndex`: keys are distinct and no group is empty. -/
def GroupsOk (groups : List (String × List String)) : Prop :=
  (groups.map Prod.fst).Nodup ∧ ∀ p ∈ groups, p.2 ≠ []

/-- One pass of the grouping loop of `autoIndex` taken alone: the fields in order, each
filing its requested names into the map. -/
def passOver (env : Env) (kind sentinel table : String)
    (m : List (String × Option OutputConstraint)) (sel : OutputConstraint → String) :
    List String → List (String × List String) → List (String × List String)
  | [], groups => groups
  | field :: rest, groups =>
    passOver env kind sentinel table m sel rest
      (groupNames env kind sentinel table field (piecesOf (specOf m sel field)) groups)

/-- The constraints with every `UniqueIndex` blanked: two rules differ only in
`UniqueIndex` fields when this gives the same constraints for both. -/
def withoutUniqueIndex (constraints : Constraints) : Constraints :=
  constraints.map
    (List.map (fun e => (e.1, e.2.map (fun c => { c with UniqueIndex := "" }))))

/-- The constraints with every `Index` blanked: two rules differ only in `Index` fields
when this gives the same constraints for both. -/
def withoutIndex (constraints : Constraints) : Constraints :=
  constraints.map
    (List.map (fun e => (e.1, e.2.map (fun c => { c with Index := "" }))))

/-- The catalog is live and keeps the columns of the rule apart: once the
`ALTER TABLE ... ADD` of one `OutputFields` column has been executed, the catalog reports
that column, and its answer for every other `OutputFields` column is what it was. -/
def LiveCatalog (env : Env) (rule : TaskRule) : Prop :=
  ∀ (history : List Op) (added sqlTag field : String),
    added ∈ rule.OutputFields → field ∈ rule.OutputFields →
    getColumnTag added rule.OutputConstaints = some sqlTag →
    env.hasColumn (history ++ [Op.exec (addColumnSql env rule added sqlTag)])
        (env.tableName rule.Namespace) field
      = (env.hasColumn history (env.tableName rule.Namespace) field || decide (field = added))

/-! ## Sample inputs -/

/-- A catalog without tables, for the runs that create the table. -/
def emptyCatalog : Env := listEnv [] []

/-- A catalog that has the table `t` with the column `id` only. -/
def idOnlyCatalog : Env := listEnv ["t"] [("t", "id")]

/-- A rule with one column that asks for a plain index under the conventional name. -/
def indexedRule : TaskRule :=
  { Namespace := "t"
    OutputFields := ["a"]
    OutputConstaints := some [("a", some ⟨"", "INDEX", ""⟩)]
    OutputTableOpts := "" }

/-- A catalog that has the table `t` with the column `a`. -/
def migratedCatalog : Env := listEnv ["t"] [("t", "a")]

/-- A rule whose only column states the phrase twice. -/
def twoPhraseRule : TaskRule :=
  { Namespace := "t"
    OutputFields := ["a"]
    OutputConstaints := some [("a", some ⟨"INT PRIMARY KEY PRIMARY KEY", "", ""⟩)]
    OutputTableOpts := "" }

/-- The rule of the specification's example: fields `id` and `name`, with `id` declared
`INT NOT NULL PRIMARY KEY`. -/
def idNameRule : TaskRule :=
  { Namespace := "t"
    OutputFields := ["id", "name"]
    OutputConstaints := some [("id", some ⟨"INT NOT NULL PRIMARY KEY", "", ""⟩)]
    OutputTableOpts := "" }



/-- Two columns, `a` asking for the conventional index name and `c` naming `idx_t_a`, the
conventional name of `a`. -/
def sentinelClashRule : TaskRule :=
  { Namespace := "t"
    OutputFields := ["a", "c"]
    OutputConstaints := some [("a", some ⟨"", "INDEX", ""⟩), ("c", some ⟨"", "idx_t_a", ""⟩)]
    OutputTableOpts := "" }

/-- Two columns, `a` naming `idx_t_b` and `b` asking for the conventional index name, which
is `idx_t_b`. -/
def namedClashRule : TaskRule :=
  { Namespace := "t"
    OutputFields := ["a", "b"]
    OutputConstaints := some [("a", some ⟨"", "idx_t_b", ""⟩), ("b", some ⟨"", "INDEX", ""⟩)]
    OutputTableOpts := "" }

/-- Two columns that both ask for the conventional index name. -/
def twoSentinelRule : TaskRule :=
  { Namespace := "t"
    OutputFields := ["a", "b"]
    OutputConstaints := some [("a", some ⟨"", "INDEX", ""⟩), ("b", some ⟨"", "INDEX", ""⟩)]
    OutputTableOpts := "" }

/-- A catalog without tables in which every index operation fails, with an error that
names the index. -/
def failingCatalog : Env :=
  { listEnv [] [] with
    addIndex := fun _ name _ => some ("index " ++ name ++ " failed")
    addUniqueIndex := fun _ name _ => some ("unique index " ++ name ++ " failed") }

/-- A rule whose column asks for a plain index and for a unique index. -/
def bothIndexesRule : TaskRule :=
  { Namespace := "t"
    OutputFields := ["a"]
    OutputConstaints := some [("a", some ⟨"", "INDEX", "UNIQUE_INDEX"⟩)]
    OutputTableOpts := "" }

/-- A catalog that has the table `t` without any column. -/
def emptyTableCatalog : Env := listEnv ["t"] []

/-- A rule that lists the column `a` twice. -/
def twiceRule : TaskRule :=
  { Namespace := "t"
    OutputFields := ["a", "a"]
    OutputConstaints := none
    OutputTableOpts := "" }

/-- A rule whose two columns differ in letter case only. -/
def caseRule : TaskRule :=
  { Namespace := "t"
    OutputFields := ["a", "A"]
    OutputConstaints := none
    OutputTableOpts := "" }

/-- A live catalog that has the table `t` without any column and compares column names
without regard to letter case, as MySQL does under its default collation: after
`ALTER TABLE ... ADD` of the column `a` it reports both `a` and `A`. -/
def foldingCatalog : Env :=
  { listEnv ["t"] [] with
    hasColumn := fun ops t c =>
      (execs ops).any (fun sql =>
        beginsWith (toLower (fun r => r) ("ALTER TABLE `" ++ t ++ "` ADD `" ++ c ++ "` "))
          (toLower (fun r => r) sql)) }

/-! ## Lemmas on `getColumnTag` -/

theorem getColumnTag_eq_none_iff (column : String) (constraints : Constraints) :
    getColumnTag column constraints = none ↔ HasNilEntry constraints column := by
  unfold getColumnTag HasNilEntry
  cases constraints with
  | none => simp
  | some m =>
    cases h : m.lookup column with
    | none => simp [h]
    | some e =>
      cases e with
      | none => simp [h]
      | some c => by_cases hs : c.Sql = "" <;> simp [h, hs]

theorem resolved_of_no_nil (constraints : Constraints) :
    ∀ fields : List String, (∀ f ∈ fields, ¬ HasNilEntry constraints f) →
      ∃ sqlTags, Resolved constraints fields sqlTags
  | [], _ => ⟨[], List.Forall₂.nil⟩
  | f :: fs, h => by
    obtain ⟨ts, hts⟩ :=
      resolved_of_no_nil constraints fs (fun g hg => h g (List.mem_cons_of_mem _ hg))
    cases hf : getColumnTag f constraints with
    | none =>
      exact absurd ((getColumnTag_eq_none_iff f constraints).1 hf) (h f (List.mem_cons_self _ _))
    | some t => exact ⟨t :: ts, List.Forall₂.cons hf hts⟩

theorem no_nil_of_resolved {constraints : Constraints} {fields sqlTags : List String}
    (h : Resolved constraints fields sqlTags) : ∀ f ∈ fields, ¬ HasNilEntry constraints f := by
  induction h with
  | nil => simp
  | @cons f t fs ts hft _ ih =>
    intro g hg
    rcases List.mem_cons.1 hg with rfl | hg
    · intro hn
      rw [(getColumnTag_eq_none_iff g constraints).2 hn] at hft
      exact Option.noConfusion hft
    · exact ih g hg

/-! ## Lemmas on the loop of `createTable` -/

theorem createTableLoop_eq (env : Env) (constraints : Constraints) :
    ∀ (fields sqlTags : List String) (st : Columns), Resolved constraints fields sqlTags →
      createTableLoop env constraints fields st = some
        { tags := st.tags ++ List.zipWith (emittedTag env) fields sqlTags
          primaryKeys := st.primaryKeys ++ declaredKeys env fields sqlTags
          foundId := st.foundId || fields.any (isNamed env "id")
          foundCreatedAt := st.foundCreatedAt || fields.any (isNamed env "created_at") } := by
  intro fields sqlTags st h
  induction h generalizing st with
  | nil => simp [createTableLoop, declaredKeys]
  | @cons f t fs ts hft _ ih =>
    simp only [createTableLoop, createTableStep, hft]
    by_cases hpk : marksPrimaryKey env t = true
    · have hpk2 : contains (toLower env.unicodeLower t) "primary key" = true := hpk
      simp only [hpk2, if_true, ih, List.zipWith_cons_cons, declaredKeys, hpk, List.any_cons,
        isNamed, List.append_assoc, List.singleton_append, primaryKeyPhrase, emittedTag,
        List.zip_cons_cons, List.filter_cons, List.map_cons]
      by_cases h1 : toLower env.unicodeLower f = "id" <;>
        by_cases h2 : toLower env.unicodeLower f = "created_at" <;> simp [h1, h2]
    · have hpk2 : contains (toLower env.unicodeLower t) "primary key" = false := by
        simpa [marksPrimaryKey, primaryKeyPhrase] using hpk
      simp only [hpk2, ih, List.zipWith_cons_cons, declaredKeys, hpk, List.any_cons,
        isNamed, List.append_assoc, List.singleton_append, primaryKeyPhrase, emittedTag,
        List.zip_cons_cons, List.filter_cons, List.map_cons]
      by_cases h1 : toLower env.unicodeLower f = "id" <;>
        by_cases h2 : toLower env.unicodeLower f = "created_at" <;> simp [h1, h2]

/-- The loop of `createTable` returns exactly when `getColumnTag` returns on every
field, that is when no field is bound to a nil pointer. -/
theorem createTableLoop_isSome_iff (env : Env) (constraints : Constraints) :
    ∀ (fields : List String) (st : Columns),
      (∃ st1, createTableLoop env constraints fields st = some st1) ↔
        ∀ f ∈ fields, ¬ HasNilEntry constraints f := by
  intro fields st
  constructor
  · intro h
    induction fields generalizing st with
    | nil => simp
    | cons f fs ih =>
      obtain ⟨st1, h1⟩ := h
      simp only [createTableLoop] at h1
      cases hstep : createTableStep env constraints st f with
      | none => simp [hstep] at h1
      | some st2 =>
        simp only [hstep] at h1
        intro g hg
        rcases List.mem_cons.1 hg with rfl | hg
        · intro hn
          have hnone := (getColumnTag_eq_none_iff g constraints).2 hn
          simp [createTableStep, hnone] at hstep
        · exact ih st2 ⟨st1, h1⟩ g hg
  · intro h
    obtain ⟨sqlTags, hres⟩ := resolved_of_no_nil constraints fields h
    exact ⟨_, createTableLoop_eq env constraints fields sqlTags st hres⟩

/-- The function `createTable` builds its columns exactly on the rules without a field bound
to a nil pointer. -/
theorem createTableColumns_isSome_iff (env : Env) (rule : TaskRule) :
    (∃ st, createTableColumns env rule = some st) ↔
      ∀ f ∈ rule.OutputFields, ¬ HasNilEntry rule.OutputConstaints f := by
  rw [← createTableLoop_isSome_iff env rule.OutputConstaints rule.OutputFields
    ⟨[], [], false, false⟩]
  unfold createTableColumns
  cases createTableLoop env rule.OutputConstaints rule.OutputFields ⟨[], [], false, false⟩ <;>
    simp

theorem createTableColumns_eq (env : Env) (rule : TaskRule) (sqlTags : List String)
    (h : Resolved rule.OutputConstaints rule.OutputFields sqlTags) :
    createTableColumns env rule = some
      { tags := List.zipWith (emittedTag env) rule.OutputFields sqlTags
          ++ (if rule.OutputFields.any (isNamed env "id") then [] else [syntheticIdTag])
          ++ (if rule.OutputFields.any (isNamed env "created_at") then []
              else [syntheticCreatedAtTag])
        primaryKeys := declaredKeys env rule.OutputFields sqlTags
          ++ (if rule.OutputFields.any (isNamed env "id") then [] else ["id"])
        foundId := rule.OutputFields.any (isNamed env "id")
        foundCreatedAt := rule.OutputFields.any (isNamed env "created_at") } := by
  simp only [createTableColumns, createTableLoop_eq env _ _ _ _ h, addSynthetic]
  cases rule.OutputFields.any (isNamed env "id") <;>
    cases rule.OutputFields.any (isNamed env "created_at") <;> simp

/-! ## Lemmas on `autoIndex` -/

theorem execs_append (xs ys : List Op) : execs (xs ++ ys) = execs xs ++ execs ys := by
  induction xs with
  | nil => rfl
  | cons x xs ih => cases x <;> simp [execs, ih]

theorem indexOps_append (xs ys : List Op) : indexOps (xs ++ ys) = indexOps xs ++ indexOps ys := by
  induction xs with
  | nil => rfl
  | cons x xs ih => cases x <;> simp [indexOps, ih]

theorem addIndexes_ops (env : Env) (table : String) :
    ∀ (groups : List (String × List String)) (scope : Scope),
      (addIndexes env table groups scope).ops
        = scope.ops ++ groups.map (fun g => Op.addIndex table g.1 g.2)
  | [], scope => by simp [addIndexes]
  | (name, columns) :: rest, scope => by
    simp only [addIndexes]
    cases env.addIndex table name columns <;>
      simp [addIndexes_ops env table rest]

theorem addUniqueIndexes_ops (env : Env) (table : String) :
    ∀ (groups : List (String × List String)) (scope : Scope),
      (addUniqueIndexes env table groups scope).ops
        = scope.ops ++ groups.map (fun g => Op.addUniqueIndex table g.1 g.2)
  | [], scope => by simp [addUniqueIndexes]
  | (name, columns) :: rest, scope => by
    simp only [addUniqueIndexes]
    cases env.addUniqueIndex table name columns <;>
      simp [addUniqueIndexes_ops env table rest]

theorem execs_map_addIndex (table : String) (groups : List (String × List String)) :
    execs (groups.map (fun g => Op.addIndex table g.1 g.2)) = [] := by
  induction groups with
  | nil => rfl
  | cons g gs ih => simpa [execs] using ih

theorem execs_map_addUniqueIndex (table : String) (groups : List (String × List String)) :
    execs (groups.map (fun g => Op.addUniqueIndex table g.1 g.2)) = [] := by
  induction groups with
  | nil => rfl
  | cons g gs ih => simpa [execs] using ih

theorem indexOps_map_addIndex (table : String) (groups : List (String × List String)) :
    indexOps (groups.map (fun g => Op.addIndex table g.1 g.2))
      = groups.map (fun g => Op.addIndex table g.1 g.2) := by
  induction groups with
  | nil => rfl
  | cons g gs ih => simpa [indexOps] using ih

theorem indexOps_map_addUniqueIndex (table : String) (groups : List (String × List String)) :
    indexOps (groups.map (fun g => Op.addUniqueIndex table g.1 g.2))
      = groups.map (fun g => Op.addUniqueIndex table g.1 g.2) := by
  induction groups with
  | nil => rfl
  | cons g gs ih => simpa [indexOps] using ih

theorem rangeOrder_nil (env : Env) : env.rangeOrder [] = [] :=
  List.Perm.eq_nil (env.rangeOrder_perm [])

theorem autoIndex_eq (env : Env) (rule : TaskRule) (scope : Scope) :
    autoIndex env rule scope =
      match autoIndexGroups env rule with
      | none => none
      | some g =>
        some (addUniqueIndexes env (env.tableName rule.Namespace) (env.rangeOrder g.uniqueIndexes)
          (addIndexes env (env.tableName rule.Namespace) (env.rangeOrder g.indexes) scope)) := by
  unfold autoIndex autoIndexGroups
  cases rule.OutputConstaints with
  | none => simp [rangeOrder_nil, addIndexes, addUniqueIndexes]
  | some m => rfl

theorem autoIndexLoop_isSome (env : Env) (table : String)
    (m : List (String × Option OutputConstraint)) :
    ∀ (fields : List String) (g : IndexGroups), (∀ f ∈ fields, m.lookup f ≠ some none) →
      ∃ g1, autoIndexLoop env table m fields g = some g1
  | [], g, _ => ⟨g, rfl⟩
  | f :: fs, g, h => by
    have hf := h f (List.mem_cons_self _ _)
    have hfs : ∀ x ∈ fs, m.lookup x ≠ some none := fun x hx => h x (List.mem_cons_of_mem _ hx)
    simp only [autoIndexLoop, autoIndexStep]
    cases hl : m.lookup f with
    | none => exact autoIndexLoop_isSome env table m fs _ hfs
    | some e =>
      cases e with
      | none => exact absurd hl hf
      | some c => exact autoIndexLoop_isSome env table m fs _ hfs

theorem autoIndexGroups_isSome (env : Env) (rule : TaskRule)
    (h : ∀ f ∈ rule.OutputFields, ¬ HasNilEntry rule.OutputConstaints f) :
    ∃ g, autoIndexGroups env rule = some g := by
  unfold autoIndexGroups
  cases hc : rule.OutputConstaints with
  | none => exact ⟨_, rfl⟩
  | some m =>
    apply autoIndexLoop_isSome
    intro f hf hn
    exact h f hf ⟨m, hc, hn⟩

theorem autoIndex_ops (env : Env) (rule : TaskRule) (scope scope1 : Scope)
    (h : autoIndex env rule scope = some scope1) :
    ∃ g, autoIndexGroups env rule = some g ∧ scope1.ops = scope.ops ++ indexCalls env rule g := by
  rw [autoIndex_eq] at h
  cases hg : autoIndexGroups env rule with
  | none => simp [hg] at h
  | some g =>
    simp only [hg, Option.some.injEq] at h
    refine ⟨g, rfl, ?_⟩
    rw [← h, addUniqueIndexes_ops, addIndexes_ops, indexCalls, List.append_assoc]

theorem execs_indexCalls (env : Env) (rule : TaskRule) (g : IndexGroups) :
    execs (indexCalls env rule g) = [] := by
  simp [indexCalls, execs_append, execs_map_addIndex, execs_map_addUniqueIndex]

theorem indexOps_indexCalls (env : Env) (rule : TaskRule) (g : IndexGroups) :
    indexOps (indexCalls env rule g) = indexCalls env rule g := by
  simp [indexCalls, indexOps_append, indexOps_map_addIndex, indexOps_map_addUniqueIndex]

theorem autoIndex_isSome (env : Env) (rule : TaskRule) (scope : Scope) (g : IndexGroups)
    (hg : autoIndexGroups env rule = some g) :
    ∃ scope1, autoIndex env rule scope = some scope1 ∧
      scope1.ops = scope.ops ++ indexCalls env rule g := by
  cases ha : autoIndex env rule scope with
  | none => rw [autoIndex_eq, hg] at ha; exact Option.noConfusion ha
  | some scope1 =>
    obtain ⟨g1, hg1, hops⟩ := autoIndex_ops env rule scope scope1 ha
    rw [hg] at hg1
    cases hg1
    exact ⟨scope1, rfl, hops⟩

/-- What `createTable` does on a rule without nil entries: it builds the columns, issues
the one statement, then the index calls. -/
theorem createTable_eq (env : Env) (rule : TaskRule) (scope : Scope) (st : Columns)
    (g : IndexGroups) (hst : createTableColumns env rule = some st)
    (hg : autoIndexGroups env rule = some g) :
    ∃ scope1, createTable env rule scope = some scope1 ∧
      scope1.ops = scope.ops ++ Op.exec (createTableSql env rule st) :: indexCalls env rule g := by
  obtain ⟨scope1, h1, h2⟩ := autoIndex_isSome env rule
    { scope with ops := scope.ops ++ [Op.exec (createTableSql env rule st)] } g hg
  refine ⟨scope1, ?_, ?_⟩
  · simp only [createTable, hst, h1]
  · simp [h2]

theorem idNameRule_resolved :
    Resolved idNameRule.OutputConstaints idNameRule.OutputFields
      ["INT NOT NULL PRIMARY KEY", "varchar(255) NOT NULL DEFAULT ''"] :=
  List.Forall₂.cons (by decide) (List.Forall₂.cons (by decide) List.Forall₂.nil)

theorem declaredKeys_eq_nil_iff (env : Env) {constraints : Constraints}
    {fields sqlTags : List String} (h : Resolved constraints fields sqlTags) :
    declaredKeys env fields sqlTags = [] ↔ sqlTags.any (marksPrimaryKey env) = false := by
  induction h with
  | nil => simp [declaredKeys]
  | @cons f t fs ts _ _ ih =>
    simp only [declaredKeys, List.zip_cons_cons, List.filter_cons, List.any_cons] at ih ⊢
    cases hpk : marksPrimaryKey env t <;> simp [ih]

theorem any_isNamed_eq_false (env : Env) (name : String) (fields : List String) :
    fields.any (isNamed env name) = false ↔ ∀ f ∈ fields, toLower env.unicodeLower f ≠ name := by
  simp [isNamed]

theorem any_isNamed_eq_true (env : Env) (name : String) (fields : List String) :
    fields.any (isNamed env name) = true ↔ ∃ f ∈ fields, toLower env.unicodeLower f = name := by
  simp [isNamed]

/-- What `createTable` and `autoMigrate` do on a rule whose clauses resolve: the columns
are those of `createTableColumns_eq` and the only statement issued is the `CREATE TABLE`. -/
theorem createTable_run (env : Env) (rule : TaskRule) (scope : Scope) (sqlTags : List String)
    (h : Resolved rule.OutputConstaints rule.OutputFields sqlTags) :
    ∃ st scope1, createTableColumns env rule = some st ∧
      createTable env rule scope = some scope1 ∧
      (env.hasTable (env.tableName rule.Namespace) = false →
        autoMigrate env rule scope = some scope1) ∧
      execs scope1.ops = execs scope.ops ++ [createTableSql env rule st] ∧
      st.tags = List.zipWith (emittedTag env) rule.OutputFields sqlTags
        ++ (if rule.OutputFields.any (isNamed env "id") then [] else [syntheticIdTag])
        ++ (if rule.OutputFields.any (isNamed env "created_at") then []
            else [syntheticCreatedAtTag]) ∧
      st.primaryKeys = declaredKeys env rule.OutputFields sqlTags
        ++ (if rule.OutputFields.any (isNamed env "id") then [] else ["id"]) := by
  obtain ⟨g, hg⟩ := autoIndexGroups_isSome env rule (no_nil_of_resolved h)
  have hst := createTableColumns_eq env rule sqlTags h
  obtain ⟨scope1, hc, hops⟩ := createTable_eq env rule scope _ g hst hg
  refine ⟨_, scope1, hst, hc, ?_, ?_, rfl, rfl⟩
  · intro ht
    simp [autoMigrate, ht, hc]
  · rw [hops, execs_append]
    simp [execs, execs_indexCalls]

/-- A rule without a field named `id`. -/
theorem nameRule_resolved :
    Resolved (none : Constraints) ["name"] ["varchar(255) NOT NULL DEFAULT ''"] :=
  List.Forall₂.cons (by decide) List.Forall₂.nil

/-! ## Lemmas on `strings.Contains` and `strings.Replace` -/

theorem containsChars_length_le (sub : List Char) :
    ∀ s : List Char, containsChars sub s = true → sub.length ≤ s.length
  | [], h => by
    simp only [containsChars, List.isEmpty_iff] at h
    simp [h]
  | c :: cs, h => by
    simp only [containsChars, Bool.or_eq_true] at h
    rcases h with h | h
    · exact (List.isPrefixOf_iff_prefix.1 h).length_le
    · exact Nat.le_succ_of_le (containsChars_length_le sub cs h)

theorem containsChars_dropLast (sub : List Char) (hne : sub ≠ []) :
    containsChars sub sub.dropLast = false := by
  cases hc : containsChars sub sub.dropLast with
  | false => rfl
  | true =>
    have h1 := containsChars_length_le sub _ hc
    have h2 : 0 < sub.length := List.length_pos.2 hne
    rw [List.length_dropLast] at h1
    omega

/-- When `old` occurs in `s`, the replacement cuts `s` at the first occurrence: `s` is
`pre ++ old ++ post` with no occurrence starting inside `pre`, and the result is
`pre ++ new ++ post`. -/
theorem replaceFirstChars_of_contains (old new : List Char) (hne : old ≠ []) :
    ∀ s : List Char, containsChars old s = true →
      ∃ pre post, s = pre ++ old ++ post ∧ containsChars old (pre ++ old.dropLast) = false ∧
        replaceFirstChars old new s = pre ++ new ++ post
  | [], h => by
    simp only [containsChars, List.isEmpty_iff] at h
    exact absurd h hne
  | c :: cs, h => by
    by_cases hp : old.isPrefixOf (c :: cs) = true
    · obtain ⟨post, hpost⟩ := List.isPrefixOf_iff_prefix.1 hp
      refine ⟨[], post, by simpa using hpost.symm, ?_, ?_⟩
      · simpa using containsChars_dropLast old hne
      · simp only [replaceFirstChars, hp, if_true, List.nil_append]
        rw [← hpost, List.drop_left]
    · have hcs : containsChars old cs = true := by
        simp only [containsChars, Bool.or_eq_true] at h
        exact h.resolve_left hp
      obtain ⟨pre, post, hs, hfirst, hrep⟩ := replaceFirstChars_of_contains old new hne cs hcs
      refine ⟨c :: pre, post, by simp [hs], ?_, ?_⟩
      · have hq : old.isPrefixOf (c :: (pre ++ old.dropLast)) = false := by
          cases hq : old.isPrefixOf (c :: (pre ++ old.dropLast)) with
          | false => rfl
          | true =>
            exfalso
            apply hp
            apply List.isPrefixOf_iff_prefix.2
            have h1 : old <+: c :: (pre ++ old.dropLast) := List.isPrefixOf_iff_prefix.1 hq
            have h2 : c :: (pre ++ old.dropLast) <+: c :: cs := by
              refine ⟨[old.getLast hne] ++ post, ?_⟩
              rw [hs]
              conv_rhs => rw [← List.dropLast_append_getLast hne]
              simp
            exact h1.trans h2
        show containsChars old (c :: (pre ++ old.dropLast)) = false
        rw [containsChars, hq, hfirst]
        rfl
      · simp only [replaceFirstChars, hp, hrep]
        simp

theorem replaceFirstChars_of_not_contains (old new : List Char) (hne : old ≠ []) :
    ∀ s : List Char, containsChars old s = false → replaceFirstChars old new s = s
  | [], _ => by
    have : old.isEmpty = false := by
      cases old with
      | nil => exact absurd rfl hne
      | cons _ _ => rfl
    simp [replaceFirstChars, this]
  | c :: cs, h => by
    simp only [containsChars, Bool.or_eq_false_iff] at h
    simp [replaceFirstChars, h.1, replaceFirstChars_of_not_contains old new hne cs h.2]

/-- The cut made by `strings.Replace(s, "primary key", "", 1)` on a string that
contains the phrase. -/
theorem replaceFirst_primaryKey (s : String) (h : contains s "primary key" = true) :
    ∃ pre post : String, s = pre ++ "primary key" ++ post ∧
      contains (pre ++ "primary ke") "primary key" = false ∧
      replaceFirst s "primary key" "" = pre ++ post := by
  obtain ⟨pre, post, hs, hfirst, hrep⟩ :=
    replaceFirstChars_of_contains "primary key".data "".data (by decide) s.data h
  refine ⟨⟨pre⟩, ⟨post⟩, ?_, ?_, ?_⟩
  · apply String.ext
    simpa [String.data_append] using hs
  · simpa [contains, String.data_append] using hfirst
  · apply String.ext
    simpa [replaceFirst, String.data_append] using hrep

/-- When the first occurrence of `old` in `pre ++ old ++ post` is the one after `pre`,
the replacement yields `pre ++ new ++ post`. -/
theorem replaceFirstChars_at_first (old new : List Char) (hne : old ≠ []) :
    ∀ pre post : List Char, containsChars old (pre ++ old.dropLast) = false →
      replaceFirstChars old new (pre ++ old ++ post) = pre ++ new ++ post
  | [], post, _ => by
    cases old with
    | nil => exact absurd rfl hne
    | cons a o =>
      have hp : (a :: o).isPrefixOf (a :: (o ++ post)) = true :=
        List.isPrefixOf_iff_prefix.2 ⟨post, rfl⟩
      show replaceFirstChars (a :: o) new (a :: (o ++ post)) = new ++ post
      rw [replaceFirstChars, if_pos hp]
      show new ++ List.drop (a :: o).length ((a :: o) ++ post) = new ++ post
      rw [List.drop_left]
  | c :: pre, post, h => by
    have h' : containsChars old (c :: (pre ++ old.dropLast)) = false := h
    simp only [containsChars, Bool.or_eq_false_iff] at h'
    have hp : old.isPrefixOf (c :: (pre ++ old ++ post)) = false := by
      cases hq : old.isPrefixOf (c :: (pre ++ old ++ post)) with
      | false => rfl
      | true =>
        exfalso
        have h1 : old <+: c :: (pre ++ old ++ post) := List.isPrefixOf_iff_prefix.1 hq
        have h2 : c :: (pre ++ old.dropLast) <+: c :: (pre ++ old ++ post) := by
          refine ⟨[old.getLast hne] ++ post, ?_⟩
          conv_rhs => rw [← List.dropLast_append_getLast hne]
          simp
        have hlen : old.length ≤ (c :: (pre ++ old.dropLast)).length := by
          simp only [List.length_cons, List.length_append, List.length_dropLast]
          have : 0 < old.length := List.length_pos.2 hne
          omega
        have h3 := List.prefix_of_prefix_length_le h1 h2 hlen
        rw [List.isPrefixOf_iff_prefix.2 h3] at h'
        exact Bool.noConfusion h'.1
    show replaceFirstChars old new (c :: (pre ++ old ++ post)) = c :: (pre ++ new ++ post)
    rw [replaceFirstChars, hp]
    simp only [Bool.false_eq_true, if_false, List.cons.injEq, true_and]
    exact replaceFirstChars_at_first old new hne pre post h'.2

/-- The cut made by `strings.Replace(s, "primary key", "", 1)` when the first occurrence of
the phrase is the one after `pre`. -/
theorem replaceFirst_at_first (pre post : String)
    (hfirst : contains (pre ++ "primary ke") "primary key" = false) :
    replaceFirst (pre ++ "primary key" ++ post) "primary key" "" = pre ++ post := by
  apply String.ext
  have h := replaceFirstChars_at_first "primary key".data "".data (by decide) pre.data post.data
    (by simpa [contains, String.data_append] using hfirst)
  simpa [replaceFirst, String.data_append] using h

theorem getElem?_zipWith_append (f : String → String → String) :
    ∀ (xs ys : List String) (rest : List String) (i : Nat) (x y : String),
      xs[i]? = some x → ys[i]? = some y → (List.zipWith f xs ys ++ rest)[i]? = some (f x y)
  | [], _, _, _, _, _, hx, _ => by simp at hx
  | _ :: _, [], _, _, _, _, _, hy => by simp at hy
  | a :: xs, b :: ys, rest, 0, x, y, hx, hy => by
    simp only [List.getElem?_cons_zero, Option.some.injEq] at hx hy
    simp [hx, hy]
  | a :: xs, b :: ys, rest, i + 1, x, y, hx, hy => by
    simp only [List.getElem?_cons_succ] at hx hy
    simpa using getElem?_zipWith_append f xs ys rest i x y hx hy

theorem mem_zip_of_getElem? :
    ∀ (xs ys : List String) (i : Nat) (x y : String),
      xs[i]? = some x → ys[i]? = some y → (x, y) ∈ xs.zip ys
  | [], _, _, _, _, hx, _ => by simp at hx
  | _ :: _, [], _, _, _, _, hy => by simp at hy
  | a :: xs, b :: ys, 0, x, y, hx, hy => by
    simp only [List.getElem?_cons_zero, Option.some.injEq] at hx hy
    simp [hx, hy]
  | a :: xs, b :: ys, i + 1, x, y, hx, hy => by
    simp only [List.getElem?_cons_succ] at hx hy
    simp only [List.zip_cons_cons]
    exact List.mem_cons_of_mem _ (mem_zip_of_getElem? xs ys i x y hx hy)

/-- The clause `createTable` emits for the field at position `i`. -/
theorem createTable_tag_at (env : Env) (rule : TaskRule) (scope : Scope)
    (sqlTags : List String)
    (h : Resolved rule.OutputConstaints rule.OutputFields sqlTags) :
    ∃ st scope1, createTableColumns env rule = some st ∧
      createTable env rule scope = some scope1 ∧
      execs scope1.ops = execs scope.ops ++ [createTableSql env rule st] ∧
      st.primaryKeys = declaredKeys env rule.OutputFields sqlTags
        ++ (if rule.OutputFields.any (isNamed env "id") then [] else ["id"]) ∧
      ∀ (i : Nat) (field sqlTag : String),
        rule.OutputFields[i]? = some field → sqlTags[i]? = some sqlTag →
          st.tags[i]? = some (emittedTag env field sqlTag) := by
  obtain ⟨st, scope1, hst, hc, _, hex, htags, hpk⟩ := createTable_run env rule scope sqlTags h
  refine ⟨st, scope1, hst, hc, hex, hpk, ?_⟩
  intro i field sqlTag hf ht
  rw [htags, List.append_assoc]
  exact getElem?_zipWith_append (emittedTag env) _ _ _ i field sqlTag hf ht

theorem twoPhraseRule_resolved :
    Resolved twoPhraseRule.OutputConstaints twoPhraseRule.OutputFields
      ["INT PRIMARY KEY PRIMARY KEY"] :=
  List.Forall₂.cons (by decide) List.Forall₂.nil

/-! ## Lemmas on the loop of `autoMigrate` -/

theorem execs_map_exec (sqls : List String) : execs (sqls.map Op.exec) = sqls := by
  induction sqls with
  | nil => rfl
  | cons s ss ih => simp [execs, ih]

theorem indexOps_map_exec (sqls : List String) : indexOps (sqls.map Op.exec) = [] := by
  induction sqls with
  | nil => rfl
  | cons s ss ih => simp [indexOps, ih]

theorem addColumns_errors (env : Env) (rule : TaskRule) :
    ∀ (fields : List String) (scope scope1 : Scope),
      addColumns env rule fields scope = some scope1 → scope1.errors = scope.errors
  | [], scope, scope1, h => by
    simp only [addColumns, Option.some.injEq] at h
    rw [← h]
  | f :: rest, scope, scope1, h => by
    simp only [addColumns] at h
    cases hcol : env.hasColumn scope.ops (env.tableName rule.Namespace) f with
    | true =>
      simp only [hcol, Bool.not_true, Bool.false_eq_true, if_false] at h
      exact addColumns_errors env rule rest scope scope1 h
    | false =>
      simp only [hcol, Bool.not_false, if_true] at h
      cases ht : getColumnTag f rule.OutputConstaints with
      | none => simp [ht] at h
      | some t =>
        simp only [ht] at h
        exact addColumns_errors env rule rest
          { scope with ops := scope.ops ++ [Op.exec (addColumnSql env rule f t)] } scope1 h

/-- The loop of `autoMigrate` issues nothing when the catalog has every field. -/
theorem addColumns_all_present (env : Env) (rule : TaskRule) :
    ∀ (fields : List String) (scope : Scope),
      (∀ f ∈ fields, env.hasColumn scope.ops (env.tableName rule.Namespace) f = true) →
      addColumns env rule fields scope = some scope
  | [], scope, _ => rfl
  | f :: fs, scope, h => by
    have hf := h f (List.mem_cons_self _ _)
    simp only [addColumns, hf, Bool.not_true, Bool.false_eq_true, if_false]
    exact addColumns_all_present env rule fs scope (fun x hx => h x (List.mem_cons_of_mem _ hx))

/-- The loop over a list of fields in two parts: the second part starts from the handle
the first part leaves. -/
theorem addColumns_append (env : Env) (rule : TaskRule) :
    ∀ (xs ys : List String) (scope : Scope),
      addColumns env rule (xs ++ ys) scope =
        match addColumns env rule xs scope with
        | none => none
        | some mid => addColumns env rule ys mid
  | [], ys, scope => by simp [addColumns]
  | x :: xs, ys, scope => by
    simp only [List.cons_append, addColumns]
    cases hcol : env.hasColumn scope.ops (env.tableName rule.Namespace) x with
    | true =>
      simp only [Bool.not_true, Bool.false_eq_true, if_false]
      exact addColumns_append env rule xs ys scope
    | false =>
      simp only [Bool.not_false, if_true]
      cases ht : getColumnTag x rule.OutputConstaints with
      | none => rfl
      | some t => exact addColumns_append env rule xs ys _

/-- The loop of `autoMigrate` on one field: one statement when the catalog, asked at that
moment, does not have the column, and nothing when it has. -/
theorem addColumns_single (env : Env) (rule : TaskRule) (f sqlTag : String) (scope : Scope)
    (ht : getColumnTag f rule.OutputConstaints = some sqlTag) :
    addColumns env rule [f] scope = some
      (if env.hasColumn scope.ops (env.tableName rule.Namespace) f then scope
       else { scope with ops := scope.ops ++ [Op.exec (addColumnSql env rule f sqlTag)] }) := by
  cases hcol : env.hasColumn scope.ops (env.tableName rule.Namespace) f <;>
    simp [addColumns, hcol, ht]

/-- The loop of `autoMigrate` returns on fields that are not bound to a nil pointer; it
adds statements only, each the `ALTER TABLE ... ADD` of one of the fields with the clause
`getColumnTag` resolves. -/
theorem addColumns_shape (env : Env) (rule : TaskRule) :
    ∀ (fields : List String) (scope : Scope),
      (∀ f ∈ fields, ¬ HasNilEntry rule.OutputConstaints f) →
      ∃ added : List String,
        addColumns env rule fields scope
          = some { scope with ops := scope.ops ++ added.map Op.exec } ∧
        ∀ sql ∈ added, ∃ f sqlTag, f ∈ fields ∧
          getColumnTag f rule.OutputConstaints = some sqlTag ∧
          sql = addColumnSql env rule f sqlTag
  | [], scope, _ => ⟨[], by simp [addColumns], by simp⟩
  | f :: rest, scope, h => by
    have hrest : ∀ x ∈ rest, ¬ HasNilEntry rule.OutputConstaints x :=
      fun x hx => h x (List.mem_cons_of_mem _ hx)
    cases hcol : env.hasColumn scope.ops (env.tableName rule.Namespace) f with
    | true =>
      obtain ⟨added, hrun, hall⟩ := addColumns_shape env rule rest scope hrest
      refine ⟨added, by simp [addColumns, hcol, hrun], ?_⟩
      intro sql hsql
      obtain ⟨g, t, hg, ht, he⟩ := hall sql hsql
      exact ⟨g, t, List.mem_cons_of_mem _ hg, ht, he⟩
    | false =>
      cases ht : getColumnTag f rule.OutputConstaints with
      | none =>
        exact absurd ((getColumnTag_eq_none_iff f _).1 ht) (h f (List.mem_cons_self _ _))
      | some t =>
        obtain ⟨added, hrun, hall⟩ := addColumns_shape env rule rest
          { scope with ops := scope.ops ++ [Op.exec (addColumnSql env rule f t)] } hrest
        refine ⟨addColumnSql env rule f t :: added, by simp [addColumns, hcol, ht, hrun], ?_⟩
        intro sql hsql
        rcases List.mem_cons.1 hsql with rfl | hsql
        · exact ⟨f, t, List.mem_cons_self _ _, ht, rfl⟩
        · obtain ⟨g, t2, hg, ht2, he⟩ := hall sql hsql
          exact ⟨g, t2, List.mem_cons_of_mem _ hg, ht2, he⟩

/-- The loop of `autoMigrate` against a live catalog: the statements are those of the
columns the catalog lacks at the start, each once, in the order of the fields. -/
theorem addColumns_live (env : Env) (rule : TaskRule) (hlive : LiveCatalog env rule) :
    ∀ (fields : List String) (scope : Scope),
      (∀ f ∈ fields, f ∈ rule.OutputFields) →
      (∀ f ∈ fields, ¬ HasNilEntry rule.OutputConstaints f) →
      ∃ cols : List String, cols.Nodup ∧ cols.Sublist fields ∧
        (∀ f, f ∈ cols ↔
          f ∈ fields ∧ env.hasColumn scope.ops (env.tableName rule.Namespace) f = false) ∧
        addColumns env rule fields scope = some
          { scope with
            ops := scope.ops ++
              (cols.filterMap (fun f => (getColumnTag f rule.OutputConstaints).map
                (fun sqlTag => addColumnSql env rule f sqlTag))).map Op.exec }
  | [], scope, _, _ => ⟨[], List.nodup_nil, List.Sublist.refl _, by simp, by simp [addColumns]⟩
  | f :: rest, scope, hsub, h => by
    have hrest : ∀ x ∈ rest, ¬ HasNilEntry rule.OutputConstaints x :=
      fun x hx => h x (List.mem_cons_of_mem _ hx)
    have hsubrest : ∀ x ∈ rest, x ∈ rule.OutputFields :=
      fun x hx => hsub x (List.mem_cons_of_mem _ hx)
    cases hcol : env.hasColumn scope.ops (env.tableName rule.Namespace) f with
    | true =>
      obtain ⟨cols, hnd, hsl, hmem, hrun⟩ := addColumns_live env rule hlive rest scope hsubrest hrest
      refine ⟨cols, hnd, hsl.cons f, ?_, by simp [addColumns, hcol, hrun]⟩
      intro x
      rw [hmem x, List.mem_cons]
      constructor
      · rintro ⟨hx, ha⟩
        exact ⟨Or.inr hx, ha⟩
      · rintro ⟨hx | hx, ha⟩
        · rw [hx, hcol] at ha
          exact absurd ha (by decide)
        · exact ⟨hx, ha⟩
    | false =>
      cases ht : getColumnTag f rule.OutputConstaints with
      | none =>
        exact absurd ((getColumnTag_eq_none_iff f _).1 ht) (h f (List.mem_cons_self _ _))
      | some t =>
        obtain ⟨cols, hnd, hsl, hmem, hrun⟩ := addColumns_live env rule hlive rest
          { scope with ops := scope.ops ++ [Op.exec (addColumnSql env rule f t)] } hsubrest hrest
        have hf : f ∈ rule.OutputFields := hsub f (List.mem_cons_self _ _)
        have hmem2 : ∀ x, x ∈ cols ↔ x ∈ rest ∧
            env.hasColumn scope.ops (env.tableName rule.Namespace) x = false ∧ x ≠ f := by
          intro x
          rw [hmem x]
          constructor
          · rintro ⟨hx, ha⟩
            have hl := hlive scope.ops f t x hf (hsubrest x hx) ht
            rw [show ({ scope with
              ops := scope.ops ++ [Op.exec (addColumnSql env rule f t)] } : Scope).ops
              = scope.ops ++ [Op.exec (addColumnSql env rule f t)] from rfl, hl] at ha
            simp only [Bool.or_eq_false_iff, decide_eq_false_iff_not] at ha
            exact ⟨hx, ha.1, ha.2⟩
          · rintro ⟨hx, ha, hne⟩
            refine ⟨hx, ?_⟩
            have hl := hlive scope.ops f t x hf (hsubrest x hx) ht
            rw [show ({ scope with
              ops := scope.ops ++ [Op.exec (addColumnSql env rule f t)] } : Scope).ops
              = scope.ops ++ [Op.exec (addColumnSql env rule f t)] from rfl, hl, ha]
            simpa using hne
        refine ⟨f :: cols, ?_, hsl.cons₂ f, ?_, ?_⟩
        · exact List.nodup_cons.2 ⟨fun hfc => ((hmem2 f).1 hfc).2.2 rfl, hnd⟩
        · intro x
          rw [List.mem_cons, hmem2 x, List.mem_cons]
          constructor
          · rintro (hx | ⟨hx, ha, _⟩)
            · rw [hx]
              exact ⟨Or.inl rfl, hcol⟩
            · exact ⟨Or.inr hx, ha⟩
          · rintro ⟨hx | hx, ha⟩
            · exact Or.inl hx
            · by_cases hxf : x = f
              · exact Or.inl hxf
              · exact Or.inr ⟨hx, ha, hxf⟩
        · simp [addColumns, hcol, ht, hrun, List.filterMap_cons]

/-- The run of `autoMigrate` on a table that exists: the loop over the fields, then the
index calls. -/
theorem autoMigrate_existing_table (env : Env) (rule : TaskRule) (scope : Scope)
    (ht : env.hasTable (env.tableName rule.Namespace) = true)
    (hnil : ∀ f ∈ rule.OutputFields, ¬ HasNilEntry rule.OutputConstaints f) :
    ∃ g scope1 added, autoIndexGroups env rule = some g ∧
      addColumns env rule rule.OutputFields scope
        = some { scope with ops := scope.ops ++ added.map Op.exec } ∧
      autoMigrate env rule scope = some scope1 ∧
      scope1.ops = scope.ops ++ added.map Op.exec ++ indexCalls env rule g ∧
      execs scope1.ops = execs scope.ops ++ added ∧
      indexOps scope1.ops = indexOps scope.ops ++ indexCalls env rule g ∧
      ∀ sql ∈ added, ∃ f sqlTag, f ∈ rule.OutputFields ∧
        getColumnTag f rule.OutputConstaints = some sqlTag ∧
        sql = addColumnSql env rule f sqlTag := by
  obtain ⟨g, hg⟩ := autoIndexGroups_isSome env rule hnil
  obtain ⟨added, hadd, hall⟩ := addColumns_shape env rule rule.OutputFields scope hnil
  obtain ⟨scope1, h1, h2⟩ := autoIndex_isSome env rule
    { scope with ops := scope.ops ++ added.map Op.exec } g hg
  refine ⟨g, scope1, added, hg, hadd, ?_, h2, ?_, ?_, hall⟩
  · simp only [autoMigrate, ht, Bool.not_true, Bool.false_eq_true, if_false, hadd]
    exact h1
  · rw [h2, execs_append, execs_append, execs_indexCalls, List.append_nil, execs_map_exec]
  · rw [h2, indexOps_append, indexOps_append, indexOps_indexCalls, indexOps_map_exec,
      List.append_nil]

theorem listEnv_hasColumn_append (tables : List String) (columns : List (String × String))
    (history : List Op) (sql t c : String) :
    (listEnv tables columns).hasColumn (history ++ [Op.exec sql]) t c
      = ((listEnv tables columns).hasColumn history t c
          || beginsWith ("ALTER TABLE `" ++ t ++ "` ADD `" ++ c ++ "` ") sql) := by
  simp [listEnv, execs_append, execs, Bool.or_assoc]

theorem twiceRule_no_nil :
    ∀ f ∈ twiceRule.OutputFields, ¬ HasNilEntry twiceRule.OutputConstaints f := by
  intro f _ hn
  obtain ⟨m, hm, _⟩ := hn
  exact absurd hm (by simp [twiceRule])

/-- The sample catalog is live for the rule that lists `a` twice. -/
theorem liveCatalog_twiceRule : LiveCatalog emptyTableCatalog twiceRule := by
  intro history added sqlTag field ha hf ht
  have ha2 : added = "a" := by simpa [twiceRule] using ha
  have hf2 : field = "a" := by simpa [twiceRule] using hf
  subst ha2
  subst hf2
  have ht2 : sqlTag = "varchar(255) NOT NULL DEFAULT ''" := by
    simpa [twiceRule, getColumnTag, defaultSqlTag] using ht.symm
  subst ht2
  show (listEnv ["t"] []).hasColumn _ _ _ = _
  rw [listEnv_hasColumn_append]
  congr 1

/-- The sample catalog is live for the rule with fields `id` and `name`. -/
theorem liveCatalog_idNameRule : LiveCatalog idOnlyCatalog idNameRule := by
  intro history added sqlTag field ha hf ht
  have ha2 : added = "id" ∨ added = "name" := by simpa [idNameRule] using ha
  have hf2 : field = "id" ∨ field = "name" := by simpa [idNameRule] using hf
  show (listEnv ["t"] [("t", "id")]).hasColumn _ _ _ = _
  rw [listEnv_hasColumn_append]
  rcases ha2 with rfl | rfl
  · have ht2 : sqlTag = "INT NOT NULL PRIMARY KEY" := by
      have : getColumnTag "id" idNameRule.OutputConstaints = some "INT NOT NULL PRIMARY KEY" := by
        decide
      rw [this] at ht
      exact (Option.some.inj ht).symm
    subst ht2
    rcases hf2 with rfl | rfl <;> congr 1
  · have ht2 : sqlTag = "varchar(255) NOT NULL DEFAULT ''" := by
      have : getColumnTag "name" idNameRule.OutputConstaints
          = some "varchar(255) NOT NULL DEFAULT ''" := by
        decide
      rw [this] at ht
      exact (Option.some.inj ht).symm
    subst ht2
    rcases hf2 with rfl | rfl <;> congr 1

/-! ## Lemmas on the groups of `autoIndex` -/

theorem appendGroup_ne_nil (groups : List (String × List String)) (name field : String) :
    appendGroup groups name field ≠ [] := by
  cases groups with
  | nil => simp [appendGroup]
  | cons g gs =>
    obtain ⟨n, cols⟩ := g
    by_cases hn : n = name <;> simp [appendGroup, hn]

theorem groupNames_ne_nil (env : Env) (kind sentinel table field : String) :
    ∀ (names : List String) (groups : List (String × List String)),
      names ≠ [] ∨ groups ≠ [] → groupNames env kind sentinel table field names groups ≠ []
  | [], groups, h => by
    rcases h with h | h
    · exact absurd rfl h
    · simpa [groupNames] using h
  | name :: rest, groups, _ => by
    simp only [groupNames]
    exact groupNames_ne_nil env kind sentinel table field rest _
      (Or.inr (appendGroup_ne_nil _ _ _))

theorem splitCommaChars_ne_nil : ∀ s : List Char, splitCommaChars s ≠ []
  | [] => by simp [splitCommaChars]
  | c :: cs => by
    by_cases hc : c = ','
    · simp [splitCommaChars, hc]
    · simp only [splitCommaChars, hc, if_false]
      cases splitCommaChars cs <;> simp

theorem splitComma_ne_nil (s : String) : splitComma s ≠ [] := by
  simp [splitComma, splitCommaChars_ne_nil]

/-- Both maps of `autoIndex` stay empty exactly when no field has an entry with a
non-empty `Index` or `UniqueIndex`. -/
theorem autoIndexLoop_nil_iff (env : Env) (table : String)
    (m : List (String × Option OutputConstraint)) :
    ∀ (fields : List String) (g g1 : IndexGroups),
      autoIndexLoop env table m fields g = some g1 →
      ((g1.indexes = [] ∧ g1.uniqueIndexes = []) ↔
        ((g.indexes = [] ∧ g.uniqueIndexes = []) ∧
          ∀ f ∈ fields, ∀ c, m.lookup f = some (some c) → c.Index = "" ∧ c.UniqueIndex = ""))
  | [], g, g1, h => by
    simp only [autoIndexLoop, Option.some.injEq] at h
    subst h
    simp
  | f :: fs, g, g1, h => by
    simp only [autoIndexLoop, autoIndexStep] at h
    cases hl : m.lookup f with
    | none =>
      simp only [hl] at h
      rw [autoIndexLoop_nil_iff env table m fs g g1 h]
      simp [hl]
    | some e =>
      cases e with
      | none => simp [hl] at h
      | some c =>
        simp only [hl] at h
        rw [autoIndexLoop_nil_iff env table m fs _ g1 h]
        by_cases hi : c.Index = "" <;> by_cases hu : c.UniqueIndex = ""
        · simp [hl, hi, hu]
        · have := groupNames_ne_nil env "uix" "UNIQUE_INDEX" table f (splitComma c.UniqueIndex)
            g.uniqueIndexes (Or.inl (splitComma_ne_nil _))
          simp [hl, hi, hu, this]
        · have := groupNames_ne_nil env "idx" "INDEX" table f (splitComma c.Index)
            g.indexes (Or.inl (splitComma_ne_nil _))
          simp [hl, hi, hu, this]
        · have := groupNames_ne_nil env "idx" "INDEX" table f (splitComma c.Index)
            g.indexes (Or.inl (splitComma_ne_nil _))
          simp [hl, hi, hu, this]

theorem autoIndexGroups_nil_iff (env : Env) (rule : TaskRule) (g : IndexGroups)
    (h : autoIndexGroups env rule = some g) :
    (g.indexes = [] ∧ g.uniqueIndexes = []) ↔
      ∀ f ∈ rule.OutputFields, ∀ m c, rule.OutputConstaints = some m →
        m.lookup f = some (some c) → c.Index = "" ∧ c.UniqueIndex = "" := by
  unfold autoIndexGroups at h
  cases hc : rule.OutputConstaints with
  | none =>
    simp only [hc, Option.some.injEq] at h
    subst h
    simp
  | some m =>
    simp only [hc] at h
    rw [autoIndexLoop_nil_iff env _ m _ _ g h]
    simp only [true_and, and_self]
    constructor
    · intro hall f hf m1 c hm1 hl
      cases hm1
      exact hall f hf c hl
    · intro hall f hf c hl
      exact hall f hf m c rfl hl

theorem rangeOrder_eq_nil_iff (env : Env) (groups : List (String × List String)) :
    env.rangeOrder groups = [] ↔ groups = [] := by
  constructor
  · intro h
    have hp := env.rangeOrder_perm groups
    rw [h] at hp
    exact hp.symm.eq_nil
  · intro h
    rw [h]
    exact rangeOrder_nil env

theorem indexCalls_length (env : Env) (rule : TaskRule) (g : IndexGroups) :
    (indexCalls env rule g).length = g.indexes.length + g.uniqueIndexes.length := by
  simp [indexCalls, (env.rangeOrder_perm g.indexes).length_eq,
    (env.rangeOrder_perm g.uniqueIndexes).length_eq]

theorem indexCalls_eq_nil_iff (env : Env) (rule : TaskRule) (g : IndexGroups) :
    indexCalls env rule g = [] ↔ (g.indexes = [] ∧ g.uniqueIndexes = []) := by
  simp [indexCalls, rangeOrder_eq_nil_iff]

theorem indexedRule_no_nil :
    ∀ f ∈ indexedRule.OutputFields, ¬ HasNilEntry indexedRule.OutputConstaints f := by
  intro f hf hn
  obtain ⟨m, hm, hl⟩ := hn
  have hfa : f = "a" := by simpa [indexedRule] using hf
  subst hfa
  have hm2 : m = [("a", some ⟨"", "INDEX", ""⟩)] := by
    simpa [indexedRule] using hm.symm
  subst hm2
  exact absurd hl (by decide)

/-! ## Lemmas on the maps of `autoIndex` -/

theorem colsOf_appendGroup (n : String) :
    ∀ (groups : List (String × List String)) (name field : String),
      colsOf n (appendGroup groups name field)
        = if name = n then colsOf n groups ++ [field] else colsOf n groups
  | [], name, field => by
    by_cases h : name = n
    · subst h
      simp [appendGroup, colsOf, List.lookup]
    · have h2 : (n == name) = false := by simpa using fun e => h e.symm
      simp [appendGroup, colsOf, List.lookup, h, h2]
  | (k, cols) :: rest, name, field => by
    have ih := colsOf_appendGroup n rest name field
    by_cases hk : k = name
    · subst hk
      by_cases h : k = n
      · subst h
        simp [appendGroup, colsOf, List.lookup]
      · have h2 : (n == k) = false := by simpa using fun e => h e.symm
        simp [appendGroup, colsOf, List.lookup, h, h2]
    · by_cases h : k = n
      · subst h
        have h3 : ¬ name = k := fun e => hk e.symm
        simp [appendGroup, colsOf, List.lookup, hk, h3]
      · have h2 : (n == k) = false := by simpa using fun e => h e.symm
        simp only [appendGroup, hk, if_false, colsOf, List.lookup, h2] at ih ⊢
        exact ih

theorem listed_appendGroup (x : String) :
    ∀ (groups : List (String × List String)) (name field : String),
      listed x (appendGroup groups name field)
        = listed x groups + (if field = x then 1 else 0)
  | [], name, field => by
    by_cases h : field = x <;> simp [appendGroup, listed, h, List.count_cons]
  | (k, cols) :: rest, name, field => by
    have ih := listed_appendGroup x rest name field
    by_cases hk : k = name
    · by_cases h : field = x
      · simp [appendGroup, listed, hk, h, List.count_append, List.count_cons]
        omega
      · simp [appendGroup, listed, hk, h, List.count_append, List.count_cons]
    · simp only [appendGroup, hk, if_false, listed, List.map_cons, List.sum_cons] at ih ⊢
      omega

theorem keys_appendGroup :
    ∀ (groups : List (String × List String)) (name field : String),
      (appendGroup groups name field).map Prod.fst
        = if name ∈ groups.map Prod.fst then groups.map Prod.fst
          else groups.map Prod.fst ++ [name]
  | [], name, field => by simp [appendGroup]
  | (k, cols) :: rest, name, field => by
    have ih := keys_appendGroup rest name field
    by_cases hk : k = name
    · subst hk
      simp [appendGroup]
    · have h3 : ¬ name = k := fun e => hk e.symm
      simp only [appendGroup, hk, if_false, List.map_cons, ih, List.mem_cons, h3, false_or]
      by_cases hm : name ∈ rest.map Prod.fst <;> simp [hm]

theorem groupsOk_nil : GroupsOk [] := by
  simp [GroupsOk]

theorem mem_appendGroup :
    ∀ (groups : List (String × List String)) (name field : String) (p : String × List String),
      p ∈ appendGroup groups name field → p.2 ≠ [] ∨ p ∈ groups
  | [], name, field, p, h => by
    simp only [appendGroup, List.mem_singleton] at h
    subst h
    simp
  | (k, cols) :: rest, name, field, p, h => by
    by_cases hk : k = name
    · simp only [appendGroup, hk, if_true, List.mem_cons] at h
      rcases h with h | h
      · subst h
        simp
      · exact Or.inr (List.mem_cons_of_mem _ h)
    · simp only [appendGroup, hk, if_false, List.mem_cons] at h
      rcases h with h | h
      · exact Or.inr (by simp [h])
      · rcases mem_appendGroup rest name field p h with h1 | h1
        · exact Or.inl h1
        · exact Or.inr (List.mem_cons_of_mem _ h1)

theorem groupsOk_appendGroup (groups : List (String × List String)) (name field : String)
    (h : GroupsOk groups) : GroupsOk (appendGroup groups name field) := by
  constructor
  · rw [keys_appendGroup]
    by_cases hm : name ∈ groups.map Prod.fst
    · simpa [hm] using h.1
    · simp only [hm, if_false]
      exact List.Nodup.append h.1 (List.nodup_singleton _) (by simpa using hm)
  · intro p hp
    rcases mem_appendGroup groups name field p hp with h1 | h1
    · exact h1
    · exact h.2 p h1

/-- In a map with distinct keys, the entries are what `colsOf` reads. -/
theorem mem_iff_colsOf :
    ∀ (groups : List (String × List String)), GroupsOk groups →
      ∀ (n : String) (cols : List String),
        (n, cols) ∈ groups ↔ (cols ≠ [] ∧ colsOf n groups = cols)
  | [], _, n, cols => by
    simp only [List.not_mem_nil, colsOf, List.lookup, Option.getD_none, false_iff, not_and,
      not_not]
    intro h1 h2
    exact h1 h2.symm
  | (k, c) :: rest, h, n, cols => by
    have hrest : GroupsOk rest :=
      ⟨(List.nodup_cons.1 h.1).2, fun p hp => h.2 p (List.mem_cons_of_mem _ hp)⟩
    have ih := mem_iff_colsOf rest hrest n cols
    have hk : k ∉ rest.map Prod.fst := (List.nodup_cons.1 h.1).1
    have hc : c ≠ [] := h.2 (k, c) (List.mem_cons_self _ _)
    by_cases hn : n = k
    · subst hn
      have hnot : (n, cols) ∉ rest := fun hm => hk (List.mem_map.2 ⟨(n, cols), hm, rfl⟩)
      simp only [List.mem_cons, Prod.mk.injEq, true_and, hnot, or_false, colsOf, List.lookup,
        beq_self_eq_true, Option.getD_some]
      constructor
      · intro e
        subst e
        exact ⟨hc, rfl⟩
      · intro e
        exact e.2.symm
    · have h2 : (n == k) = false := by simpa using hn
      simp only [List.mem_cons, Prod.mk.injEq, hn, false_and, false_or, colsOf, List.lookup,
        h2] at ih ⊢
      exact ih

theorem colsOf_groupNames (env : Env) (kind sentinel table field n : String) :
    ∀ (names : List String) (groups : List (String × List String)),
      colsOf n (groupNames env kind sentinel table field names groups)
        = colsOf n groups ++ List.replicate
            ((names.map (resolveName env kind sentinel table field)).count n) field
  | [], groups => by simp [groupNames]
  | name :: rest, groups => by
    rw [groupNames, colsOf_groupNames env kind sentinel table field n rest, colsOf_appendGroup]
    by_cases h : resolveName env kind sentinel table field name = n
    · have h2 : (if name = sentinel ∨ name = "" then env.buildKeyName kind table field
          else name) = n := h
      simp [h, h2, List.count_cons, List.replicate_succ]
    · have h2 : ¬ (if name = sentinel ∨ name = "" then env.buildKeyName kind table field
          else name) = n := h
      simp [h, h2, List.count_cons]

theorem listed_groupNames (env : Env) (kind sentinel table field x : String) :
    ∀ (names : List String) (groups : List (String × List String)),
      listed x (groupNames env kind sentinel table field names groups)
        = listed x groups + (if field = x then names.length else 0)
  | [], groups => by simp [groupNames]
  | name :: rest, groups => by
    rw [groupNames, listed_groupNames env kind sentinel table field x rest, listed_appendGroup]
    by_cases h : field = x
    · simp [h]
      omega
    · simp [h]

theorem groupsOk_groupNames (env : Env) (kind sentinel table field : String) :
    ∀ (names : List String) (groups : List (String × List String)),
      GroupsOk groups → GroupsOk (groupNames env kind sentinel table field names groups)
  | [], groups, h => by simpa [groupNames] using h
  | name :: rest, groups, h => by
    rw [groupNames]
    exact groupsOk_groupNames env kind sentinel table field rest _
      (groupsOk_appendGroup _ _ _ h)

theorem colsOf_passOver (env : Env) (kind sentinel table : String)
    (m : List (String × Option OutputConstraint)) (sel : OutputConstraint → String)
    (n : String) :
    ∀ (fields : List String) (groups : List (String × List String)),
      colsOf n (passOver env kind sentinel table m sel fields groups)
        = colsOf n groups ++ filedUnder env kind sentinel table m sel n fields
  | [], groups => by simp [passOver, filedUnder]
  | f :: rest, groups => by
    rw [passOver, colsOf_passOver env kind sentinel table m sel n rest, colsOf_groupNames,
      filedUnder, List.append_assoc]

theorem listed_passOver (env : Env) (kind sentinel table : String)
    (m : List (String × Option OutputConstraint)) (sel : OutputConstraint → String)
    (x : String) :
    ∀ (fields : List String) (groups : List (String × List String)),
      listed x (passOver env kind sentinel table m sel fields groups)
        = listed x groups + fields.count x * (piecesOf (specOf m sel x)).length
  | [], groups => by simp [passOver]
  | f :: rest, groups => by
    rw [passOver, listed_passOver env kind sentinel table m sel x rest, listed_groupNames,
      List.count_cons]
    by_cases h : f = x
    · subst h
      simp [Nat.add_mul]
      omega
    · simp [h]

theorem groupsOk_passOver (env : Env) (kind sentinel table : String)
    (m : List (String × Option OutputConstraint)) (sel : OutputConstraint → String) :
    ∀ (fields : List String) (groups : List (String × List String)),
      GroupsOk groups → GroupsOk (passOver env kind sentinel table m sel fields groups)
  | [], groups, h => by simpa [passOver] using h
  | f :: rest, groups, h => by
    rw [passOver]
    exact groupsOk_passOver env kind sentinel table m sel rest _
      (groupsOk_groupNames env kind sentinel table f _ _ h)

/-- The grouping loop of `autoIndex` is its two passes side by side. -/
theorem autoIndexLoop_eq_passes (env : Env) (table : String)
    (m : List (String × Option OutputConstraint)) :
    ∀ (fields : List String) (g g1 : IndexGroups),
      autoIndexLoop env table m fields g = some g1 →
        g1.indexes = passOver env "idx" "INDEX" table m OutputConstraint.Index fields g.indexes ∧
        g1.uniqueIndexes = passOver env "uix" "UNIQUE_INDEX" table m
          OutputConstraint.UniqueIndex fields g.uniqueIndexes
  | [], g, g1, h => by
    simp only [autoIndexLoop, Option.some.injEq] at h
    subst h
    simp [passOver]
  | f :: rest, g, g1, h => by
    simp only [autoIndexLoop, autoIndexStep] at h
    cases hl : m.lookup f with
    | none =>
      simp only [hl] at h
      have ih := autoIndexLoop_eq_passes env table m rest g g1 h
      simpa [passOver, specOf, hl, piecesOf, groupNames] using ih
    | some e =>
      cases e with
      | none => simp [hl] at h
      | some c =>
        simp only [hl] at h
        have ih := autoIndexLoop_eq_passes env table m rest _ g1 h
        rw [ih.1, ih.2]
        constructor
        · by_cases hi : c.Index = "" <;> simp [passOver, specOf, hl, piecesOf, hi, groupNames]
        · by_cases hu : c.UniqueIndex = "" <;>
            simp [passOver, specOf, hl, piecesOf, hu, groupNames]

/-- The maps `autoIndex` builds, pass by pass. -/
theorem autoIndexGroups_eq_passes (env : Env) (rule : TaskRule) (g : IndexGroups)
    (m : List (String × Option OutputConstraint)) (hm : rule.OutputConstaints = some m)
    (h : autoIndexGroups env rule = some g) :
    g.indexes = passOver env "idx" "INDEX" (env.tableName rule.Namespace) m
        OutputConstraint.Index rule.OutputFields [] ∧
    g.uniqueIndexes = passOver env "uix" "UNIQUE_INDEX" (env.tableName rule.Namespace) m
        OutputConstraint.UniqueIndex rule.OutputFields [] := by
  unfold autoIndexGroups at h
  simp only [hm] at h
  exact autoIndexLoop_eq_passes env _ m _ _ g h

theorem autoIndexGroups_of_nil_map (env : Env) (rule : TaskRule)
    (hm : rule.OutputConstaints = none) : autoIndexGroups env rule = some ⟨[], []⟩ := by
  simp [autoIndexGroups, hm]

theorem mem_filedUnder (env : Env) (kind sentinel table : String)
    (m : List (String × Option OutputConstraint)) (sel : OutputConstraint → String)
    (n a : String) :
    ∀ fields : List String,
      a ∈ filedUnder env kind sentinel table m sel n fields ↔
        a ∈ fields ∧
          n ∈ (piecesOf (specOf m sel a)).map (resolveName env kind sentinel table a)
  | [] => by simp [filedUnder]
  | f :: rest => by
    rw [filedUnder, List.mem_append, mem_filedUnder env kind sentinel table m sel n a rest,
      List.mem_replicate, List.mem_cons]
    constructor
    · rintro (⟨hc, rfl⟩ | ⟨hr, hn⟩)
      · exact ⟨Or.inl rfl, List.count_pos_iff.1 (Nat.pos_of_ne_zero hc)⟩
      · exact ⟨Or.inr hr, hn⟩
    · rintro ⟨rfl | hr, hn⟩
      · exact Or.inl ⟨Nat.pos_iff_ne_zero.1 (List.count_pos_iff.2 hn), rfl⟩
      · exact Or.inr ⟨hr, hn⟩

/-- A piece of a field's spec exists only when the field has an entry with a non-empty
spec, and then it is one of the comma-separated pieces. -/
theorem mem_piecesOf_specOf (m : List (String × Option OutputConstraint))
    (sel : OutputConstraint → String) (a piece : String)
    (h : piece ∈ piecesOf (specOf m sel a)) :
    ∃ entry, m.lookup a = some (some entry) ∧ sel entry ≠ "" ∧ piece ∈ splitComma (sel entry) := by
  unfold piecesOf at h
  by_cases hs : specOf m sel a = ""
  · simp [hs] at h
  · simp only [ne_eq, hs, not_false_eq_true, if_true] at h
    unfold specOf at hs h
    cases hl : m.lookup a with
    | none => simp [hl] at hs
    | some e =>
      cases e with
      | none => simp [hl] at hs
      | some entry =>
        simp only [hl] at hs h
        exact ⟨entry, rfl, hs, h⟩

theorem piecesOf_specOf_of_entry (m : List (String × Option OutputConstraint))
    (sel : OutputConstraint → String) (a : String) (entry : OutputConstraint)
    (hl : m.lookup a = some (some entry)) (hs : sel entry ≠ "") :
    piecesOf (specOf m sel a) = splitComma (sel entry) := by
  simp [piecesOf, specOf, hl, hs]

theorem addIndexes_errors (env : Env) (table : String) :
    ∀ (groups : List (String × List String)) (scope : Scope),
      (addIndexes env table groups scope).errors
        = scope.errors ++ groups.filterMap (fun g => env.addIndex table g.1 g.2)
  | [], scope => by simp [addIndexes]
  | (name, columns) :: rest, scope => by
    simp only [addIndexes]
    cases h : env.addIndex table name columns <;>
      simp [addIndexes_errors env table rest, List.filterMap_cons, h]

theorem addUniqueIndexes_errors (env : Env) (table : String) :
    ∀ (groups : List (String × List String)) (scope : Scope),
      (addUniqueIndexes env table groups scope).errors
        = scope.errors ++ groups.filterMap (fun g => env.addUniqueIndex table g.1 g.2)
  | [], scope => by simp [addUniqueIndexes]
  | (name, columns) :: rest, scope => by
    simp only [addUniqueIndexes]
    cases h : env.addUniqueIndex table name columns <;>
      simp [addUniqueIndexes_errors env table rest, List.filterMap_cons, h]

/-- The errors `autoIndex` records: those of the failed plain operations, then those of
the failed unique operations, in the order the operations are issued. -/
theorem autoIndex_errors (env : Env) (rule : TaskRule) (scope scope1 : Scope) (g : IndexGroups)
    (hg : autoIndexGroups env rule = some g) (h : autoIndex env rule scope = some scope1) :
    scope1.errors = scope.errors
      ++ (env.rangeOrder g.indexes).filterMap
          (fun p => env.addIndex (env.tableName rule.Namespace) p.1 p.2)
      ++ (env.rangeOrder g.uniqueIndexes).filterMap
          (fun p => env.addUniqueIndex (env.tableName rule.Namespace) p.1 p.2) := by
  rw [autoIndex_eq, hg] at h
  simp only [Option.some.injEq] at h
  rw [← h, addUniqueIndexes_errors, addIndexes_errors]

/-- The maps `autoIndex` builds satisfy the invariant and are the two passes. -/
theorem autoIndexGroups_ok (env : Env) (rule : TaskRule) (g : IndexGroups)
    (h : autoIndexGroups env rule = some g) : GroupsOk g.indexes ∧ GroupsOk g.uniqueIndexes := by
  cases hm : rule.OutputConstaints with
  | none =>
    rw [autoIndexGroups_of_nil_map env rule hm] at h
    cases h
    exact ⟨groupsOk_nil, groupsOk_nil⟩
  | some m =>
    obtain ⟨h1, h2⟩ := autoIndexGroups_eq_passes env rule g m hm h
    rw [h1, h2]
    exact ⟨groupsOk_passOver _ _ _ _ _ _ _ _ groupsOk_nil,
      groupsOk_passOver _ _ _ _ _ _ _ _ groupsOk_nil⟩

theorem colsOf_nil (n : String) : colsOf n [] = [] := rfl

theorem listed_nil (x : String) : listed x [] = 0 := rfl

/-- Both branches of `autoMigrate` end in `autoIndex`, run on a handle that carries the
errors recorded before. -/
theorem autoMigrate_ends_in_autoIndex (env : Env) (rule : TaskRule) (scope scope1 : Scope)
    (h : autoMigrate env rule scope = some scope1) :
    ∃ mid, mid.errors = scope.errors ∧ autoIndex env rule mid = some scope1 := by
  unfold autoMigrate at h
  cases ht : env.hasTable (env.tableName rule.Namespace) with
  | false =>
    simp only [ht, Bool.not_false, if_true, createTable] at h
    cases hc : createTableColumns env rule with
    | none => simp [hc] at h
    | some st =>
      simp only [hc] at h
      exact ⟨{ scope with ops := scope.ops ++ [Op.exec (createTableSql env rule st)] }, rfl, h⟩
  | true =>
    simp only [ht, Bool.not_true, Bool.false_eq_true, if_false] at h
    cases ha : addColumns env rule rule.OutputFields scope with
    | none => simp [ha] at h
    | some mid =>
      simp only [ha] at h
      exact ⟨mid, addColumns_errors env rule _ scope mid ha, h⟩

/-- The entries of the maps `autoIndex` builds: the group called `n` exists when some
field files under `n`, and lists the fields filed under `n` in order. -/
theorem autoIndexGroups_mem_iff (env : Env) (rule : TaskRule) (g : IndexGroups)
    (m : List (String × Option OutputConstraint)) (hm : rule.OutputConstaints = some m)
    (hg : autoIndexGroups env rule = some g) (n : String) (cols : List String) :
    ((n, cols) ∈ g.indexes ↔
      cols ≠ [] ∧ cols = filedUnder env "idx" "INDEX" (env.tableName rule.Namespace) m
        OutputConstraint.Index n rule.OutputFields) ∧
    ((n, cols) ∈ g.uniqueIndexes ↔
      cols ≠ [] ∧ cols = filedUnder env "uix" "UNIQUE_INDEX" (env.tableName rule.Namespace) m
        OutputConstraint.UniqueIndex n rule.OutputFields) := by
  obtain ⟨ok1, ok2⟩ := autoIndexGroups_ok env rule g hg
  obtain ⟨h1, h2⟩ := autoIndexGroups_eq_passes env rule g m hm hg
  constructor
  · rw [mem_iff_colsOf g.indexes ok1 n cols, h1, colsOf_passOver, colsOf_nil, List.nil_append]
    constructor
    · rintro ⟨a, b⟩
      exact ⟨a, b.symm⟩
    · rintro ⟨a, b⟩
      exact ⟨a, b.symm⟩
  · rw [mem_iff_colsOf g.uniqueIndexes ok2 n cols, h2, colsOf_passOver, colsOf_nil,
      List.nil_append]
    constructor
    · rintro ⟨a, b⟩
      exact ⟨a, b.symm⟩
    · rintro ⟨a, b⟩
      exact ⟨a, b.symm⟩

theorem autoIndexGroups_nil_map_eq (env : Env) (rule : TaskRule) (g : IndexGroups)
    (hm : rule.OutputConstaints = none) (hg : autoIndexGroups env rule = some g) :
    g.indexes = [] ∧ g.uniqueIndexes = [] := by
  rw [autoIndexGroups_of_nil_map env rule hm] at hg
  cases hg
  exact ⟨rfl, rfl⟩

/-- What `autoIndex` does on a rule without nil entries: it builds the groups and issues
one call per group. -/
theorem autoIndex_run (env : Env) (rule : TaskRule) (scope : Scope)
    (hnil : ∀ f ∈ rule.OutputFields, ¬ HasNilEntry rule.OutputConstaints f) :
    ∃ g scope1, autoIndexGroups env rule = some g ∧ autoIndex env rule scope = some scope1 ∧
      scope1.ops = scope.ops ++ indexCalls env rule g := by
  obtain ⟨g, hg⟩ := autoIndexGroups_isSome env rule hnil
  obtain ⟨scope1, h1, h2⟩ := autoIndex_isSome env rule scope g hg
  exact ⟨g, scope1, hg, h1, h2⟩

theorem sentinelClashRule_no_nil :
    ∀ f ∈ sentinelClashRule.OutputFields, ¬ HasNilEntry sentinelClashRule.OutputConstaints f := by
  intro f hf hn
  obtain ⟨m, hm, hl⟩ := hn
  have hm2 : m = [("a", some ⟨"", "INDEX", ""⟩), ("c", some ⟨"", "idx_t_a", ""⟩)] := by
    simpa [sentinelClashRule] using hm.symm
  subst hm2
  have hf2 : f = "a" ∨ f = "c" := by simpa [sentinelClashRule] using hf
  rcases hf2 with rfl | rfl
  · exact absurd hl (by decide)
  · exact absurd hl (by decide)

theorem namedClashRule_no_nil :
    ∀ f ∈ namedClashRule.OutputFields, ¬ HasNilEntry namedClashRule.OutputConstaints f := by
  intro f hf hn
  obtain ⟨m, hm, hl⟩ := hn
  have hm2 : m = [("a", some ⟨"", "idx_t_b", ""⟩), ("b", some ⟨"", "INDEX", ""⟩)] := by
    simpa [namedClashRule] using hm.symm
  subst hm2
  have hf2 : f = "a" ∨ f = "b" := by simpa [namedClashRule] using hf
  rcases hf2 with rfl | rfl
  · exact absurd hl (by decide)
  · exact absurd hl (by decide)

theorem twoSentinelRule_no_nil :
    ∀ f ∈ twoSentinelRule.OutputFields, ¬ HasNilEntry twoSentinelRule.OutputConstaints f := by
  intro f hf hn
  obtain ⟨m, hm, hl⟩ := hn
  have hm2 : m = [("a", some ⟨"", "INDEX", ""⟩), ("b", some ⟨"", "INDEX", ""⟩)] := by
    simpa [twoSentinelRule] using hm.symm
  subst hm2
  have hf2 : f = "a" ∨ f = "b" := by simpa [twoSentinelRule] using hf
  rcases hf2 with rfl | rfl
  · exact absurd hl (by decide)
  · exact absurd hl (by decide)

theorem lookup_map_value {β γ : Type} (f : β → γ) (k : String) :
    ∀ m : List (String × β),
      (m.map (fun e => (e.1, f e.2))).lookup k = (m.lookup k).map f
  | [] => rfl
  | (k1, v) :: rest => by
    simp only [List.map_cons, List.lookup]
    cases (k == k1)
    · exact lookup_map_value f k rest
    · rfl

/-- The plain groups do not read `UniqueIndex`. -/
theorem autoIndexLoop_indexes_congr (env : Env) (table : String)
    (m1 m2 : List (String × Option OutputConstraint))
    (h : ∀ f, (m1.lookup f).map (Option.map OutputConstraint.Index)
      = (m2.lookup f).map (Option.map OutputConstraint.Index)) :
    ∀ (fields : List String) (g1 g2 : IndexGroups), g1.indexes = g2.indexes →
      (autoIndexLoop env table m1 fields g1).map IndexGroups.indexes
        = (autoIndexLoop env table m2 fields g2).map IndexGroups.indexes
  | [], g1, g2, hg => by simp [autoIndexLoop, hg]
  | f :: rest, g1, g2, hg => by
    have hf := h f
    simp only [autoIndexLoop, autoIndexStep]
    cases h1 : m1.lookup f with
    | none =>
      cases h2 : m2.lookup f with
      | none => exact autoIndexLoop_indexes_congr env table m1 m2 h rest g1 g2 hg
      | some e2 => simp [h1, h2] at hf
    | some e1 =>
      cases h2 : m2.lookup f with
      | none => simp [h1, h2] at hf
      | some e2 =>
        cases e1 with
        | none =>
          cases e2 with
          | none => rfl
          | some c2 => simp [h1, h2] at hf
        | some c1 =>
          cases e2 with
          | none => simp [h1, h2] at hf
          | some c2 =>
            have hi : c1.Index = c2.Index := by simpa [h1, h2] using hf
            apply autoIndexLoop_indexes_congr env table m1 m2 h rest
            simp only [hi, hg]

/-- The unique groups do not read `Index`. -/
theorem autoIndexLoop_uniqueIndexes_congr (env : Env) (table : String)
    (m1 m2 : List (String × Option OutputConstraint))
    (h : ∀ f, (m1.lookup f).map (Option.map OutputConstraint.UniqueIndex)
      = (m2.lookup f).map (Option.map OutputConstraint.UniqueIndex)) :
    ∀ (fields : List String) (g1 g2 : IndexGroups), g1.uniqueIndexes = g2.uniqueIndexes →
      (autoIndexLoop env table m1 fields g1).map IndexGroups.uniqueIndexes
        = (autoIndexLoop env table m2 fields g2).map IndexGroups.uniqueIndexes
  | [], g1, g2, hg => by simp [autoIndexLoop, hg]
  | f :: rest, g1, g2, hg => by
    have hf := h f
    simp only [autoIndexLoop, autoIndexStep]
    cases h1 : m1.lookup f with
    | none =>
      cases h2 : m2.lookup f with
      | none => exact autoIndexLoop_uniqueIndexes_congr env table m1 m2 h rest g1 g2 hg
      | some e2 => simp [h1, h2] at hf
    | some e1 =>
      cases h2 : m2.lookup f with
      | none => simp [h1, h2] at hf
      | some e2 =>
        cases e1 with
        | none =>
          cases e2 with
          | none => rfl
          | some c2 => simp [h1, h2] at hf
        | some c1 =>
          cases e2 with
          | none => simp [h1, h2] at hf
          | some c2 =>
            have hi : c1.UniqueIndex = c2.UniqueIndex := by simpa [h1, h2] using hf
            apply autoIndexLoop_uniqueIndexes_congr env table m1 m2 h rest
            simp only [hi, hg]

theorem index_view_of_withoutUniqueIndex (m1 m2 : List (String × Option OutputConstraint))
    (h : withoutUniqueIndex (some m1) = withoutUniqueIndex (some m2)) (f : String) :
    (m1.lookup f).map (Option.map OutputConstraint.Index)
      = (m2.lookup f).map (Option.map OutputConstraint.Index) := by
  simp only [withoutUniqueIndex, Option.map_some', Option.some.injEq] at h
  have h1 := congrArg (fun m => (List.lookup f m).map (Option.map OutputConstraint.Index)) h
  simp only [lookup_map_value] at h1
  cases hl1 : m1.lookup f with
  | none =>
    cases hl2 : m2.lookup f with
    | none => rfl
    | some e2 => simp [hl1, hl2] at h1
  | some e1 =>
    cases hl2 : m2.lookup f with
    | none => simp [hl1, hl2] at h1
    | some e2 =>
      cases e1 <;> cases e2 <;> simp [hl1, hl2] at h1 ⊢
      exact h1

theorem unique_view_of_withoutIndex (m1 m2 : List (String × Option OutputConstraint))
    (h : withoutIndex (some m1) = withoutIndex (some m2)) (f : String) :
    (m1.lookup f).map (Option.map OutputConstraint.UniqueIndex)
      = (m2.lookup f).map (Option.map OutputConstraint.UniqueIndex) := by
  simp only [withoutIndex, Option.map_some', Option.some.injEq] at h
  have h1 := congrArg
    (fun m => (List.lookup f m).map (Option.map OutputConstraint.UniqueIndex)) h
  simp only [lookup_map_value] at h1
  cases hl1 : m1.lookup f with
  | none =>
    cases hl2 : m2.lookup f with
    | none => rfl
    | some e2 => simp [hl1, hl2] at h1
  | some e1 =>
    cases hl2 : m2.lookup f with
    | none => simp [hl1, hl2] at h1
    | some e2 =>
      cases e1 <;> cases e2 <;> simp [hl1, hl2] at h1 ⊢
      exact h1

theorem bothIndexesRule_no_nil :
    ∀ f ∈ bothIndexesRule.OutputFields, ¬ HasNilEntry bothIndexesRule.OutputConstaints f := by
  intro f hf hn
  obtain ⟨m, hm, hl⟩ := hn
  have hm2 : m = [("a", some ⟨"", "INDEX", "UNIQUE_INDEX"⟩)] := by
    simpa [bothIndexesRule] using hm.symm
  subst hm2
  have hf2 : f = "a" := by simpa [bothIndexesRule] using hf
  subst hf2
  exact absurd hl (by decide)

theorem autoIndexGroups_indexes_congr (env : Env) (rule1 rule2 : TaskRule)
    (hns : rule1.Namespace = rule2.Namespace) (hf : rule1.OutputFields = rule2.OutputFields)
    (h : withoutUniqueIndex rule1.OutputConstaints = withoutUniqueIndex rule2.OutputConstaints) :
    (autoIndexGroups env rule1).map IndexGroups.indexes
      = (autoIndexGroups env rule2).map IndexGroups.indexes := by
  unfold autoIndexGroups
  cases h1 : rule1.OutputConstaints with
  | none =>
    cases h2 : rule2.OutputConstaints with
    | none => rfl
    | some m2 => simp [h1, h2, withoutUniqueIndex] at h
  | some m1 =>
    cases h2 : rule2.OutputConstaints with
    | none => simp [h1, h2, withoutUniqueIndex] at h
    | some m2 =>
      rw [h1, h2] at h
      simp only [hns, hf]
      exact autoIndexLoop_indexes_congr env _ m1 m2
        (index_view_of_withoutUniqueIndex m1 m2 h) _ _ _ rfl

theorem autoIndexGroups_uniqueIndexes_congr (env : Env) (rule1 rule2 : TaskRule)
    (hns : rule1.Namespace = rule2.Namespace) (hf : rule1.OutputFields = rule2.OutputFields)
    (h : withoutIndex rule1.OutputConstaints = withoutIndex rule2.OutputConstaints) :
    (autoIndexGroups env rule1).map IndexGroups.uniqueIndexes
      = (autoIndexGroups env rule2).map IndexGroups.uniqueIndexes := by
  unfold autoIndexGroups
  cases h1 : rule1.OutputConstaints with
  | none =>
    cases h2 : rule2.OutputConstaints with
    | none => rfl
    | some m2 => simp [h1, h2, withoutIndex] at h
  | some m1 =>
    cases h2 : rule2.OutputConstaints with
    | none => simp [h1, h2, withoutIndex] at h
    | some m2 =>
      rw [h1, h2] at h
      simp only [hns, hf]
      exact autoIndexLoop_uniqueIndexes_congr env _ m1 m2
        (unique_view_of_withoutIndex m1 m2 h) _ _ _ rfl

/-- A field with an entry whose spec is not empty is listed in some group of the pass. -/
theorem exists_filedUnder (env : Env) (kind sentinel table : String)
    (m : List (String × Option OutputConstraint)) (sel : OutputConstraint → String)
    (fields : List String) (f : String) (entry : OutputConstraint) (hf : f ∈ fields)
    (hl : m.lookup f = some (some entry)) (hs : sel entry ≠ "") :
    ∃ n, f ∈ filedUnder env kind sentinel table m sel n fields := by
  have hp := piecesOf_specOf_of_entry m sel f entry hl hs
  cases hsplit : splitComma (sel entry) with
  | nil => exact absurd hsplit (splitComma_ne_nil _)
  | cons piece rest =>
    refine ⟨resolveName env kind sentinel table f piece, ?_⟩
    rw [mem_filedUnder, hp, hsplit]
    exact ⟨hf, List.mem_map.2 ⟨piece, List.mem_cons_self _ _, rfl⟩⟩

theorem beginsWith_append (phrase rest : String) : beginsWith phrase (phrase ++ rest) = true := by
  unfold beginsWith
  rw [String.data_append]
  exact List.isPrefixOf_iff_prefix.2 ⟨rest.data, rfl⟩

theorem createTableSql_begins (env : Env) (rule : TaskRule) (st : Columns) :
    beginsWith "CREATE TABLE " (createTableSql env rule st) = true ∧
    beginsWith "ALTER TABLE " (createTableSql env rule st) = false := by
  unfold createTableSql
  simp only [String.append_assoc]
  refine ⟨beginsWith_append _ _, ?_⟩
  unfold beginsWith
  rw [String.data_append]
  rfl

theorem addColumnSql_begins (env : Env) (rule : TaskRule) (field sqlTag : String) :
    beginsWith "ALTER TABLE " (addColumnSql env rule field sqlTag) = true ∧
    beginsWith "CREATE TABLE " (addColumnSql env rule field sqlTag) = false := by
  unfold addColumnSql
  simp only [String.append_assoc]
  refine ⟨beginsWith_append _ _, ?_⟩
  unfold beginsWith
  rw [String.data_append]
  rfl

/-- The run of `autoMigrate` on a table that does not exist: the one statement is the
`CREATE TABLE` and the index calls follow. -/
theorem autoMigrate_missing_table (env : Env) (rule : TaskRule) (scope : Scope)
    (ht : env.hasTable (env.tableName rule.Namespace) = false)
    (hnil : ∀ f ∈ rule.OutputFields, ¬ HasNilEntry rule.OutputConstaints f) :
    ∃ g st scope1, autoIndexGroups env rule = some g ∧ createTableColumns env rule = some st ∧
      autoMigrate env rule scope = some scope1 ∧
      execs scope1.ops = execs scope.ops ++ [createTableSql env rule st] ∧
      indexOps scope1.ops = indexOps scope.ops ++ indexCalls env rule g := by
  obtain ⟨g, hg⟩ := autoIndexGroups_isSome env rule hnil
  obtain ⟨st, hst⟩ := (createTableColumns_isSome_iff env rule).2 hnil
  obtain ⟨scope1, hc, hops⟩ := createTable_eq env rule scope st g hst hg
  refine ⟨g, st, scope1, hg, hst, ?_, ?_, ?_⟩
  · simp [autoMigrate, ht, hc]
  · rw [hops, execs_append]
    simp [execs, execs_indexCalls]
  · rw [hops, indexOps_append]
    simp [indexOps, indexOps_indexCalls]

theorem idNameRule_no_nil :
    ∀ f ∈ idNameRule.OutputFields, ¬ HasNilEntry idNameRule.OutputConstaints f :=
  no_nil_of_resolved idNameRule_resolved

/-- Away from nil pointers `getColumnTag` returns a clause, and the clause is not empty. -/
theorem getColumnTag_nonempty_of_no_nil (column : String) (constraints : Constraints)
    (h : ¬ HasNilEntry constraints column) :
    ∃ sqlTag, getColumnTag column constraints = some sqlTag ∧ sqlTag ≠ "" := by
  cases hc : constraints with
  | none => exact ⟨defaultSqlTag, rfl, by decide⟩
  | some m =>
    cases hl : m.lookup column with
    | none => exact ⟨defaultSqlTag, by simp [getColumnTag, hl], by decide⟩
    | some e =>
      cases e with
      | none => exact absurd ⟨m, hc, hl⟩ h
      | some c =>
        by_cases hs : c.Sql = ""
        · exact ⟨defaultSqlTag, by simp [getColumnTag, hl, hs], by decide⟩
        · exact ⟨c.Sql, by simp [getColumnTag, hl, hs], hs⟩

theorem resolved_getElem? {constraints : Constraints} {fields sqlTags : List String}
    (h : Resolved constraints fields sqlTags) :
    ∀ (i : Nat) (field : String), fields[i]? = some field → ∃ sqlTag, sqlTags[i]? = some sqlTag := by
  induction h with
  | nil => intro i field hf; simp at hf
  | @cons f t fs ts _ _ ih =>
    intro i field hf
    cases i with
    | zero => exact ⟨t, by simp⟩
    | succ j =>
      simp only [List.getElem?_cons_succ] at hf ⊢
      exact ih j field hf

theorem emittedTag_shape (env : Env) (field sqlTag : String) :
    ∃ body, emittedTag env field sqlTag = env.quote field ++ " " ++ body := by
  unfold emittedTag
  by_cases h : marksPrimaryKey env sqlTag = true
  · exact ⟨replaceFirst (toLower env.unicodeLower sqlTag) primaryKeyPhrase "",
      by simp only [h, if_true]⟩
  · exact ⟨sqlTag, by simp only [h, if_false]; rfl⟩

theorem two_le_length_of_mem_ne (fields : List String) (x y : String) (hx : x ∈ fields)
    (hy : y ∈ fields) (hne : x ≠ y) : 2 ≤ fields.length := by
  cases fields with
  | nil => simp at hx
  | cons a rest =>
    cases rest with
    | nil =>
      simp only [List.mem_singleton] at hx hy
      exact absurd (hx.trans hy.symm) hne
    | cons b rest2 => simp

theorem emptyFields_resolved : Resolved (none : Constraints) [] [] :=
  List.Forall₂.nil

/-! ## C1: the clause resolved by `getColumnTag` -/

/-- C1: `getColumnTag` returns the `Sql` of the column's entry when the mapping has an
entry for the column whose `Sql` is not empty, and returns the default clause
`varchar(255) NOT NULL DEFAULT ''` when there is no mapping, when the mapping has no entry
for the column, and when the entry's `Sql` is empty. -/
theorem getColumnTag_sql_or_default (column : String) (constraints : Constraints) :
    (∀ m c, constraints = some m → m.lookup column = some (some c) → c.Sql ≠ "" →
      getColumnTag column constraints = some c.Sql) ∧
    (constraints = none →
      getColumnTag column constraints = some "varchar(255) NOT NULL DEFAULT ''") ∧
    (∀ m, constraints = some m → m.lookup column = none →
      getColumnTag column constraints = some "varchar(255) NOT NULL DEFAULT ''") ∧
    (∀ m c, constraints = some m → m.lookup column = some (some c) → c.Sql = "" →
      getColumnTag column constraints = some "varchar(255) NOT NULL DEFAULT ''") := by
  refine ⟨?_, ?_, ?_, ?_⟩
  · intro m c hm hl hs
    subst hm
    simp [getColumnTag, hl, hs]
  · intro hm
    subst hm
    rfl
  · intro m hm hl
    subst hm
    simp [getColumnTag, hl, defaultSqlTag]
  · intro m c hm hl hs
    subst hm
    simp [getColumnTag, hl, hs, defaultSqlTag]

/-- The four cases of C1 on the column `a`. -/
theorem getColumnTag_sql_or_default_witness :
    getColumnTag "a" (some [("a", some ⟨"INT", "", ""⟩)]) = some "INT" ∧
    getColumnTag "a" none = some "varchar(255) NOT NULL DEFAULT ''" ∧
    getColumnTag "a" (some [("b", some ⟨"INT", "", ""⟩)])
      = some "varchar(255) NOT NULL DEFAULT ''" ∧
    getColumnTag "a" (some [("a", some ⟨"", "INDEX", ""⟩)])
      = some "varchar(255) NOT NULL DEFAULT ''" :=
  ⟨(getColumnTag_sql_or_default "a" (some [("a", some ⟨"INT", "", ""⟩)])).1
      [("a", some ⟨"INT", "", ""⟩)] ⟨"INT", "", ""⟩ rfl (by decide) (by decide),
   (getColumnTag_sql_or_default "a" none).2.1 rfl,
   (getColumnTag_sql_or_default "a" (some [("b", some ⟨"INT", "", ""⟩)])).2.2.1
      [("b", some ⟨"INT", "", ""⟩)] rfl (by decide),
   (getColumnTag_sql_or_default "a" (some [("a", some ⟨"", "INDEX", ""⟩)])).2.2.2
      [("a", some ⟨"", "INDEX", ""⟩)] ⟨"", "INDEX", ""⟩ rfl (by decide) (by decide)⟩

/-! ## C2: the column clauses of `CREATE TABLE` -/

/-- C2: on a rule whose table does not exist, `autoMigrate` runs `createTable`, which
issues one `CREATE TABLE` whose column clauses are: one clause per `OutputFields` entry,
in the order of `OutputFields`, then the synthetic `id` clause if no field is named `id`
up to letter case, then the synthetic `created_at` clause if no field is named
`created_at` up to letter case; the number of clauses is the number of fields plus the
number of synthetic columns. -/
theorem createTable_column_list (env : Env) (rule : TaskRule) (scope : Scope)
    (sqlTags : List String)
    (h : Resolved rule.OutputConstaints rule.OutputFields sqlTags) :
    ∃ st scope1, createTableColumns env rule = some st ∧
      createTable env rule scope = some scope1 ∧
      (env.hasTable (env.tableName rule.Namespace) = false →
        autoMigrate env rule scope = some scope1) ∧
      execs scope1.ops = execs scope.ops ++ [createTableSql env rule st] ∧
      st.tags = List.zipWith (emittedTag env) rule.OutputFields sqlTags
        ++ (if rule.OutputFields.any (isNamed env "id") then [] else [syntheticIdTag])
        ++ (if rule.OutputFields.any (isNamed env "created_at") then []
            else [syntheticCreatedAtTag]) ∧
      (List.zipWith (emittedTag env) rule.OutputFields sqlTags).length
        = rule.OutputFields.length ∧
      st.tags.length = rule.OutputFields.length
        + (if rule.OutputFields.any (isNamed env "id") then 0 else 1)
        + (if rule.OutputFields.any (isNamed env "created_at") then 0 else 1) := by
  obtain ⟨g, hg⟩ := autoIndexGroups_isSome env rule (no_nil_of_resolved h)
  have hst := createTableColumns_eq env rule sqlTags h
  obtain ⟨scope1, hc, hops⟩ := createTable_eq env rule scope _ g hst hg
  have hlen : (List.zipWith (emittedTag env) rule.OutputFields sqlTags).length
      = rule.OutputFields.length := by
    rw [List.length_zipWith, ← List.Forall₂.length_eq h, Nat.min_self]
  refine ⟨_, scope1, hst, hc, ?_, ?_, rfl, hlen, ?_⟩
  · intro ht
    simp [autoMigrate, ht, hc]
  · rw [hops, execs_append]
    simp [execs, execs_indexCalls]
  · simp only [List.length_append, hlen]
    cases rule.OutputFields.any (isNamed env "id") <;>
      cases rule.OutputFields.any (isNamed env "created_at") <;> simp

/-- C2 on the rule with fields `id` and `name`: two declared clauses and the synthetic
`created_at`. -/
theorem createTable_column_list_witness :
    Resolved idNameRule.OutputConstaints idNameRule.OutputFields
      ["INT NOT NULL PRIMARY KEY", "varchar(255) NOT NULL DEFAULT ''"] ∧
    ∃ st scope1, createTableColumns emptyCatalog idNameRule = some st ∧
      createTable emptyCatalog idNameRule ⟨[], []⟩ = some scope1 ∧
      (emptyCatalog.hasTable (emptyCatalog.tableName idNameRule.Namespace) = false →
        autoMigrate emptyCatalog idNameRule ⟨[], []⟩ = some scope1) ∧
      execs scope1.ops = execs [] ++ [createTableSql emptyCatalog idNameRule st] ∧
      st.tags = List.zipWith (emittedTag emptyCatalog) idNameRule.OutputFields
          ["INT NOT NULL PRIMARY KEY", "varchar(255) NOT NULL DEFAULT ''"]
        ++ (if idNameRule.OutputFields.any (isNamed emptyCatalog "id") then []
            else [syntheticIdTag])
        ++ (if idNameRule.OutputFields.any (isNamed emptyCatalog "created_at") then []
            else [syntheticCreatedAtTag]) ∧
      (List.zipWith (emittedTag emptyCatalog) idNameRule.OutputFields
          ["INT NOT NULL PRIMARY KEY", "varchar(255) NOT NULL DEFAULT ''"]).length
        = idNameRule.OutputFields.length ∧
      st.tags.length = idNameRule.OutputFields.length
        + (if idNameRule.OutputFields.any (isNamed emptyCatalog "id") then 0 else 1)
        + (if idNameRule.OutputFields.any (isNamed emptyCatalog "created_at") then 0 else 1) :=
  ⟨idNameRule_resolved,
    createTable_column_list emptyCatalog idNameRule ⟨[], []⟩
      ["INT NOT NULL PRIMARY KEY", "varchar(255) NOT NULL DEFAULT ''"] idNameRule_resolved⟩

/-! ## C3: the emitted clause of a primary-key column -/

/-- C3 (counterexample): for the field `id` declared `INT NOT NULL PRIMARY KEY`,
`createTable` emits the clause with the phrase removed and the rest of the clause in
lower case, `int not null `, not `INT NOT NULL `. -/
theorem createTable_lowercases_stripped_clause :
    createTableColumns emptyCatalog idNameRule = some
      { tags := ["`id` int not null ",
                 "`name` varchar(255) NOT NULL DEFAULT ''",
                 "`created_at` datetime NOT NULL DEFAULT CURRENT_TIMESTAMP"]
        primaryKeys := ["`id`"]
        foundId := true
        foundCreatedAt := false } ∧
    getColumnTag "id" idNameRule.OutputConstaints = some "INT NOT NULL PRIMARY KEY" ∧
    emptyCatalog.quote "id" ++ " " ++ "INT NOT NULL " ≠ "`id` int not null " := by
  decide

/-- C3 (amended): when a column's resolved clause contains "primary key" in some letter
casing, the column clause emitted by `createTable` is the quoted name, a space, and the
lower-cased resolved clause with the first occurrence of the phrase removed: the
lower-cased text before that occurrence followed by the lower-cased text after it.  When
the resolved clause does not contain the phrase, the emitted clause is the quoted name, a
space, and the resolved clause as it is. -/
theorem createTable_emitted_clause (env : Env) (rule : TaskRule) (scope : Scope)
    (sqlTags : List String)
    (h : Resolved rule.OutputConstaints rule.OutputFields sqlTags) :
    ∃ st scope1, createTableColumns env rule = some st ∧
      createTable env rule scope = some scope1 ∧
      execs scope1.ops = execs scope.ops ++ [createTableSql env rule st] ∧
      ∀ (i : Nat) (field sqlTag : String),
        rule.OutputFields[i]? = some field → sqlTags[i]? = some sqlTag →
        (contains (toLower env.unicodeLower sqlTag) "primary key" = true →
          st.tags[i]? = some (env.quote field ++ " "
            ++ replaceFirst (toLower env.unicodeLower sqlTag) "primary key" "") ∧
          ∃ pre post : String,
            toLower env.unicodeLower sqlTag = pre ++ "primary key" ++ post ∧
            contains (pre ++ "primary ke") "primary key" = false ∧
            replaceFirst (toLower env.unicodeLower sqlTag) "primary key" "" = pre ++ post) ∧
        (contains (toLower env.unicodeLower sqlTag) "primary key" = false →
          st.tags[i]? = some (env.quote field ++ " " ++ sqlTag)) := by
  obtain ⟨st, scope1, hst, hc, hex, _, hget⟩ := createTable_tag_at env rule scope sqlTags h
  refine ⟨st, scope1, hst, hc, hex, ?_⟩
  intro i field sqlTag hf ht
  constructor
  · intro hyes
    refine ⟨?_, replaceFirst_primaryKey _ hyes⟩
    rw [hget i field sqlTag hf ht]
    simp [emittedTag, marksPrimaryKey, primaryKeyPhrase, hyes]
  · intro hno
    rw [hget i field sqlTag hf ht]
    simp [emittedTag, marksPrimaryKey, primaryKeyPhrase, hno]

/-- C3 (amended) on the rule with fields `id` and `name`. -/
theorem createTable_emitted_clause_witness :
    Resolved idNameRule.OutputConstaints idNameRule.OutputFields
      ["INT NOT NULL PRIMARY KEY", "varchar(255) NOT NULL DEFAULT ''"] ∧
    ∃ st scope1, createTableColumns emptyCatalog idNameRule = some st ∧
      createTable emptyCatalog idNameRule ⟨[], []⟩ = some scope1 ∧
      execs scope1.ops = execs [] ++ [createTableSql emptyCatalog idNameRule st] ∧
      ∀ (i : Nat) (field sqlTag : String),
        idNameRule.OutputFields[i]? = some field →
        ["INT NOT NULL PRIMARY KEY", "varchar(255) NOT NULL DEFAULT ''"][i]? = some sqlTag →
        (contains (toLower emptyCatalog.unicodeLower sqlTag) "primary key" = true →
          st.tags[i]? = some (emptyCatalog.quote field ++ " "
            ++ replaceFirst (toLower emptyCatalog.unicodeLower sqlTag) "primary key" "") ∧
          ∃ pre post : String,
            toLower emptyCatalog.unicodeLower sqlTag = pre ++ "primary key" ++ post ∧
            contains (pre ++ "primary ke") "primary key" = false ∧
            replaceFirst (toLower emptyCatalog.unicodeLower sqlTag) "primary key" ""
              = pre ++ post) ∧
        (contains (toLower emptyCatalog.unicodeLower sqlTag) "primary key" = false →
          st.tags[i]? = some (emptyCatalog.quote field ++ " " ++ sqlTag)) :=
  ⟨idNameRule_resolved,
    createTable_emitted_clause emptyCatalog idNameRule ⟨[], []⟩
      ["INT NOT NULL PRIMARY KEY", "varchar(255) NOT NULL DEFAULT ''"] idNameRule_resolved⟩

/-! ## C4: the members of the primary key -/

/-- C4: the primary-key list built by `createTable` holds the quoted names of exactly the
declared columns whose resolved clause contains "primary key" once lower-cased, in the
order of `OutputFields`, followed by the synthetic `id` when no field is named `id`; the
synthetic `id` is then the last member. -/
theorem createTable_primary_key_members (env : Env) (rule : TaskRule) (scope : Scope)
    (sqlTags : List String)
    (h : Resolved rule.OutputConstaints rule.OutputFields sqlTags) :
    ∃ st scope1, createTableColumns env rule = some st ∧
      createTable env rule scope = some scope1 ∧
      execs scope1.ops = execs scope.ops ++ [createTableSql env rule st] ∧
      st.primaryKeys =
        ((rule.OutputFields.zip sqlTags).filter
            (fun p => contains (toLower env.unicodeLower p.2) "primary key")).map
          (fun p => env.quote p.1)
        ++ (if rule.OutputFields.any (isNamed env "id") then [] else ["id"]) ∧
      (∀ p ∈ rule.OutputFields.zip sqlTags,
        contains (toLower env.unicodeLower p.2) "primary key" = true →
          env.quote p.1 ∈ st.primaryKeys) ∧
      (rule.OutputFields.any (isNamed env "id") = false →
        st.primaryKeys.getLast? = some "id") := by
  obtain ⟨st, scope1, hst, hc, _, hex, _, hpk⟩ := createTable_run env rule scope sqlTags h
  refine ⟨st, scope1, hst, hc, hex, hpk, ?_, ?_⟩
  · intro p hp hcont
    rw [hpk]
    apply List.mem_append_left
    exact List.mem_map.2 ⟨p, List.mem_filter.2 ⟨hp, hcont⟩, rfl⟩
  · intro hid
    rw [hpk, hid]
    simp

/-- C4 on the rule with fields `id` and `name`. -/
theorem createTable_primary_key_members_witness :
    Resolved idNameRule.OutputConstaints idNameRule.OutputFields
      ["INT NOT NULL PRIMARY KEY", "varchar(255) NOT NULL DEFAULT ''"] ∧
    ∃ st scope1, createTableColumns emptyCatalog idNameRule = some st ∧
      createTable emptyCatalog idNameRule ⟨[], []⟩ = some scope1 ∧
      execs scope1.ops = execs [] ++ [createTableSql emptyCatalog idNameRule st] ∧
      st.primaryKeys =
        ((idNameRule.OutputFields.zip
            ["INT NOT NULL PRIMARY KEY", "varchar(255) NOT NULL DEFAULT ''"]).filter
            (fun p => contains (toLower emptyCatalog.unicodeLower p.2) "primary key")).map
          (fun p => emptyCatalog.quote p.1)
        ++ (if idNameRule.OutputFields.any (isNamed emptyCatalog "id") then [] else ["id"]) ∧
      (∀ p ∈ idNameRule.OutputFields.zip
          ["INT NOT NULL PRIMARY KEY", "varchar(255) NOT NULL DEFAULT ''"],
        contains (toLower emptyCatalog.unicodeLower p.2) "primary key" = true →
          emptyCatalog.quote p.1 ∈ st.primaryKeys) ∧
      (idNameRule.OutputFields.any (isNamed emptyCatalog "id") = false →
        st.primaryKeys.getLast? = some "id") :=
  ⟨idNameRule_resolved,
    createTable_primary_key_members emptyCatalog idNameRule ⟨[], []⟩
      ["INT NOT NULL PRIMARY KEY", "varchar(255) NOT NULL DEFAULT ''"] idNameRule_resolved⟩

/-! ## C5: the phrase in emitted clauses -/

/-- C5 (counterexample): for a column declared `INT PRIMARY KEY PRIMARY KEY`, the clause
emitted by `createTable` is `int  primary key`, which still contains the phrase. -/
theorem createTable_keeps_second_phrase :
    createTableColumns emptyCatalog twoPhraseRule = some
      { tags := ["`a` int  primary key",
                 "`id` bigint(64) unsigned NOT NULL AUTO_INCREMENT",
                 "`created_at` datetime NOT NULL DEFAULT CURRENT_TIMESTAMP"]
        primaryKeys := ["`a`", "id"]
        foundId := false
        foundCreatedAt := false } ∧
    emptyCatalog.quote "a" ++ " " ++ "int  primary key" = "`a` int  primary key" ∧
    contains (toLower emptyCatalog.unicodeLower "int  primary key") "primary key" = true := by
  decide

/-- C5 (amended): `createTable` strips one occurrence of the phrase, the first, from each
column clause that has it.  If the lower-cased resolved clause is `pre`, then
"primary key", then `post`, this being the first occurrence, and `pre ++ post` does not
contain the phrase, then the type and constraint part of the emitted clause is
`pre ++ post`, free of the phrase, and the quoted column name is a member of the list of
the composite `PRIMARY KEY (...)` clause.  A clause that does not contain the phrase in
any letter casing is emitted unchanged. -/
theorem createTable_strips_first_phrase (env : Env) (rule : TaskRule) (scope : Scope)
    (sqlTags : List String)
    (h : Resolved rule.OutputConstaints rule.OutputFields sqlTags) :
    ∃ st scope1, createTableColumns env rule = some st ∧
      createTable env rule scope = some scope1 ∧
      execs scope1.ops = execs scope.ops ++ [createTableSql env rule st] ∧
      ∀ (i : Nat) (field sqlTag : String),
        rule.OutputFields[i]? = some field → sqlTags[i]? = some sqlTag →
        (∀ pre post : String, toLower env.unicodeLower sqlTag = pre ++ "primary key" ++ post →
          contains (pre ++ "primary ke") "primary key" = false →
          contains (pre ++ post) "primary key" = false →
          ∃ body, body = pre ++ post ∧
            st.tags[i]? = some (env.quote field ++ " " ++ body) ∧
            contains body "primary key" = false ∧
            env.quote field ∈ st.primaryKeys ∧
            primaryKeyStr st.primaryKeys
              = ", PRIMARY KEY (" ++ join st.primaryKeys "," ++ ")") ∧
        (contains (toLower env.unicodeLower sqlTag) "primary key" = false →
          st.tags[i]? = some (env.quote field ++ " " ++ sqlTag)) := by
  obtain ⟨st, scope1, hst, hc, hex, hpk, hget⟩ := createTable_tag_at env rule scope sqlTags h
  refine ⟨st, scope1, hst, hc, hex, ?_⟩
  intro i field sqlTag hf ht
  constructor
  · intro pre post hs hfirst hfree
    have hrep := replaceFirst_at_first pre post hfirst
    have hyes : contains (toLower env.unicodeLower sqlTag) "primary key" = true := by
      cases hcont : contains (toLower env.unicodeLower sqlTag) "primary key" with
      | true => rfl
      | false =>
        exfalso
        have hid : replaceFirst (toLower env.unicodeLower sqlTag) "primary key" ""
            = toLower env.unicodeLower sqlTag := by
          apply String.ext
          exact replaceFirstChars_of_not_contains "primary key".data "".data (by decide) _ hcont
        rw [hs, hrep] at hid
        have hlen := congrArg String.length hid
        simp [String.length_append] at hlen
        have : "primary key".length = 11 := by decide
        omega
    have hmem : env.quote field ∈ st.primaryKeys := by
      rw [hpk]
      apply List.mem_append_left
      exact List.mem_map.2 ⟨(field, sqlTag),
        List.mem_filter.2 ⟨mem_zip_of_getElem? _ _ i field sqlTag hf ht, hyes⟩, rfl⟩
    refine ⟨pre ++ post, rfl, ?_, hfree, hmem, ?_⟩
    · have hyes1 := hyes
      rw [hs] at hyes1
      rw [hget i field sqlTag hf ht]
      simp [emittedTag, marksPrimaryKey, primaryKeyPhrase, hyes1, hs, hrep]
    · have hpos : st.primaryKeys.length > 0 := List.length_pos.2 (List.ne_nil_of_mem hmem)
      simp [primaryKeyStr, hpos]
  · intro hno
    rw [hget i field sqlTag hf ht]
    simp [emittedTag, marksPrimaryKey, primaryKeyPhrase, hno]

/-- C5 (amended) on the rule with fields `id` and `name`. -/
theorem createTable_strips_first_phrase_witness :
    Resolved idNameRule.OutputConstaints idNameRule.OutputFields
      ["INT NOT NULL PRIMARY KEY", "varchar(255) NOT NULL DEFAULT ''"] ∧
    ∃ st scope1, createTableColumns emptyCatalog idNameRule = some st ∧
      createTable emptyCatalog idNameRule ⟨[], []⟩ = some scope1 ∧
      execs scope1.ops = execs [] ++ [createTableSql emptyCatalog idNameRule st] ∧
      ∀ (i : Nat) (field sqlTag : String),
        idNameRule.OutputFields[i]? = some field →
        ["INT NOT NULL PRIMARY KEY", "varchar(255) NOT NULL DEFAULT ''"][i]? = some sqlTag →
        (∀ pre post : String,
          toLower emptyCatalog.unicodeLower sqlTag = pre ++ "primary key" ++ post →
          contains (pre ++ "primary ke") "primary key" = false →
          contains (pre ++ post) "primary key" = false →
          ∃ body, body = pre ++ post ∧
            st.tags[i]? = some (emptyCatalog.quote field ++ " " ++ body) ∧
            contains body "primary key" = false ∧
            emptyCatalog.quote field ∈ st.primaryKeys ∧
            primaryKeyStr st.primaryKeys
              = ", PRIMARY KEY (" ++ join st.primaryKeys "," ++ ")") ∧
        (contains (toLower emptyCatalog.unicodeLower sqlTag) "primary key" = false →
          st.tags[i]? = some (emptyCatalog.quote field ++ " " ++ sqlTag)) :=
  ⟨idNameRule_resolved,
    createTable_strips_first_phrase emptyCatalog idNameRule ⟨[], []⟩
      ["INT NOT NULL PRIMARY KEY", "varchar(255) NOT NULL DEFAULT ''"] idNameRule_resolved⟩

/-! ## C6: the `PRIMARY KEY` clause -/

/-- C6: the `CREATE TABLE` built by `createTable` has one place for the primary-key
clause, between the column clauses and the closing bracket.  When some declared column's
clause contains "primary key" or the synthetic `id` is added, that place holds
`, PRIMARY KEY (...)` over the primary-key list, which is not empty; otherwise the list
is empty and the place holds nothing. -/
theorem createTable_primary_key_clause (env : Env) (rule : TaskRule) (scope : Scope)
    (sqlTags : List String)
    (h : Resolved rule.OutputConstaints rule.OutputFields sqlTags) :
    ∃ st scope1, createTableColumns env rule = some st ∧
      createTable env rule scope = some scope1 ∧
      (env.hasTable (env.tableName rule.Namespace) = false →
        autoMigrate env rule scope = some scope1) ∧
      execs scope1.ops = execs scope.ops ++ [createTableSql env rule st] ∧
      ((sqlTags.any (marksPrimaryKey env) = true ∨
          rule.OutputFields.any (isNamed env "id") = false) →
        st.primaryKeys ≠ [] ∧
        createTableSql env rule st =
          "CREATE TABLE " ++ env.quotedTableName rule.Namespace ++ " (" ++ join st.tags ","
            ++ " " ++ (", PRIMARY KEY (" ++ join st.primaryKeys "," ++ ")") ++ ")"
            ++ getTableOptions rule) ∧
      ((sqlTags.any (marksPrimaryKey env) = false ∧
          rule.OutputFields.any (isNamed env "id") = true) →
        st.primaryKeys = [] ∧
        createTableSql env rule st =
          "CREATE TABLE " ++ env.quotedTableName rule.Namespace ++ " (" ++ join st.tags ","
            ++ " " ++ "" ++ ")" ++ getTableOptions rule) := by
  obtain ⟨st, scope1, hst, hc, hm, hex, _, hpk⟩ := createTable_run env rule scope sqlTags h
  refine ⟨st, scope1, hst, hc, hm, hex, ?_, ?_⟩
  · intro hor
    have hne : st.primaryKeys ≠ [] := by
      rw [hpk]
      rcases hor with hany | hid
      · intro hnil
        have hd := (List.append_eq_nil.1 hnil).1
        rw [declaredKeys_eq_nil_iff env h, hany] at hd
        exact Bool.noConfusion hd
      · rw [hid]
        simp
    refine ⟨hne, ?_⟩
    have hlen : st.primaryKeys.length > 0 := List.length_pos.2 hne
    simp only [createTableSql, primaryKeyStr, hlen, if_true]
  · rintro ⟨hany, hid⟩
    have hnil : st.primaryKeys = [] := by
      rw [hpk, hid, (declaredKeys_eq_nil_iff env h).2 hany]
      rfl
    refine ⟨hnil, ?_⟩
    simp [createTableSql, primaryKeyStr, hnil]

/-- C6 on the rule with fields `id` and `name`, where `id` is declared primary key. -/
theorem createTable_primary_key_clause_witness :
    Resolved idNameRule.OutputConstaints idNameRule.OutputFields
      ["INT NOT NULL PRIMARY KEY", "varchar(255) NOT NULL DEFAULT ''"] ∧
    ∃ st scope1, createTableColumns emptyCatalog idNameRule = some st ∧
      createTable emptyCatalog idNameRule ⟨[], []⟩ = some scope1 ∧
      (emptyCatalog.hasTable (emptyCatalog.tableName idNameRule.Namespace) = false →
        autoMigrate emptyCatalog idNameRule ⟨[], []⟩ = some scope1) ∧
      execs scope1.ops = execs [] ++ [createTableSql emptyCatalog idNameRule st] ∧
      ((["INT NOT NULL PRIMARY KEY", "varchar(255) NOT NULL DEFAULT ''"].any
            (marksPrimaryKey emptyCatalog) = true ∨
          idNameRule.OutputFields.any (isNamed emptyCatalog "id") = false) →
        st.primaryKeys ≠ [] ∧
        createTableSql emptyCatalog idNameRule st =
          "CREATE TABLE " ++ emptyCatalog.quotedTableName idNameRule.Namespace ++ " ("
            ++ join st.tags "," ++ " " ++ (", PRIMARY KEY (" ++ join st.primaryKeys "," ++ ")")
            ++ ")" ++ getTableOptions idNameRule) ∧
      ((["INT NOT NULL PRIMARY KEY", "varchar(255) NOT NULL DEFAULT ''"].any
            (marksPrimaryKey emptyCatalog) = false ∧
          idNameRule.OutputFields.any (isNamed emptyCatalog "id") = true) →
        st.primaryKeys = [] ∧
        createTableSql emptyCatalog idNameRule st =
          "CREATE TABLE " ++ emptyCatalog.quotedTableName idNameRule.Namespace ++ " ("
            ++ join st.tags "," ++ " " ++ "" ++ ")" ++ getTableOptions idNameRule) :=
  ⟨idNameRule_resolved,
    createTable_primary_key_clause emptyCatalog idNameRule ⟨[], []⟩
      ["INT NOT NULL PRIMARY KEY", "varchar(255) NOT NULL DEFAULT ''"] idNameRule_resolved⟩

/-! ## C7: the synthetic `id` -/

/-- C7: when no field of `OutputFields` is named `id` up to letter case, the table built
by `createTable` has the synthetic auto-increment `id` column after the declared columns
and `id` is the last member of the `PRIMARY KEY` clause; when some field is named `id` in
some letter casing, the columns are the declared ones (and possibly `created_at`) and the
primary-key members are the declared ones only. -/
theorem createTable_synthetic_id (env : Env) (rule : TaskRule) (scope : Scope)
    (sqlTags : List String)
    (h : Resolved rule.OutputConstaints rule.OutputFields sqlTags) :
    ∃ st scope1, createTableColumns env rule = some st ∧
      createTable env rule scope = some scope1 ∧
      execs scope1.ops = execs scope.ops ++ [createTableSql env rule st] ∧
      ((∀ f ∈ rule.OutputFields, toLower env.unicodeLower f ≠ "id") →
        st.tags = List.zipWith (emittedTag env) rule.OutputFields sqlTags
          ++ ["`id` bigint(64) unsigned NOT NULL AUTO_INCREMENT"]
          ++ (if rule.OutputFields.any (isNamed env "created_at") then []
              else [syntheticCreatedAtTag]) ∧
        st.primaryKeys = declaredKeys env rule.OutputFields sqlTags ++ ["id"] ∧
        primaryKeyStr st.primaryKeys =
          ", PRIMARY KEY (" ++ join (declaredKeys env rule.OutputFields sqlTags ++ ["id"]) ","
            ++ ")") ∧
      ((∃ f ∈ rule.OutputFields, toLower env.unicodeLower f = "id") →
        st.tags = List.zipWith (emittedTag env) rule.OutputFields sqlTags
          ++ (if rule.OutputFields.any (isNamed env "created_at") then []
              else [syntheticCreatedAtTag]) ∧
        st.primaryKeys = declaredKeys env rule.OutputFields sqlTags) := by
  obtain ⟨st, scope1, hst, hc, _, hex, htags, hpk⟩ := createTable_run env rule scope sqlTags h
  refine ⟨st, scope1, hst, hc, hex, ?_, ?_⟩
  · intro hno
    have hid := (any_isNamed_eq_false env "id" rule.OutputFields).2 hno
    rw [hid] at htags hpk
    refine ⟨by simpa [syntheticIdTag] using htags, by simpa using hpk, ?_⟩
    rw [hpk]
    simp [primaryKeyStr]
  · intro hsome
    have hid := (any_isNamed_eq_true env "id" rule.OutputFields).2 hsome
    rw [hid] at htags hpk
    exact ⟨by simpa using htags, by simpa using hpk⟩

/-- C7 on a rule whose only field is `name`: the synthetic `id` is added. -/
theorem createTable_synthetic_id_witness :
    Resolved (none : Constraints) ["name"] ["varchar(255) NOT NULL DEFAULT ''"] ∧
    ∃ st scope1, createTableColumns emptyCatalog ⟨"t", ["name"], none, ""⟩ = some st ∧
      createTable emptyCatalog ⟨"t", ["name"], none, ""⟩ ⟨[], []⟩ = some scope1 ∧
      execs scope1.ops
        = execs [] ++ [createTableSql emptyCatalog ⟨"t", ["name"], none, ""⟩ st] ∧
      ((∀ f ∈ ["name"], toLower emptyCatalog.unicodeLower f ≠ "id") →
        st.tags = List.zipWith (emittedTag emptyCatalog) ["name"]
            ["varchar(255) NOT NULL DEFAULT ''"]
          ++ ["`id` bigint(64) unsigned NOT NULL AUTO_INCREMENT"]
          ++ (if ["name"].any (isNamed emptyCatalog "created_at") then []
              else [syntheticCreatedAtTag]) ∧
        st.primaryKeys
          = declaredKeys emptyCatalog ["name"] ["varchar(255) NOT NULL DEFAULT ''"] ++ ["id"] ∧
        primaryKeyStr st.primaryKeys =
          ", PRIMARY KEY ("
            ++ join (declaredKeys emptyCatalog ["name"] ["varchar(255) NOT NULL DEFAULT ''"]
                ++ ["id"]) ","
            ++ ")") ∧
      ((∃ f ∈ ["name"], toLower emptyCatalog.unicodeLower f = "id") →
        st.tags = List.zipWith (emittedTag emptyCatalog) ["name"]
            ["varchar(255) NOT NULL DEFAULT ''"]
          ++ (if ["name"].any (isNamed emptyCatalog "created_at") then []
              else [syntheticCreatedAtTag]) ∧
        st.primaryKeys
          = declaredKeys emptyCatalog ["name"] ["varchar(255) NOT NULL DEFAULT ''"]) :=
  ⟨nameRule_resolved,
    createTable_synthetic_id emptyCatalog ⟨"t", ["name"], none, ""⟩ ⟨[], []⟩
      ["varchar(255) NOT NULL DEFAULT ''"] nameRule_resolved⟩

/-! ## C8: the table options -/

/-- C8: the `CREATE TABLE` built by `createTable` ends with the result of
`getTableOptions`, which is ` CHARSET=utf8mb4` when `OutputTableOpts` is empty and
otherwise one space followed by `OutputTableOpts`. -/
theorem createTable_table_options (env : Env) (rule : TaskRule) (scope : Scope)
    (sqlTags : List String)
    (h : Resolved rule.OutputConstaints rule.OutputFields sqlTags) :
    ∃ st scope1, createTableColumns env rule = some st ∧
      createTable env rule scope = some scope1 ∧
      execs scope1.ops = execs scope.ops ++ [createTableSql env rule st] ∧
      createTableSql env rule st =
        ("CREATE TABLE " ++ env.quotedTableName rule.Namespace ++ " (" ++ join st.tags ","
          ++ " " ++ primaryKeyStr st.primaryKeys ++ ")") ++ getTableOptions rule ∧
      (rule.OutputTableOpts = "" → getTableOptions rule = " CHARSET=utf8mb4") ∧
      (rule.OutputTableOpts ≠ "" → getTableOptions rule = " " ++ rule.OutputTableOpts) := by
  obtain ⟨st, scope1, hst, hc, _, hex, _, _⟩ := createTable_run env rule scope sqlTags h
  refine ⟨st, scope1, hst, hc, hex, rfl, ?_, ?_⟩
  · intro he
    simp [getTableOptions, he]
  · intro hne
    simp [getTableOptions, hne]

/-- C8 on a rule with `OutputTableOpts = "ENGINE=InnoDB"`. -/
theorem createTable_table_options_witness :
    Resolved (none : Constraints) ["name"] ["varchar(255) NOT NULL DEFAULT ''"] ∧
    ∃ st scope1,
      createTableColumns emptyCatalog ⟨"t", ["name"], none, "ENGINE=InnoDB"⟩ = some st ∧
      createTable emptyCatalog ⟨"t", ["name"], none, "ENGINE=InnoDB"⟩ ⟨[], []⟩ = some scope1 ∧
      execs scope1.ops
        = execs [] ++ [createTableSql emptyCatalog ⟨"t", ["name"], none, "ENGINE=InnoDB"⟩ st] ∧
      createTableSql emptyCatalog ⟨"t", ["name"], none, "ENGINE=InnoDB"⟩ st =
        ("CREATE TABLE " ++ emptyCatalog.quotedTableName "t" ++ " (" ++ join st.tags ","
          ++ " " ++ primaryKeyStr st.primaryKeys ++ ")")
          ++ getTableOptions ⟨"t", ["name"], none, "ENGINE=InnoDB"⟩ ∧
      ("ENGINE=InnoDB" = "" →
        getTableOptions ⟨"t", ["name"], none, "ENGINE=InnoDB"⟩ = " CHARSET=utf8mb4") ∧
      ("ENGINE=InnoDB" ≠ "" →
        getTableOptions ⟨"t", ["name"], none, "ENGINE=InnoDB"⟩ = " " ++ "ENGINE=InnoDB") :=
  ⟨nameRule_resolved,
    createTable_table_options emptyCatalog ⟨"t", ["name"], none, "ENGINE=InnoDB"⟩ ⟨[], []⟩
      ["varchar(255) NOT NULL DEFAULT ''"] nameRule_resolved⟩

/-! ## C9: the columns added to a live table -/

/-- C9: on a rule whose table exists, `autoMigrate` asks the catalog about each field of
`OutputFields` in turn, after the statements for the earlier fields were executed, and
issues one `ALTER TABLE <quoted table> ADD <quoted column> <clause>;`, with the clause
`getColumnTag` resolves, when the catalog does not have the column at that moment, and
nothing when it has.  Against a live catalog the statements issued are therefore one for
each column of `OutputFields` that the catalog lacks at the start, each column once and
in the order of `OutputFields`, and none for a column the catalog has. -/
theorem autoMigrate_adds_missing_columns (env : Env) (rule : TaskRule) (scope : Scope)
    (ht : env.hasTable (env.tableName rule.Namespace) = true)
    (hnil : ∀ f ∈ rule.OutputFields, ¬ HasNilEntry rule.OutputConstaints f) :
    ∃ (scope1 : Scope) (added : List String), autoMigrate env rule scope = some scope1 ∧
      addColumns env rule rule.OutputFields scope
        = some { scope with ops := scope.ops ++ added.map Op.exec } ∧
      execs scope1.ops = execs scope.ops ++ added ∧
      (∀ sql ∈ added, ∃ f sqlTag, f ∈ rule.OutputFields ∧
        getColumnTag f rule.OutputConstaints = some sqlTag ∧
        sql = "ALTER TABLE " ++ env.quotedTableName rule.Namespace ++ " ADD " ++ env.quote f
          ++ " " ++ sqlTag ++ ";") ∧
      (∀ (i : Nat) (f : String), rule.OutputFields[i]? = some f →
        ∃ before sqlTag,
          addColumns env rule (rule.OutputFields.take i) scope = some before ∧
          getColumnTag f rule.OutputConstaints = some sqlTag ∧
          addColumns env rule (rule.OutputFields.take (i + 1)) scope = some
            (if env.hasColumn before.ops (env.tableName rule.Namespace) f then before
             else { before with
                    ops := before.ops ++
                      [Op.exec ("ALTER TABLE " ++ env.quotedTableName rule.Namespace ++ " ADD "
                        ++ env.quote f ++ " " ++ sqlTag ++ ";")] })) ∧
      (LiveCatalog env rule →
        ∃ cols : List String, cols.Nodup ∧ cols.Sublist rule.OutputFields ∧
          (∀ f, f ∈ cols ↔
            f ∈ rule.OutputFields ∧
              env.hasColumn scope.ops (env.tableName rule.Namespace) f = false) ∧
          List.Forall₂
            (fun f sql => ∃ sqlTag, getColumnTag f rule.OutputConstaints = some sqlTag ∧
              sql = "ALTER TABLE " ++ env.quotedTableName rule.Namespace ++ " ADD "
                ++ env.quote f ++ " " ++ sqlTag ++ ";")
            cols added) := by
  obtain ⟨_, scope1, added, _, hadd, hm, _, hex, _, hall⟩ :=
    autoMigrate_existing_table env rule scope ht hnil
  refine ⟨scope1, added, hm, hadd, hex, hall, ?_, ?_⟩
  · intro i f hi
    have hsubset : ∀ x ∈ rule.OutputFields.take i, ¬ HasNilEntry rule.OutputConstaints x :=
      fun x hx => hnil x (List.mem_of_mem_take hx)
    obtain ⟨pre, hpre, _⟩ := addColumns_shape env rule (rule.OutputFields.take i) scope hsubset
    have hfmem : f ∈ rule.OutputFields := List.mem_iff_getElem?.2 ⟨i, hi⟩
    obtain ⟨sqlTag, htag, _⟩ := getColumnTag_nonempty_of_no_nil f rule.OutputConstaints
      (hnil f hfmem)
    refine ⟨_, sqlTag, hpre, htag, ?_⟩
    rw [List.take_succ, hi, Option.toList_some, addColumns_append, hpre]
    exact addColumns_single env rule f sqlTag _ htag
  · intro hlive
    obtain ⟨cols, hnd, hsl, hmem, hrun⟩ :=
      addColumns_live env rule hlive rule.OutputFields scope (fun f hf => hf) hnil
    refine ⟨cols, hnd, hsl, hmem, ?_⟩
    have heq : added = cols.filterMap (fun f => (getColumnTag f rule.OutputConstaints).map
        (fun sqlTag => addColumnSql env rule f sqlTag)) := by
      rw [hadd] at hrun
      have h1 := congrArg (fun o => o.map (fun s => execs s.ops)) hrun
      simp only [Option.map_some', Option.some.injEq, execs_append, execs_map_exec] at h1
      exact List.append_cancel_left h1
    rw [heq]
    have hcols : ∀ f ∈ cols, ¬ HasNilEntry rule.OutputConstaints f :=
      fun f hf => hnil f ((hmem f).1 hf).1
    clear hmem hsl hnd hrun heq
    induction cols with
    | nil => exact List.Forall₂.nil
    | cons c rest ih =>
      obtain ⟨sqlTag, htag, _⟩ := getColumnTag_nonempty_of_no_nil c rule.OutputConstaints
        (hcols c (List.mem_cons_self _ _))
      rw [List.filterMap_cons, htag]
      exact List.Forall₂.cons ⟨sqlTag, htag, rfl⟩
        (ih (fun f hf => hcols f (List.mem_cons_of_mem _ hf)))

/-- C9 on a rule that lists the column `a` twice, against a live catalog whose table `t`
has no column: the column is added once. -/
theorem autoMigrate_adds_missing_columns_witness :
    emptyTableCatalog.hasTable (emptyTableCatalog.tableName twiceRule.Namespace) = true ∧
    (∀ f ∈ twiceRule.OutputFields, ¬ HasNilEntry twiceRule.OutputConstaints f) ∧
    LiveCatalog emptyTableCatalog twiceRule ∧
    ∃ (scope1 : Scope) (added : List String),
      autoMigrate emptyTableCatalog twiceRule ⟨[], []⟩ = some scope1 ∧
      addColumns emptyTableCatalog twiceRule twiceRule.OutputFields ⟨[], []⟩
        = some { (⟨[], []⟩ : Scope) with ops := [] ++ added.map Op.exec } ∧
      execs scope1.ops = execs [] ++ added ∧
      (∀ sql ∈ added, ∃ f sqlTag, f ∈ twiceRule.OutputFields ∧
        getColumnTag f twiceRule.OutputConstaints = some sqlTag ∧
        sql = "ALTER TABLE " ++ emptyTableCatalog.quotedTableName twiceRule.Namespace ++ " ADD "
          ++ emptyTableCatalog.quote f ++ " " ++ sqlTag ++ ";") ∧
      (∀ (i : Nat) (f : String), twiceRule.OutputFields[i]? = some f →
        ∃ before sqlTag,
          addColumns emptyTableCatalog twiceRule (twiceRule.OutputFields.take i) ⟨[], []⟩
            = some before ∧
          getColumnTag f twiceRule.OutputConstaints = some sqlTag ∧
          addColumns emptyTableCatalog twiceRule (twiceRule.OutputFields.take (i + 1)) ⟨[], []⟩
            = some
            (if emptyTableCatalog.hasColumn before.ops
                (emptyTableCatalog.tableName twiceRule.Namespace) f then before
             else { before with
                    ops := before.ops ++
                      [Op.exec ("ALTER TABLE "
                        ++ emptyTableCatalog.quotedTableName twiceRule.Namespace ++ " ADD "
                        ++ emptyTableCatalog.quote f ++ " " ++ sqlTag ++ ";")] })) ∧
      (LiveCatalog emptyTableCatalog twiceRule →
        ∃ cols : List String, cols.Nodup ∧ cols.Sublist twiceRule.OutputFields ∧
          (∀ f, f ∈ cols ↔
            f ∈ twiceRule.OutputFields ∧
              emptyTableCatalog.hasColumn []
                (emptyTableCatalog.tableName twiceRule.Namespace) f = false) ∧
          List.Forall₂
            (fun f sql => ∃ sqlTag, getColumnTag f twiceRule.OutputConstaints = some sqlTag ∧
              sql = "ALTER TABLE " ++ emptyTableCatalog.quotedTableName twiceRule.Namespace
                ++ " ADD " ++ emptyTableCatalog.quote f ++ " " ++ sqlTag ++ ";")
            cols added) :=
  ⟨by decide, twiceRule_no_nil, liveCatalog_twiceRule,
    autoMigrate_adds_missing_columns emptyTableCatalog twiceRule ⟨[], []⟩ (by decide)
      twiceRule_no_nil⟩

/-! ## C10: a second run on a migrated table -/

/-- C10 (counterexample): the table `t` exists with its only column `a`, which asks for
an index; `autoMigrate` issues no statement but does issue the add-index operation. -/
theorem autoMigrate_reissues_index :
    migratedCatalog.hasTable (migratedCatalog.tableName indexedRule.Namespace) = true ∧
    (∀ f ∈ indexedRule.OutputFields,
      migratedCatalog.hasColumn [] (migratedCatalog.tableName indexedRule.Namespace) f = true) ∧
    autoMigrate migratedCatalog indexedRule ⟨[], []⟩
      = some ⟨[Op.addIndex "t" "idx_t_a" ["a"]], []⟩ ∧
    indexOps [Op.addIndex "t" "idx_t_a" ["a"]] ≠ [] := by
  decide

/-- C10 (amended): when the table exists and the catalog has every column of
`OutputFields`, `autoMigrate` issues no statement; it issues the index operations of
`autoIndex`, one per plain group and one per unique group, whatever the catalog holds, so
it issues no index operation exactly when no field has an entry with a non-empty `Index`
or `UniqueIndex`. -/
theorem autoMigrate_migrated_table (env : Env) (rule : TaskRule) (scope : Scope)
    (ht : env.hasTable (env.tableName rule.Namespace) = true)
    (hcols : ∀ f ∈ rule.OutputFields,
      env.hasColumn scope.ops (env.tableName rule.Namespace) f = true)
    (hnil : ∀ f ∈ rule.OutputFields, ¬ HasNilEntry rule.OutputConstaints f) :
    ∃ g scope1, autoIndexGroups env rule = some g ∧
      autoMigrate env rule scope = some scope1 ∧
      execs scope1.ops = execs scope.ops ∧
      indexOps scope1.ops = indexOps scope.ops ++
        ((env.rangeOrder g.indexes).map
            (fun p => Op.addIndex (env.tableName rule.Namespace) p.1 p.2)
          ++ (env.rangeOrder g.uniqueIndexes).map
            (fun p => Op.addUniqueIndex (env.tableName rule.Namespace) p.1 p.2)) ∧
      (indexOps scope1.ops).length
        = (indexOps scope.ops).length + g.indexes.length + g.uniqueIndexes.length ∧
      (indexOps scope1.ops = indexOps scope.ops ↔
        ∀ f ∈ rule.OutputFields, ∀ m c, rule.OutputConstaints = some m →
          m.lookup f = some (some c) → c.Index = "" ∧ c.UniqueIndex = "") := by
  obtain ⟨g, hg⟩ := autoIndexGroups_isSome env rule hnil
  obtain ⟨scope1, h1, h2⟩ := autoIndex_isSome env rule scope g hg
  have hidx : indexOps scope1.ops = indexOps scope.ops ++ indexCalls env rule g := by
    rw [h2, indexOps_append, indexOps_indexCalls]
  refine ⟨g, scope1, hg, ?_, ?_, hidx, ?_, ?_⟩
  · simp only [autoMigrate, ht, Bool.not_true, Bool.false_eq_true, if_false,
      addColumns_all_present env rule _ scope hcols]
    exact h1
  · rw [h2, execs_append, execs_indexCalls, List.append_nil]
  · rw [hidx, List.length_append, indexCalls_length, Nat.add_assoc]
  · rw [hidx, ← autoIndexGroups_nil_iff env rule g hg, ← indexCalls_eq_nil_iff env rule g]
    constructor
    · intro h
      exact List.append_right_eq_self.1 h
    · intro h
      rw [h, List.append_nil]

/-- C10 (amended) on the table `t` with its only column `a`, which asks for an index. -/
theorem autoMigrate_migrated_table_witness :
    migratedCatalog.hasTable (migratedCatalog.tableName indexedRule.Namespace) = true ∧
    (∀ f ∈ indexedRule.OutputFields,
      migratedCatalog.hasColumn [] (migratedCatalog.tableName indexedRule.Namespace) f = true) ∧
    (∀ f ∈ indexedRule.OutputFields, ¬ HasNilEntry indexedRule.OutputConstaints f) ∧
    ∃ g scope1, autoIndexGroups migratedCatalog indexedRule = some g ∧
      autoMigrate migratedCatalog indexedRule ⟨[], []⟩ = some scope1 ∧
      execs scope1.ops = execs [] ∧
      indexOps scope1.ops = indexOps [] ++
        ((migratedCatalog.rangeOrder g.indexes).map
            (fun p => Op.addIndex (migratedCatalog.tableName indexedRule.Namespace) p.1 p.2)
          ++ (migratedCatalog.rangeOrder g.uniqueIndexes).map
            (fun p =>
              Op.addUniqueIndex (migratedCatalog.tableName indexedRule.Namespace) p.1 p.2)) ∧
      (indexOps scope1.ops).length
        = (indexOps []).length + g.indexes.length + g.uniqueIndexes.length ∧
      (indexOps scope1.ops = indexOps [] ↔
        ∀ f ∈ indexedRule.OutputFields, ∀ m c, indexedRule.OutputConstaints = some m →
          m.lookup f = some (some c) → c.Index = "" ∧ c.UniqueIndex = "") :=
  ⟨by decide, by decide, indexedRule_no_nil,
    autoMigrate_migrated_table migratedCatalog indexedRule ⟨[], []⟩ (by decide) (by decide)
      indexedRule_no_nil⟩

/-! ## C11: columns that share a group -/

/-- C11 (counterexample): column `a` carries `Index = "INDEX"` and column `c` names
`idx_t_a`; `autoIndex` builds the single group `idx_t_a` holding both `a` and `c`, although
the spec of `a` names no explicit index name. -/
theorem autoIndex_sentinel_joins_named_group :
    autoIndexGroups emptyCatalog sentinelClashRule
      = some ⟨[("idx_t_a", ["a", "c"])], []⟩ ∧
    sentinelClashRule.OutputConstaints
      = some [("a", some ⟨"", "INDEX", ""⟩), ("c", some ⟨"", "idx_t_a", ""⟩)] ∧
    splitComma "INDEX" = ["INDEX"] ∧
    ("a" : String) ≠ "c" := by
  decide

/-- C11 (amended): a plain group built by `autoIndex` holds a column only if the column
is an `OutputFields` entry whose `Index` spec has a comma-separated piece that resolves to
the name of the group, the piece itself when it is an explicit name and the conventional
name of the column when it is `INDEX` or empty; so two columns share a group only if both
specs resolve to its name.  Two columns that both carry `Index = "INDEX"` and have
different conventional names land in two groups, under those names, and neither group
holds the other column. -/
theorem autoIndex_shared_group (env : Env) (rule : TaskRule) (scope : Scope)
    (hnil : ∀ f ∈ rule.OutputFields, ¬ HasNilEntry rule.OutputConstaints f) :
    ∃ g scope1, autoIndexGroups env rule = some g ∧ autoIndex env rule scope = some scope1 ∧
      scope1.ops = scope.ops ++ indexCalls env rule g ∧
      (∀ n cols a, (n, cols) ∈ g.indexes → a ∈ cols →
        a ∈ rule.OutputFields ∧
        ∃ m entry piece, rule.OutputConstaints = some m ∧ m.lookup a = some (some entry) ∧
          entry.Index ≠ "" ∧ piece ∈ splitComma entry.Index ∧
          n = (if piece = "INDEX" ∨ piece = "" then
                env.buildKeyName "idx" (env.tableName rule.Namespace) a
              else piece)) ∧
      (∀ m a b ea eb, rule.OutputConstaints = some m →
        a ∈ rule.OutputFields → b ∈ rule.OutputFields →
        m.lookup a = some (some ea) → m.lookup b = some (some eb) →
        ea.Index = "INDEX" → eb.Index = "INDEX" →
        env.buildKeyName "idx" (env.tableName rule.Namespace) a
          ≠ env.buildKeyName "idx" (env.tableName rule.Namespace) b →
        ∃ colsA colsB,
          (env.buildKeyName "idx" (env.tableName rule.Namespace) a, colsA) ∈ g.indexes ∧
          (env.buildKeyName "idx" (env.tableName rule.Namespace) b, colsB) ∈ g.indexes ∧
          a ∈ colsA ∧ b ∈ colsB ∧ b ∉ colsA ∧ a ∉ colsB) := by
  obtain ⟨g, scope1, hg, h1, h2⟩ := autoIndex_run env rule scope hnil
  refine ⟨g, scope1, hg, h1, h2, ?_, ?_⟩
  · intro n cols a hmem ha
    cases hm : rule.OutputConstaints with
    | none =>
      rw [(autoIndexGroups_nil_map_eq env rule g hm hg).1] at hmem
      simp at hmem
    | some m =>
      obtain ⟨_, hcols⟩ := ((autoIndexGroups_mem_iff env rule g m hm hg n cols).1).1 hmem
      rw [hcols, mem_filedUnder] at ha
      obtain ⟨haf, hn⟩ := ha
      obtain ⟨piece, hp, hres⟩ := List.mem_map.1 hn
      obtain ⟨entry, hl, hs, hpiece⟩ := mem_piecesOf_specOf m OutputConstraint.Index a piece hp
      exact ⟨haf, m, entry, piece, rfl, hl, hs, hpiece, hres.symm⟩
  · intro m a b ea eb hm haf hbf hla hlb hia hib hne
    have hsplit : splitComma "INDEX" = ["INDEX"] := by decide
    have hpa : (piecesOf (specOf m OutputConstraint.Index a)).map
        (resolveName env "idx" "INDEX" (env.tableName rule.Namespace) a)
        = [env.buildKeyName "idx" (env.tableName rule.Namespace) a] := by
      rw [piecesOf_specOf_of_entry m OutputConstraint.Index a ea hla (by rw [hia]; decide), hia,
        hsplit]
      simp [resolveName]
    have hpb : (piecesOf (specOf m OutputConstraint.Index b)).map
        (resolveName env "idx" "INDEX" (env.tableName rule.Namespace) b)
        = [env.buildKeyName "idx" (env.tableName rule.Namespace) b] := by
      rw [piecesOf_specOf_of_entry m OutputConstraint.Index b eb hlb (by rw [hib]; decide), hib,
        hsplit]
      simp [resolveName]
    have hmemA : a ∈ filedUnder env "idx" "INDEX" (env.tableName rule.Namespace) m
        OutputConstraint.Index (env.buildKeyName "idx" (env.tableName rule.Namespace) a)
        rule.OutputFields := by
      rw [mem_filedUnder, hpa]
      exact ⟨haf, List.mem_singleton.2 rfl⟩
    have hmemB : b ∈ filedUnder env "idx" "INDEX" (env.tableName rule.Namespace) m
        OutputConstraint.Index (env.buildKeyName "idx" (env.tableName rule.Namespace) b)
        rule.OutputFields := by
      rw [mem_filedUnder, hpb]
      exact ⟨hbf, List.mem_singleton.2 rfl⟩
    refine ⟨_, _,
      ((autoIndexGroups_mem_iff env rule g m hm hg _ _).1).2 ⟨List.ne_nil_of_mem hmemA, rfl⟩,
      ((autoIndexGroups_mem_iff env rule g m hm hg _ _).1).2 ⟨List.ne_nil_of_mem hmemB, rfl⟩,
      hmemA, hmemB, ?_, ?_⟩
    · intro hb
      rw [mem_filedUnder, hpb] at hb
      exact hne (List.mem_singleton.1 hb.2)
    · intro ha
      rw [mem_filedUnder, hpa] at ha
      exact hne (List.mem_singleton.1 ha.2).symm

/-- C11 (amended) on two columns that both carry `Index = "INDEX"`. -/
theorem autoIndex_shared_group_witness :
    (∀ f ∈ twoSentinelRule.OutputFields, ¬ HasNilEntry twoSentinelRule.OutputConstaints f) ∧
    ∃ g scope1, autoIndexGroups emptyCatalog twoSentinelRule = some g ∧
      autoIndex emptyCatalog twoSentinelRule ⟨[], []⟩ = some scope1 ∧
      scope1.ops = [] ++ indexCalls emptyCatalog twoSentinelRule g ∧
      (∀ n cols a, (n, cols) ∈ g.indexes → a ∈ cols →
        a ∈ twoSentinelRule.OutputFields ∧
        ∃ m entry piece, twoSentinelRule.OutputConstaints = some m ∧
          m.lookup a = some (some entry) ∧
          entry.Index ≠ "" ∧ piece ∈ splitComma entry.Index ∧
          n = (if piece = "INDEX" ∨ piece = "" then
                emptyCatalog.buildKeyName "idx"
                  (emptyCatalog.tableName twoSentinelRule.Namespace) a
              else piece)) ∧
      (∀ m a b ea eb, twoSentinelRule.OutputConstaints = some m →
        a ∈ twoSentinelRule.OutputFields → b ∈ twoSentinelRule.OutputFields →
        m.lookup a = some (some ea) → m.lookup b = some (some eb) →
        ea.Index = "INDEX" → eb.Index = "INDEX" →
        emptyCatalog.buildKeyName "idx" (emptyCatalog.tableName twoSentinelRule.Namespace) a
          ≠ emptyCatalog.buildKeyName "idx"
              (emptyCatalog.tableName twoSentinelRule.Namespace) b →
        ∃ colsA colsB,
          (emptyCatalog.buildKeyName "idx"
              (emptyCatalog.tableName twoSentinelRule.Namespace) a, colsA) ∈ g.indexes ∧
          (emptyCatalog.buildKeyName "idx"
              (emptyCatalog.tableName twoSentinelRule.Namespace) b, colsB) ∈ g.indexes ∧
          a ∈ colsA ∧ b ∈ colsB ∧ b ∉ colsA ∧ a ∉ colsB) :=
  ⟨twoSentinelRule_no_nil,
    autoIndex_shared_group emptyCatalog twoSentinelRule ⟨[], []⟩ twoSentinelRule_no_nil⟩

/-! ## C12: the columns of a group -/

/-- C12 (counterexample): column `a` names the index `idx_t_b` and column `b` carries
`Index = "INDEX"`; the group `autoIndex` builds for `idx_t_b` lists `a` and `b`, although
only the spec of `a` has `idx_t_b` among its comma-separated names. -/
theorem autoIndex_named_group_takes_sentinel :
    autoIndexGroups emptyCatalog namedClashRule
      = some ⟨[("idx_t_b", ["a", "b"])], []⟩ ∧
    namedClashRule.OutputConstaints
      = some [("a", some ⟨"", "idx_t_b", ""⟩), ("b", some ⟨"", "INDEX", ""⟩)] ∧
    splitComma "idx_t_b" = ["idx_t_b"] ∧
    splitComma "INDEX" = ["INDEX"] := by
  decide

/-- C12 (amended): for every name `n`, `autoIndex` builds a plain (resp. unique) group for
`n` exactly when some column files under `n`, and the group lists the columns of
`OutputFields`, in the order of `OutputFields`, once for every comma-separated piece of
their `Index` (resp. `UniqueIndex`) spec that resolves to `n`; a piece resolves to itself,
except that `INDEX` (resp. `UNIQUE_INDEX`) and the empty piece resolve to the conventional
name built from `idx` (resp. `uix`), the table name and the column name. -/
theorem autoIndex_group_columns (env : Env) (rule : TaskRule) (scope : Scope)
    (hnil : ∀ f ∈ rule.OutputFields, ¬ HasNilEntry rule.OutputConstaints f) :
    ∃ g scope1, autoIndexGroups env rule = some g ∧ autoIndex env rule scope = some scope1 ∧
      scope1.ops = scope.ops ++ indexCalls env rule g ∧
      (∀ m n cols, rule.OutputConstaints = some m →
        ((n, cols) ∈ g.indexes ↔
          cols ≠ [] ∧ cols = filedUnder env "idx" "INDEX" (env.tableName rule.Namespace) m
            OutputConstraint.Index n rule.OutputFields) ∧
        ((n, cols) ∈ g.uniqueIndexes ↔
          cols ≠ [] ∧ cols = filedUnder env "uix" "UNIQUE_INDEX" (env.tableName rule.Namespace)
            m OutputConstraint.UniqueIndex n rule.OutputFields)) ∧
      (∀ m n a, rule.OutputConstaints = some m →
        (a ∈ filedUnder env "idx" "INDEX" (env.tableName rule.Namespace) m
            OutputConstraint.Index n rule.OutputFields ↔
          a ∈ rule.OutputFields ∧ ∃ entry piece, m.lookup a = some (some entry) ∧
            entry.Index ≠ "" ∧ piece ∈ splitComma entry.Index ∧
            n = (if piece = "INDEX" ∨ piece = "" then
                  env.buildKeyName "idx" (env.tableName rule.Namespace) a
                else piece)) ∧
        (a ∈ filedUnder env "uix" "UNIQUE_INDEX" (env.tableName rule.Namespace) m
            OutputConstraint.UniqueIndex n rule.OutputFields ↔
          a ∈ rule.OutputFields ∧ ∃ entry piece, m.lookup a = some (some entry) ∧
            entry.UniqueIndex ≠ "" ∧ piece ∈ splitComma entry.UniqueIndex ∧
            n = (if piece = "UNIQUE_INDEX" ∨ piece = "" then
                  env.buildKeyName "uix" (env.tableName rule.Namespace) a
                else piece))) := by
  obtain ⟨g, scope1, hg, h1, h2⟩ := autoIndex_run env rule scope hnil
  refine ⟨g, scope1, hg, h1, h2, ?_, ?_⟩
  · intro m n cols hm
    exact autoIndexGroups_mem_iff env rule g m hm hg n cols
  · intro m n a _
    constructor
    · rw [mem_filedUnder]
      constructor
      · rintro ⟨haf, hn⟩
        obtain ⟨piece, hp, hres⟩ := List.mem_map.1 hn
        obtain ⟨entry, hl, hs, hpiece⟩ := mem_piecesOf_specOf m OutputConstraint.Index a piece hp
        exact ⟨haf, entry, piece, hl, hs, hpiece, hres.symm⟩
      · rintro ⟨haf, entry, piece, hl, hs, hpiece, hres⟩
        refine ⟨haf, List.mem_map.2 ⟨piece, ?_, hres.symm⟩⟩
        rw [piecesOf_specOf_of_entry m OutputConstraint.Index a entry hl hs]
        exact hpiece
    · rw [mem_filedUnder]
      constructor
      · rintro ⟨haf, hn⟩
        obtain ⟨piece, hp, hres⟩ := List.mem_map.1 hn
        obtain ⟨entry, hl, hs, hpiece⟩ :=
          mem_piecesOf_specOf m OutputConstraint.UniqueIndex a piece hp
        exact ⟨haf, entry, piece, hl, hs, hpiece, hres.symm⟩
      · rintro ⟨haf, entry, piece, hl, hs, hpiece, hres⟩
        refine ⟨haf, List.mem_map.2 ⟨piece, ?_, hres.symm⟩⟩
        rw [piecesOf_specOf_of_entry m OutputConstraint.UniqueIndex a entry hl hs]
        exact hpiece

/-- C12 (amended) on the rule where `a` names `idx_t_b` and `b` carries `INDEX`. -/
theorem autoIndex_group_columns_witness :
    (∀ f ∈ namedClashRule.OutputFields, ¬ HasNilEntry namedClashRule.OutputConstaints f) ∧
    ∃ g scope1, autoIndexGroups emptyCatalog namedClashRule = some g ∧
      autoIndex emptyCatalog namedClashRule ⟨[], []⟩ = some scope1 ∧
      scope1.ops = [] ++ indexCalls emptyCatalog namedClashRule g ∧
      (∀ m n cols, namedClashRule.OutputConstaints = some m →
        ((n, cols) ∈ g.indexes ↔
          cols ≠ [] ∧ cols = filedUnder emptyCatalog "idx" "INDEX"
            (emptyCatalog.tableName namedClashRule.Namespace) m
            OutputConstraint.Index n namedClashRule.OutputFields) ∧
        ((n, cols) ∈ g.uniqueIndexes ↔
          cols ≠ [] ∧ cols = filedUnder emptyCatalog "uix" "UNIQUE_INDEX"
            (emptyCatalog.tableName namedClashRule.Namespace)
            m OutputConstraint.UniqueIndex n namedClashRule.OutputFields)) ∧
      (∀ m n a, namedClashRule.OutputConstaints = some m →
        (a ∈ filedUnder emptyCatalog "idx" "INDEX"
            (emptyCatalog.tableName namedClashRule.Namespace) m
            OutputConstraint.Index n namedClashRule.OutputFields ↔
          a ∈ namedClashRule.OutputFields ∧ ∃ entry piece, m.lookup a = some (some entry) ∧
            entry.Index ≠ "" ∧ piece ∈ splitComma entry.Index ∧
            n = (if piece = "INDEX" ∨ piece = "" then
                  emptyCatalog.buildKeyName "idx"
                    (emptyCatalog.tableName namedClashRule.Namespace) a
                else piece)) ∧
        (a ∈ filedUnder emptyCatalog "uix" "UNIQUE_INDEX"
            (emptyCatalog.tableName namedClashRule.Namespace) m
            OutputConstraint.UniqueIndex n namedClashRule.OutputFields ↔
          a ∈ namedClashRule.OutputFields ∧ ∃ entry piece, m.lookup a = some (some entry) ∧
            entry.UniqueIndex ≠ "" ∧ piece ∈ splitComma entry.UniqueIndex ∧
            n = (if piece = "UNIQUE_INDEX" ∨ piece = "" then
                  emptyCatalog.buildKeyName "uix"
                    (emptyCatalog.tableName namedClashRule.Namespace) a
                else piece))) :=
  ⟨namedClashRule_no_nil,
    autoIndex_group_columns emptyCatalog namedClashRule ⟨[], []⟩ namedClashRule_no_nil⟩

/-! ## C13: one operation per group, every error kept -/

/-- C13: whatever the outcomes of the index operations, `autoIndex` issues one add-index
operation for each plain group and one add-unique-index operation for each unique group
(the groups have distinct names and the operations are the groups in the order `range`
visits them), and it records the error of every operation that fails; the errors returned
by `autoMigrate` contain the error of every failed index operation. -/
theorem autoIndex_issues_every_group (env : Env) (rule : TaskRule) (scope : Scope)
    (hnil : ∀ f ∈ rule.OutputFields, ¬ HasNilEntry rule.OutputConstaints f) :
    ∃ (g : IndexGroups) (scope1 : Scope) (plain unique : List (String × List String)),
      autoIndexGroups env rule = some g ∧
      autoIndex env rule scope = some scope1 ∧
      plain.Perm g.indexes ∧ unique.Perm g.uniqueIndexes ∧
      (g.indexes.map Prod.fst).Nodup ∧ (g.uniqueIndexes.map Prod.fst).Nodup ∧
      scope1.ops = scope.ops
        ++ plain.map (fun p => Op.addIndex (env.tableName rule.Namespace) p.1 p.2)
        ++ unique.map (fun p => Op.addUniqueIndex (env.tableName rule.Namespace) p.1 p.2) ∧
      scope1.errors = scope.errors
        ++ plain.filterMap (fun p => env.addIndex (env.tableName rule.Namespace) p.1 p.2)
        ++ unique.filterMap
            (fun p => env.addUniqueIndex (env.tableName rule.Namespace) p.1 p.2) ∧
      (∀ p ∈ g.indexes, ∀ e, env.addIndex (env.tableName rule.Namespace) p.1 p.2 = some e →
        e ∈ scope1.errors) ∧
      (∀ p ∈ g.uniqueIndexes, ∀ e,
        env.addUniqueIndex (env.tableName rule.Namespace) p.1 p.2 = some e →
          e ∈ scope1.errors) ∧
      (∀ scope0 scope2, autoMigrate env rule scope0 = some scope2 →
        (∀ p ∈ g.indexes, ∀ e, env.addIndex (env.tableName rule.Namespace) p.1 p.2 = some e →
          e ∈ scope2.errors) ∧
        (∀ p ∈ g.uniqueIndexes, ∀ e,
          env.addUniqueIndex (env.tableName rule.Namespace) p.1 p.2 = some e →
            e ∈ scope2.errors)) := by
  obtain ⟨g, scope1, hg, h1, h2⟩ := autoIndex_run env rule scope hnil
  obtain ⟨ok1, ok2⟩ := autoIndexGroups_ok env rule g hg
  have hplain : ∀ (s s1 : Scope), autoIndex env rule s = some s1 →
      ∀ p ∈ g.indexes, ∀ e, env.addIndex (env.tableName rule.Namespace) p.1 p.2 = some e →
        e ∈ s1.errors := by
    intro s s1 hs p hp e he
    rw [autoIndex_errors env rule s s1 g hg hs]
    apply List.mem_append_left
    apply List.mem_append_right
    exact List.mem_filterMap.2 ⟨p, (env.rangeOrder_perm g.indexes).mem_iff.2 hp, he⟩
  have huniq : ∀ (s s1 : Scope), autoIndex env rule s = some s1 →
      ∀ p ∈ g.uniqueIndexes, ∀ e,
        env.addUniqueIndex (env.tableName rule.Namespace) p.1 p.2 = some e →
          e ∈ s1.errors := by
    intro s s1 hs p hp e he
    rw [autoIndex_errors env rule s s1 g hg hs]
    apply List.mem_append_right
    exact List.mem_filterMap.2 ⟨p, (env.rangeOrder_perm g.uniqueIndexes).mem_iff.2 hp, he⟩
  refine ⟨g, scope1, env.rangeOrder g.indexes, env.rangeOrder g.uniqueIndexes, hg, h1,
    env.rangeOrder_perm _, env.rangeOrder_perm _, ok1.1, ok2.1, ?_,
    autoIndex_errors env rule scope scope1 g hg h1, hplain scope scope1 h1,
    huniq scope scope1 h1, ?_⟩
  · rw [h2, indexCalls, List.append_assoc]
  · intro scope0 scope2 hmig
    obtain ⟨mid, _, hmid⟩ := autoMigrate_ends_in_autoIndex env rule scope0 scope2 hmig
    exact ⟨hplain mid scope2 hmid, huniq mid scope2 hmid⟩

/-- C13 on two columns that both ask for an index, against a catalog in which every index
operation fails. -/
theorem autoIndex_issues_every_group_witness :
    (∀ f ∈ twoSentinelRule.OutputFields, ¬ HasNilEntry twoSentinelRule.OutputConstaints f) ∧
    ∃ (g : IndexGroups) (scope1 : Scope) (plain unique : List (String × List String)),
      autoIndexGroups failingCatalog twoSentinelRule = some g ∧
      autoIndex failingCatalog twoSentinelRule ⟨[], []⟩ = some scope1 ∧
      plain.Perm g.indexes ∧ unique.Perm g.uniqueIndexes ∧
      (g.indexes.map Prod.fst).Nodup ∧ (g.uniqueIndexes.map Prod.fst).Nodup ∧
      scope1.ops = []
        ++ plain.map
            (fun p => Op.addIndex (failingCatalog.tableName twoSentinelRule.Namespace) p.1 p.2)
        ++ unique.map
            (fun p =>
              Op.addUniqueIndex (failingCatalog.tableName twoSentinelRule.Namespace) p.1 p.2) ∧
      scope1.errors = []
        ++ plain.filterMap
            (fun p =>
              failingCatalog.addIndex (failingCatalog.tableName twoSentinelRule.Namespace)
                p.1 p.2)
        ++ unique.filterMap
            (fun p =>
              failingCatalog.addUniqueIndex
                (failingCatalog.tableName twoSentinelRule.Namespace) p.1 p.2) ∧
      (∀ p ∈ g.indexes, ∀ e,
        failingCatalog.addIndex (failingCatalog.tableName twoSentinelRule.Namespace) p.1 p.2
            = some e →
          e ∈ scope1.errors) ∧
      (∀ p ∈ g.uniqueIndexes, ∀ e,
        failingCatalog.addUniqueIndex (failingCatalog.tableName twoSentinelRule.Namespace)
            p.1 p.2 = some e →
          e ∈ scope1.errors) ∧
      (∀ scope0 scope2, autoMigrate failingCatalog twoSentinelRule scope0 = some scope2 →
        (∀ p ∈ g.indexes, ∀ e,
          failingCatalog.addIndex (failingCatalog.tableName twoSentinelRule.Namespace) p.1 p.2
              = some e →
            e ∈ scope2.errors) ∧
        (∀ p ∈ g.uniqueIndexes, ∀ e,
          failingCatalog.addUniqueIndex (failingCatalog.tableName twoSentinelRule.Namespace)
              p.1 p.2 = some e →
            e ∈ scope2.errors)) :=
  ⟨twoSentinelRule_no_nil,
    autoIndex_issues_every_group failingCatalog twoSentinelRule ⟨[], []⟩
      twoSentinelRule_no_nil⟩

/-! ## C14: the two passes are independent -/

/-- C14: the plain groups built by `autoIndex` are the same for two rules that differ only
in `UniqueIndex` fields, and the unique groups are the same for two rules that differ only
in `Index` fields; a column whose entry sets both `Index` and `UniqueIndex` is listed in a
plain group and in a unique group. -/
theorem autoIndex_passes_independent (env : Env) (rule1 rule2 : TaskRule)
    (hns : rule1.Namespace = rule2.Namespace) (hf : rule1.OutputFields = rule2.OutputFields) :
    (withoutUniqueIndex rule1.OutputConstaints = withoutUniqueIndex rule2.OutputConstaints →
      (autoIndexGroups env rule1).map IndexGroups.indexes
        = (autoIndexGroups env rule2).map IndexGroups.indexes) ∧
    (withoutIndex rule1.OutputConstaints = withoutIndex rule2.OutputConstaints →
      (autoIndexGroups env rule1).map IndexGroups.uniqueIndexes
        = (autoIndexGroups env rule2).map IndexGroups.uniqueIndexes) ∧
    ((∀ f ∈ rule1.OutputFields, ¬ HasNilEntry rule1.OutputConstaints f) →
      ∃ g, autoIndexGroups env rule1 = some g ∧
        ∀ m f entry, rule1.OutputConstaints = some m → f ∈ rule1.OutputFields →
          m.lookup f = some (some entry) → entry.Index ≠ "" → entry.UniqueIndex ≠ "" →
          (∃ p ∈ g.indexes, f ∈ p.2) ∧ (∃ p ∈ g.uniqueIndexes, f ∈ p.2)) := by
  refine ⟨autoIndexGroups_indexes_congr env rule1 rule2 hns hf,
    autoIndexGroups_uniqueIndexes_congr env rule1 rule2 hns hf, ?_⟩
  intro hnil
  obtain ⟨g, hg⟩ := autoIndexGroups_isSome env rule1 hnil
  refine ⟨g, hg, ?_⟩
  intro m f entry hm hfm hl hi hu
  obtain ⟨n1, h1⟩ := exists_filedUnder env "idx" "INDEX" (env.tableName rule1.Namespace) m
    OutputConstraint.Index rule1.OutputFields f entry hfm hl hi
  obtain ⟨n2, h2⟩ := exists_filedUnder env "uix" "UNIQUE_INDEX"
    (env.tableName rule1.Namespace) m OutputConstraint.UniqueIndex rule1.OutputFields f entry
    hfm hl hu
  exact ⟨⟨(n1, _), ((autoIndexGroups_mem_iff env rule1 g m hm hg n1 _).1).2
      ⟨List.ne_nil_of_mem h1, rfl⟩, h1⟩,
    ⟨(n2, _), ((autoIndexGroups_mem_iff env rule1 g m hm hg n2 _).2).2
      ⟨List.ne_nil_of_mem h2, rfl⟩, h2⟩⟩

/-- C14 on a column that sets both specs, against the same rule with the unique spec
removed. -/
theorem autoIndex_passes_independent_witness :
    bothIndexesRule.Namespace = indexedRule.Namespace ∧
    bothIndexesRule.OutputFields = indexedRule.OutputFields ∧
    (withoutUniqueIndex bothIndexesRule.OutputConstaints
        = withoutUniqueIndex indexedRule.OutputConstaints →
      (autoIndexGroups emptyCatalog bothIndexesRule).map IndexGroups.indexes
        = (autoIndexGroups emptyCatalog indexedRule).map IndexGroups.indexes) ∧
    (withoutIndex bothIndexesRule.OutputConstaints
        = withoutIndex indexedRule.OutputConstaints →
      (autoIndexGroups emptyCatalog bothIndexesRule).map IndexGroups.uniqueIndexes
        = (autoIndexGroups emptyCatalog indexedRule).map IndexGroups.uniqueIndexes) ∧
    ((∀ f ∈ bothIndexesRule.OutputFields,
        ¬ HasNilEntry bothIndexesRule.OutputConstaints f) →
      ∃ g, autoIndexGroups emptyCatalog bothIndexesRule = some g ∧
        ∀ m f entry, bothIndexesRule.OutputConstaints = some m →
          f ∈ bothIndexesRule.OutputFields →
          m.lookup f = some (some entry) → entry.Index ≠ "" → entry.UniqueIndex ≠ "" →
          (∃ p ∈ g.indexes, f ∈ p.2) ∧ (∃ p ∈ g.uniqueIndexes, f ∈ p.2)) :=
  ⟨rfl, rfl, autoIndex_passes_independent emptyCatalog bothIndexesRule indexedRule rfl rfl⟩

/-! ## C15: dispatch on the existence of the table -/

/-- C15: `autoMigrate` looks at the existence of the table only.  When the table does not
exist it issues one statement, the `CREATE TABLE`, which is no `ALTER TABLE`; when the
table exists every statement it issues is an `ALTER TABLE ... ADD` and none is a
`CREATE TABLE`, whatever columns the catalog has; in both cases the index operations that
follow are those of the groups `autoIndex` builds for the rule. -/
theorem autoMigrate_dispatch (env : Env) (rule : TaskRule) (scope : Scope)
    (hnil : ∀ f ∈ rule.OutputFields, ¬ HasNilEntry rule.OutputConstaints f) :
    ∃ g, autoIndexGroups env rule = some g ∧
      (env.hasTable (env.tableName rule.Namespace) = false →
        ∃ st scope1, createTableColumns env rule = some st ∧
          autoMigrate env rule scope = some scope1 ∧
          execs scope1.ops = execs scope.ops ++ [createTableSql env rule st] ∧
          beginsWith "CREATE TABLE " (createTableSql env rule st) = true ∧
          beginsWith "ALTER TABLE " (createTableSql env rule st) = false ∧
          indexOps scope1.ops = indexOps scope.ops ++ indexCalls env rule g) ∧
      (env.hasTable (env.tableName rule.Namespace) = true →
        ∃ scope1 added, autoMigrate env rule scope = some scope1 ∧
          execs scope1.ops = execs scope.ops ++ added ∧
          (∀ sql ∈ added,
            beginsWith "ALTER TABLE " sql = true ∧ beginsWith "CREATE TABLE " sql = false) ∧
          indexOps scope1.ops = indexOps scope.ops ++ indexCalls env rule g) := by
  obtain ⟨g, hg⟩ := autoIndexGroups_isSome env rule hnil
  refine ⟨g, hg, ?_, ?_⟩
  · intro ht
    obtain ⟨g1, st, scope1, hg1, hst, hm, hex, hidx⟩ :=
      autoMigrate_missing_table env rule scope ht hnil
    rw [hg] at hg1
    cases hg1
    exact ⟨st, scope1, hst, hm, hex, (createTableSql_begins env rule st).1,
      (createTableSql_begins env rule st).2, hidx⟩
  · intro ht
    obtain ⟨g1, scope1, added, hg1, _, hm, _, hex, hidx, hall⟩ :=
      autoMigrate_existing_table env rule scope ht hnil
    rw [hg] at hg1
    cases hg1
    refine ⟨scope1, added, hm, hex, ?_, hidx⟩
    intro sql hsql
    obtain ⟨f, t, _, _, he⟩ := hall sql hsql
    rw [he]
    exact addColumnSql_begins env rule f t

/-- C15 on the rule with fields `id` and `name` against a catalog without tables. -/
theorem autoMigrate_dispatch_witness :
    (∀ f ∈ idNameRule.OutputFields, ¬ HasNilEntry idNameRule.OutputConstaints f) ∧
    ∃ g, autoIndexGroups emptyCatalog idNameRule = some g ∧
      (emptyCatalog.hasTable (emptyCatalog.tableName idNameRule.Namespace) = false →
        ∃ st scope1, createTableColumns emptyCatalog idNameRule = some st ∧
          autoMigrate emptyCatalog idNameRule ⟨[], []⟩ = some scope1 ∧
          execs scope1.ops = execs [] ++ [createTableSql emptyCatalog idNameRule st] ∧
          beginsWith "CREATE TABLE " (createTableSql emptyCatalog idNameRule st) = true ∧
          beginsWith "ALTER TABLE " (createTableSql emptyCatalog idNameRule st) = false ∧
          indexOps scope1.ops = indexOps [] ++ indexCalls emptyCatalog idNameRule g) ∧
      (emptyCatalog.hasTable (emptyCatalog.tableName idNameRule.Namespace) = true →
        ∃ scope1 added, autoMigrate emptyCatalog idNameRule ⟨[], []⟩ = some scope1 ∧
          execs scope1.ops = execs [] ++ added ∧
          (∀ sql ∈ added,
            beginsWith "ALTER TABLE " sql = true ∧ beginsWith "CREATE TABLE " sql = false) ∧
          indexOps scope1.ops = indexOps [] ++ indexCalls emptyCatalog idNameRule g) :=
  ⟨idNameRule_no_nil, autoMigrate_dispatch emptyCatalog idNameRule ⟨[], []⟩ idNameRule_no_nil⟩

/-! ## C16: the order of the fields and the added columns -/

/-- C16 (counterexample): against a catalog that compares column names without regard
to letter case, the rule with fields `a`, `A` adds the column `a` and the same rule with
fields `A`, `a` adds the column `A`: the statements of the two runs are not a
rearrangement of each other. -/
theorem autoMigrate_order_decides_added_column :
    foldingCatalog.hasTable (foldingCatalog.tableName caseRule.Namespace) = true ∧
    caseRule.OutputFields.Perm ["A", "a"] ∧
    autoMigrate foldingCatalog caseRule ⟨[], []⟩
      = some ⟨[Op.exec "ALTER TABLE `t` ADD `a` varchar(255) NOT NULL DEFAULT '';"], []⟩ ∧
    autoMigrate foldingCatalog { caseRule with OutputFields := ["A", "a"] } ⟨[], []⟩
      = some ⟨[Op.exec "ALTER TABLE `t` ADD `A` varchar(255) NOT NULL DEFAULT '';"], []⟩ ∧
    ¬ (["ALTER TABLE `t` ADD `a` varchar(255) NOT NULL DEFAULT '';"] : List String).Perm
        ["ALTER TABLE `t` ADD `A` varchar(255) NOT NULL DEFAULT '';"] :=
  ⟨by decide, List.Perm.swap "A" "a" [], by decide, by decide,
    fun h => absurd (h.mem_iff.1 (List.mem_singleton.2 rfl)) (by decide)⟩

/-- C16 (amended): on a table that exists and against a live catalog that keeps the
columns of `OutputFields` apart, the `ALTER TABLE ... ADD` statements `autoMigrate` issues
for a rule and those it issues for the same rule with its `OutputFields` rearranged are a
rearrangement of each other: the same statements the same number of times. -/
theorem autoMigrate_fields_order (env : Env) (rule : TaskRule) (scope : Scope)
    (fields2 : List String) (hperm : rule.OutputFields.Perm fields2)
    (ht : env.hasTable (env.tableName rule.Namespace) = true)
    (hnil : ∀ f ∈ rule.OutputFields, ¬ HasNilEntry rule.OutputConstaints f)
    (hlive : LiveCatalog env rule) :
    ∃ (scope1 scope2 : Scope) (added1 added2 : List String),
      autoMigrate env rule scope = some scope1 ∧
      autoMigrate env { rule with OutputFields := fields2 } scope = some scope2 ∧
      execs scope1.ops = execs scope.ops ++ added1 ∧
      execs scope2.ops = execs scope.ops ++ added2 ∧
      added1.Perm added2 := by
  have hnil2 : ∀ f ∈ fields2, ¬ HasNilEntry rule.OutputConstaints f :=
    fun f hf => hnil f (hperm.mem_iff.2 hf)
  have hlive2 : LiveCatalog env { rule with OutputFields := fields2 } := by
    intro history added sqlTag field ha hf htag
    exact hlive history added sqlTag field (hperm.mem_iff.2 ha) (hperm.mem_iff.2 hf) htag
  obtain ⟨_, scope1, added1, _, hadd1, hm1, _, hex1, _, _⟩ :=
    autoMigrate_existing_table env rule scope ht hnil
  obtain ⟨_, scope2, added2, _, hadd2, hm2, _, hex2, _, _⟩ :=
    autoMigrate_existing_table env { rule with OutputFields := fields2 } scope ht hnil2
  obtain ⟨cols1, hnd1, _, hmem1, hrun1⟩ :=
    addColumns_live env rule hlive rule.OutputFields scope (fun f hf => hf) hnil
  obtain ⟨cols2, hnd2, _, hmem2, hrun2⟩ :=
    addColumns_live env { rule with OutputFields := fields2 } hlive2 fields2 scope
      (fun f hf => hf) hnil2
  have hcols : cols1.Perm cols2 := by
    apply (List.perm_ext_iff_of_nodup hnd1 hnd2).2
    intro f
    rw [hmem1 f, hmem2 f]
    constructor
    · rintro ⟨a, b⟩
      exact ⟨hperm.mem_iff.1 a, b⟩
    · rintro ⟨a, b⟩
      exact ⟨hperm.mem_iff.2 a, b⟩
  have heq1 : added1 = cols1.filterMap (fun f => (getColumnTag f rule.OutputConstaints).map
      (fun sqlTag => addColumnSql env rule f sqlTag)) := by
    rw [hadd1] at hrun1
    have h1 := congrArg (fun o => o.map (fun s => execs s.ops)) hrun1
    simp only [Option.map_some', Option.some.injEq, execs_append, execs_map_exec] at h1
    exact List.append_cancel_left h1
  have heq2 : added2 = cols2.filterMap (fun f => (getColumnTag f rule.OutputConstaints).map
      (fun sqlTag => addColumnSql env rule f sqlTag)) := by
    rw [hadd2] at hrun2
    have h1 := congrArg (fun o => o.map (fun s => execs s.ops)) hrun2
    simp only [Option.map_some', Option.some.injEq, execs_append, execs_map_exec] at h1
    exact List.append_cancel_left h1
  refine ⟨scope1, scope2, added1, added2, hm1, hm2, hex1, hex2, ?_⟩
  rw [heq1, heq2]
  exact hcols.filterMap _

/-- C16 (amended) on the rule with fields `id` and `name` and on the same rule with the
fields swapped, against a live catalog whose table has `id` only. -/
theorem autoMigrate_fields_order_witness :
    idNameRule.OutputFields.Perm ["name", "id"] ∧
    idOnlyCatalog.hasTable (idOnlyCatalog.tableName idNameRule.Namespace) = true ∧
    (∀ f ∈ idNameRule.OutputFields, ¬ HasNilEntry idNameRule.OutputConstaints f) ∧
    LiveCatalog idOnlyCatalog idNameRule ∧
    ∃ (scope1 scope2 : Scope) (added1 added2 : List String),
      autoMigrate idOnlyCatalog idNameRule ⟨[], []⟩ = some scope1 ∧
      autoMigrate idOnlyCatalog { idNameRule with OutputFields := ["name", "id"] } ⟨[], []⟩
        = some scope2 ∧
      execs scope1.ops = execs [] ++ added1 ∧
      execs scope2.ops = execs [] ++ added2 ∧
      added1.Perm added2 :=
  ⟨List.Perm.swap "name" "id" [], by decide, idNameRule_no_nil, liveCatalog_idNameRule,
    autoMigrate_fields_order idOnlyCatalog idNameRule ⟨[], []⟩ ["name", "id"]
      (List.Perm.swap "name" "id" []) (by decide) idNameRule_no_nil liveCatalog_idNameRule⟩

/-! ## C17: `getColumnTag` on a nil pointer -/

/-- C17 (evaluation at the failing input): on a map that binds the column to a nil
pointer, `getColumnTag` does not return a clause: reading `c.Sql` panics.  The same nil
pointer makes `createTable`, `autoIndex` and `autoMigrate` panic. -/
theorem getColumnTag_nil_pointer_panics :
    getColumnTag "a" (some [("a", none)]) = none ∧
    createTableColumns emptyCatalog ⟨"t", ["a"], some [("a", none)], ""⟩ = none ∧
    autoIndex emptyCatalog ⟨"t", ["a"], some [("a", none)], ""⟩ ⟨[], []⟩ = none ∧
    AutoMigrateHack emptyCatalog ⟨"t", ["a"], some [("a", none)], ""⟩ = none := by
  decide

/-! ## C18: no constraints map -/

/-- C18: on a rule whose constraints map is nil, `autoIndex` returns the handle as it
received it, whatever `OutputFields` holds: it builds no group, issues no add-index and no
add-unique-index operation and records no error. -/
theorem autoIndex_nil_constraints (env : Env) (rule : TaskRule) (scope : Scope)
    (h : rule.OutputConstaints = none) :
    autoIndex env rule scope = some scope ∧
    autoIndexGroups env rule = some ⟨[], []⟩ ∧
    ∀ scope1, autoIndex env rule scope = some scope1 →
      indexOps scope1.ops = indexOps scope.ops ∧ scope1.errors = scope.errors := by
  have h1 : autoIndex env rule scope = some scope := by
    simp [autoIndex, h]
  refine ⟨h1, autoIndexGroups_of_nil_map env rule h, ?_⟩
  intro scope1 hs
  rw [h1] at hs
  cases hs
  exact ⟨rfl, rfl⟩

/-- C18 on a rule with two fields and no constraints map. -/
theorem autoIndex_nil_constraints_witness :
    (⟨"t", ["a", "b"], none, ""⟩ : TaskRule).OutputConstaints = none ∧
    autoIndex failingCatalog ⟨"t", ["a", "b"], none, ""⟩ ⟨[], []⟩ = some ⟨[], []⟩ ∧
    autoIndexGroups failingCatalog ⟨"t", ["a", "b"], none, ""⟩ = some ⟨[], []⟩ ∧
    ∀ scope1, autoIndex failingCatalog ⟨"t", ["a", "b"], none, ""⟩ ⟨[], []⟩ = some scope1 →
      indexOps scope1.ops = indexOps [] ∧ scope1.errors = [] :=
  ⟨rfl, autoIndex_nil_constraints failingCatalog ⟨"t", ["a", "b"], none, ""⟩ ⟨[], []⟩ rfl⟩

/-! ## C19: `id` and `created_at` are always among the columns -/

/-- C19: the column list of the `CREATE TABLE` built by `createTable` has a column named
`id` up to letter case, a declared one or else the synthetic one, and a column named
`created_at` up to letter case, a declared one or else the synthetic one; it has at least
two column clauses, also when `OutputFields` is empty. -/
theorem createTable_has_id_and_created_at (env : Env) (rule : TaskRule) (scope : Scope)
    (sqlTags : List String)
    (h : Resolved rule.OutputConstaints rule.OutputFields sqlTags) :
    ∃ st scope1, createTableColumns env rule = some st ∧
      createTable env rule scope = some scope1 ∧
      execs scope1.ops = execs scope.ops ++ [createTableSql env rule st] ∧
      ((∃ (i : Nat) (field body : String), rule.OutputFields[i]? = some field ∧
          toLower env.unicodeLower field = "id" ∧
          st.tags[i]? = some (env.quote field ++ " " ++ body)) ∨
        "`id` bigint(64) unsigned NOT NULL AUTO_INCREMENT" ∈ st.tags) ∧
      ((∃ (i : Nat) (field body : String), rule.OutputFields[i]? = some field ∧
          toLower env.unicodeLower field = "created_at" ∧
          st.tags[i]? = some (env.quote field ++ " " ++ body)) ∨
        "`created_at` datetime NOT NULL DEFAULT CURRENT_TIMESTAMP" ∈ st.tags) ∧
      2 ≤ st.tags.length := by
  obtain ⟨st, scope1, hst, hc, _, hex, htags, _⟩ := createTable_run env rule scope sqlTags h
  have hdecl : ∀ name field, field ∈ rule.OutputFields →
      toLower env.unicodeLower field = name →
      ∃ (i : Nat) (field body : String), rule.OutputFields[i]? = some field ∧
        toLower env.unicodeLower field = name ∧
        st.tags[i]? = some (env.quote field ++ " " ++ body) := by
    intro name field hmem hname
    obtain ⟨i, hi⟩ := List.mem_iff_getElem?.1 hmem
    obtain ⟨sqlTag, ht⟩ := resolved_getElem? h i field hi
    obtain ⟨body, hbody⟩ := emittedTag_shape env field sqlTag
    refine ⟨i, field, body, hi, hname, ?_⟩
    rw [htags, List.append_assoc, ← hbody]
    exact getElem?_zipWith_append (emittedTag env) _ _ _ i field sqlTag hi ht
  have hlen : (List.zipWith (emittedTag env) rule.OutputFields sqlTags).length
      = rule.OutputFields.length := by
    rw [List.length_zipWith, ← List.Forall₂.length_eq h, Nat.min_self]
  refine ⟨st, scope1, hst, hc, hex, ?_, ?_, ?_⟩
  · cases hid : rule.OutputFields.any (isNamed env "id") with
    | true =>
      obtain ⟨f, hf, hn⟩ := (any_isNamed_eq_true env "id" rule.OutputFields).1 hid
      exact Or.inl (hdecl "id" f hf hn)
    | false =>
      right
      rw [htags, hid]
      simp [syntheticIdTag]
  · cases hca : rule.OutputFields.any (isNamed env "created_at") with
    | true =>
      obtain ⟨f, hf, hn⟩ := (any_isNamed_eq_true env "created_at" rule.OutputFields).1 hca
      exact Or.inl (hdecl "created_at" f hf hn)
    | false =>
      right
      rw [htags, hca]
      simp [syntheticCreatedAtTag]
  · rw [htags]
    simp only [List.length_append, hlen]
    cases hid : rule.OutputFields.any (isNamed env "id") with
    | false =>
      cases hca : rule.OutputFields.any (isNamed env "created_at") with
      | false => simp
      | true =>
        obtain ⟨f, hf, _⟩ := (any_isNamed_eq_true env "created_at" rule.OutputFields).1 hca
        have : 0 < rule.OutputFields.length := List.length_pos_of_mem hf
        simp
        omega
    | true =>
      obtain ⟨f1, hf1, hn1⟩ := (any_isNamed_eq_true env "id" rule.OutputFields).1 hid
      cases hca : rule.OutputFields.any (isNamed env "created_at") with
      | false =>
        have : 0 < rule.OutputFields.length := List.length_pos_of_mem hf1
        simp
        omega
      | true =>
        obtain ⟨f2, hf2, hn2⟩ :=
          (any_isNamed_eq_true env "created_at" rule.OutputFields).1 hca
        have hne : f1 ≠ f2 := by
          intro e
          rw [e, hn2] at hn1
          exact absurd hn1 (by decide)
        have := two_le_length_of_mem_ne rule.OutputFields f1 f2 hf1 hf2 hne
        simp
        omega

/-- C19 on a rule with no field at all. -/
theorem createTable_has_id_and_created_at_witness :
    Resolved (none : Constraints) [] [] ∧
    ∃ st scope1, createTableColumns emptyCatalog ⟨"t", [], none, ""⟩ = some st ∧
      createTable emptyCatalog ⟨"t", [], none, ""⟩ ⟨[], []⟩ = some scope1 ∧
      execs scope1.ops = execs [] ++ [createTableSql emptyCatalog ⟨"t", [], none, ""⟩ st] ∧
      ((∃ (i : Nat) (field body : String), ([] : List String)[i]? = some field ∧
          toLower emptyCatalog.unicodeLower field = "id" ∧
          st.tags[i]? = some (emptyCatalog.quote field ++ " " ++ body)) ∨
        "`id` bigint(64) unsigned NOT NULL AUTO_INCREMENT" ∈ st.tags) ∧
      ((∃ (i : Nat) (field body : String), ([] : List String)[i]? = some field ∧
          toLower emptyCatalog.unicodeLower field = "created_at" ∧
          st.tags[i]? = some (emptyCatalog.quote field ++ " " ++ body)) ∨
        "`created_at` datetime NOT NULL DEFAULT CURRENT_TIMESTAMP" ∈ st.tags) ∧
      2 ≤ st.tags.length :=
  ⟨emptyFields_resolved,
    createTable_has_id_and_created_at emptyCatalog ⟨"t", [], none, ""⟩ ⟨[], []⟩ []
      emptyFields_resolved⟩

/-! ## C20: the grouping loses nothing and invents nothing -/

/-- C20: in the maps `autoIndex` builds, no group is empty; every column listed in a plain
(resp. unique) group is an `OutputFields` entry whose constraint entry has a non-empty
`Index` (resp. `UniqueIndex`); and a column is listed, over all plain (resp. unique)
groups, as many times as it occurs in `OutputFields` times the number of comma-separated
pieces of its `Index` (resp. `UniqueIndex`) spec, and not at all when it has no entry or
the spec is empty. -/
theorem autoIndex_grouping_complete (env : Env) (rule : TaskRule) (scope : Scope)
    (hnil : ∀ f ∈ rule.OutputFields, ¬ HasNilEntry rule.OutputConstaints f) :
    ∃ g scope1, autoIndexGroups env rule = some g ∧ autoIndex env rule scope = some scope1 ∧
      scope1.ops = scope.ops ++ indexCalls env rule g ∧
      (∀ p ∈ g.indexes, p.2 ≠ []) ∧ (∀ p ∈ g.uniqueIndexes, p.2 ≠ []) ∧
      (∀ p ∈ g.indexes, ∀ a ∈ p.2, a ∈ rule.OutputFields ∧
        ∃ m entry, rule.OutputConstaints = some m ∧ m.lookup a = some (some entry) ∧
          entry.Index ≠ "") ∧
      (∀ p ∈ g.uniqueIndexes, ∀ a ∈ p.2, a ∈ rule.OutputFields ∧
        ∃ m entry, rule.OutputConstaints = some m ∧ m.lookup a = some (some entry) ∧
          entry.UniqueIndex ≠ "") ∧
      (∀ m a entry, rule.OutputConstaints = some m → m.lookup a = some (some entry) →
        (entry.Index ≠ "" →
          listed a g.indexes = rule.OutputFields.count a * (splitComma entry.Index).length) ∧
        (entry.Index = "" → listed a g.indexes = 0) ∧
        (entry.UniqueIndex ≠ "" →
          listed a g.uniqueIndexes
            = rule.OutputFields.count a * (splitComma entry.UniqueIndex).length) ∧
        (entry.UniqueIndex = "" → listed a g.uniqueIndexes = 0)) ∧
      (∀ a, (rule.OutputConstaints = none ∨
          ∃ m, rule.OutputConstaints = some m ∧ m.lookup a = none) →
        listed a g.indexes = 0 ∧ listed a g.uniqueIndexes = 0) := by
  obtain ⟨g, scope1, hg, h1, h2⟩ := autoIndex_run env rule scope hnil
  obtain ⟨ok1, ok2⟩ := autoIndexGroups_ok env rule g hg
  refine ⟨g, scope1, hg, h1, h2, ok1.2, ok2.2, ?_, ?_, ?_, ?_⟩
  · intro p hp a ha
    cases hm : rule.OutputConstaints with
    | none =>
      rw [(autoIndexGroups_nil_map_eq env rule g hm hg).1] at hp
      simp at hp
    | some m =>
      obtain ⟨_, hcols⟩ := ((autoIndexGroups_mem_iff env rule g m hm hg p.1 p.2).1).1 hp
      rw [hcols, mem_filedUnder] at ha
      obtain ⟨haf, hn⟩ := ha
      obtain ⟨piece, hpc, _⟩ := List.mem_map.1 hn
      obtain ⟨entry, hl, hs, _⟩ := mem_piecesOf_specOf m OutputConstraint.Index a piece hpc
      exact ⟨haf, m, entry, rfl, hl, hs⟩
  · intro p hp a ha
    cases hm : rule.OutputConstaints with
    | none =>
      rw [(autoIndexGroups_nil_map_eq env rule g hm hg).2] at hp
      simp at hp
    | some m =>
      obtain ⟨_, hcols⟩ := ((autoIndexGroups_mem_iff env rule g m hm hg p.1 p.2).2).1 hp
      rw [hcols, mem_filedUnder] at ha
      obtain ⟨haf, hn⟩ := ha
      obtain ⟨piece, hpc, _⟩ := List.mem_map.1 hn
      obtain ⟨entry, hl, hs, _⟩ :=
        mem_piecesOf_specOf m OutputConstraint.UniqueIndex a piece hpc
      exact ⟨haf, m, entry, rfl, hl, hs⟩
  · intro m a entry hm hl
    obtain ⟨e1, e2⟩ := autoIndexGroups_eq_passes env rule g m hm hg
    rw [e1, e2, listed_passOver, listed_passOver, listed_nil, Nat.zero_add, Nat.zero_add]
    refine ⟨?_, ?_, ?_, ?_⟩
    · intro hs
      rw [piecesOf_specOf_of_entry m OutputConstraint.Index a entry hl hs]
    · intro hs
      simp [piecesOf, specOf, hl, hs]
    · intro hs
      rw [piecesOf_specOf_of_entry m OutputConstraint.UniqueIndex a entry hl hs]
    · intro hs
      simp [piecesOf, specOf, hl, hs]
  · intro a hcase
    rcases hcase with hm | ⟨m, hm, hl⟩
    · obtain ⟨e1, e2⟩ := autoIndexGroups_nil_map_eq env rule g hm hg
      rw [e1, e2]
      exact ⟨rfl, rfl⟩
    · obtain ⟨e1, e2⟩ := autoIndexGroups_eq_passes env rule g m hm hg
      rw [e1, e2, listed_passOver, listed_passOver, listed_nil]
      simp [piecesOf, specOf, hl]

/-- C20 on the rule where `a` names `idx_t_b` and `b` carries `INDEX`. -/
theorem autoIndex_grouping_complete_witness :
    (∀ f ∈ namedClashRule.OutputFields, ¬ HasNilEntry namedClashRule.OutputConstaints f) ∧
    ∃ g scope1, autoIndexGroups emptyCatalog namedClashRule = some g ∧
      autoIndex emptyCatalog namedClashRule ⟨[], []⟩ = some scope1 ∧
      scope1.ops = [] ++ indexCalls emptyCatalog namedClashRule g ∧
      (∀ p ∈ g.indexes, p.2 ≠ []) ∧ (∀ p ∈ g.uniqueIndexes, p.2 ≠ []) ∧
      (∀ p ∈ g.indexes, ∀ a ∈ p.2, a ∈ namedClashRule.OutputFields ∧
        ∃ m entry, namedClashRule.OutputConstaints = some m ∧
          m.lookup a = some (some entry) ∧ entry.Index ≠ "") ∧
      (∀ p ∈ g.uniqueIndexes, ∀ a ∈ p.2, a ∈ namedClashRule.OutputFields ∧
        ∃ m entry, namedClashRule.OutputConstaints = some m ∧
          m.lookup a = some (some entry) ∧ entry.UniqueIndex ≠ "") ∧
      (∀ m a entry, namedClashRule.OutputConstaints = some m →
        m.lookup a = some (some entry) →
        (entry.Index ≠ "" →
          listed a g.indexes
            = namedClashRule.OutputFields.count a * (splitComma entry.Index).length) ∧
        (entry.Index = "" → listed a g.indexes = 0) ∧
        (entry.UniqueIndex ≠ "" →
          listed a g.uniqueIndexes
            = namedClashRule.OutputFields.count a * (splitComma entry.UniqueIndex).length) ∧
        (entry.UniqueIndex = "" → listed a g.uniqueIndexes = 0)) ∧
      (∀ a, (namedClashRule.OutputConstaints = none ∨
          ∃ m, namedClashRule.OutputConstaints = some m ∧ m.lookup a = none) →
        listed a g.indexes = 0 ∧ listed a g.uniqueIndexes = 0) :=
  ⟨namedClashRule_no_nil,
    autoIndex_grouping_complete emptyCatalog namedClashRule ⟨[], []⟩ namedClashRule_no_nil⟩

end Spider
